import Mathlib

/-!
# HILA preprocessor (hilapp): loop analysis

A shallow embedding of the loop-analysis routines of `hilapp`
(`src/hilapp/src/toplevelvisitor.cpp`, `src/hilapp/src/codegen_avx_new.cpp`)
and the properties proved about them.

Conventions of the embedding

* A `std::list` of descriptors is a `List`; a pointer into `var_info_list`
  (`var_info *`) is the position of the descriptor in that list.
* Syntax-tree nodes (`Expr *`, `DeclRefExpr *`) are records carrying the node
  identity and the results of the read-only queries the code makes on them.
* `reportDiag` appends a record to a list of diagnostics.
* Functions of the tool that live outside the modelled files
  (`is_duplicate_expr`, `find_word`, `inspect_field_type`,
  `is_vectorizable_type`, `legal_types::check_if_legal`) are parameters.
-/

namespace HILA

/-! ## Data model -/

/-- Reduction kinds (`enum class reduction`). -/
inductive reduction where
  | NONE
  | SUM
  | PRODUCT
deriving DecidableEq, Inhabited

/-- The levels of `DiagnosticsEngine::Level` the analysis uses. -/
inductive Level where
  | Note
  | Remark
  | Warning
  | Error
  | Fatal
deriving DecidableEq, Inhabited

/-- One call of `reportDiag(level, location, message, args...)`. The location is
the identity of the node whose source range begins there. -/
structure Diag where
  level : Level
  loc : Nat
  msg : String
  args : List String
deriving DecidableEq, Inhabited

/-- The fields of `vectorization_info` the analysis reads. -/
structure vectorization_info where
  is_vectorizable : Bool
  vector_size : Int
  vectorized_type : String
deriving DecidableEq, Inhabited

/-- One reference to a variable (`struct var_ref`): the referring node, whether
the reference assigns, and the assignment operator. -/
structure var_ref where
  ref : Nat
  is_assigned : Bool
  assignop : String
deriving DecidableEq, Inhabited

/-- One variable of the loop (`struct var_info`). `decl_type` is
`decl->getType().getCanonicalType().getAsString()`; `dependent_vars` holds the
positions in `var_info_list` of the pointed-to descriptors. The names
`reduction_name` and `new_name` are used by the code generators only. -/
structure var_info where
  name : String
  type : String
  decl_type : String
  refs : List var_ref
  is_loop_local : Bool
  is_raw : Bool
  is_assigned : Bool
  is_site_dependent : Bool
  is_special_reduction_type : Bool
  reduction_type : reduction
  dependent_vars : List Nat
  vecinfo : vectorization_info
  reduction_name : String := ""
  new_name : String := ""
deriving DecidableEq, Inhabited

/-! ## `get_reduction_type` (toplevelvisitor.cpp) -/

/-- Utility to find the reduction type. -/
def get_reduction_type (is_assign : Bool) (assignop : String) (vi : var_info) : reduction :=
  if is_assign && !vi.is_loop_local then
    if assignop = "+=" then reduction.SUM
    else if assignop = "*=" then reduction.PRODUCT
    else reduction.NONE
  else reduction.NONE

/-! ## `check_var_info_list`: propagation of site dependence -/

/-- Value of `d->is_site_dependent` for the descriptor at position `d`. -/
def sd_at (l : List var_info) (d : Nat) : Bool :=
  match l[d]? with
  | some v => v.is_site_dependent
  | none => false

/-- The inner loop `for (var_info *d : vi.dependent_vars) if (d->is_site_dependent) ...`:
true when some dependency is marked. -/
def has_marked_dependency (l : List var_info) (deps : List Nat) : Bool :=
  deps.any (fun d => sd_at l d)

/-- Body of the `for (var_info &vi : var_info_list)` loop of the propagation, for
the element at position `i`; the state is the list (updated in place) and the
counter `found`. -/
def propagate_visit (st : List var_info × Nat) (i : Nat) : List var_info × Nat :=
  match st.1[i]? with
  | none => st
  | some vi =>
    if vi.is_site_dependent = false ∧ has_marked_dependency st.1 vi.dependent_vars = true then
      (st.1.set i { vi with is_site_dependent := true }, st.2 + 1)
    else st

/-- The first `n` iterations of one pass, starting with `found = 0`. -/
def propagate_upto (l : List var_info) (n : Nat) : List var_info × Nat :=
  (List.range n).foldl propagate_visit (l, 0)

/-- One full pass over `var_info_list`: the body of the `do ... while`. -/
def propagate_pass (l : List var_info) : List var_info × Nat :=
  propagate_upto l l.length

/-- The loop `do { found = 0; ... } while (found > 0)`. The result is the final
list together with the number of passes performed; `none` when the fuel does not
suffice. -/
def propagate_loop : Nat → List var_info → Option (List var_info × Nat)
  | 0, _ => none
  | fuel + 1, l =>
    let r := propagate_pass l
    if r.2 > 0 then
      match propagate_loop fuel r.1 with
      | some (l', passes) => some (l', passes + 1)
      | none => none
    else some (r.1, 1)

/-! ## `check_var_info_list`: diagnostics and the whole routine -/

/-- The block guarded by `if (false && vi.refs.size() > 1)`: an Error at the first
reference with `+=` or `*=` (where the first loop breaks, leaving `i` at its
index), then a Remark for every reference whose index differs from `i`. -/
def reduction_once_diags (vi : var_info) : List Diag :=
  let is_red := fun (vr : var_ref) => vr.assignop == "+=" || vr.assignop == "*="
  let i := vi.refs.findIdx is_red
  let first : List Diag :=
    match vi.refs.find? is_red with
    | some vr =>
      [⟨Level.Error, vr.ref,
        "reduction variable '%0' used more than once within one site loop", [vi.name]⟩]
    | none => []
  let others : List Diag :=
    (vi.refs.enum.filter (fun jr => jr.1 != i)).map
      (fun jr => ⟨Level.Remark, jr.2.ref, "other reference to '%0'", [vi.name]⟩)
  first ++ others

/-- Diagnostics that the first loop of `check_var_info_list` reports for one
variable. `check_if_legal` and `legal_as_string` stand for
`default_legal_types.check_if_legal` and `default_legal_types.as_string()`. -/
def check_var_diags (check_if_legal : String → Bool) (legal_as_string : String)
    (vi : var_info) : List Diag :=
  if !vi.is_loop_local && !vi.is_raw then
    (if vi.reduction_type ≠ reduction.NONE then
      (if false && decide (vi.refs.length > 1) then reduction_once_diags vi else [])
    else if vi.is_special_reduction_type then
      vi.refs.map (fun vr =>
        ⟨Level.Error, vr.ref,
          "variables of type Reduction<T> are restricted only for reductions (on the lhs of '+=')",
          []⟩)
    else if vi.is_assigned then
      (vi.refs.filter (fun vr => vr.is_assigned)).map (fun vr =>
        ⟨Level.Error, vr.ref,
          "cannot assign to variable defined outside site loop (unless reduction '+=' or '*=')",
          []⟩)
    else [])
    ++
    (if vi.reduction_type = reduction.PRODUCT then
      (if !check_if_legal vi.decl_type then
        vi.refs.map (fun vr =>
          ⟨Level.Error, vr.ref,
            "\nProduct reduction variable of type '%0' not allowed. \nMust be of type: '%1'",
            [vi.decl_type, legal_as_string]⟩)
      else [])
    else [])
  else []

/-- The last loop of `check_var_info_list`, run when `target.vectorize` is set:
`vi.vecinfo.is_vectorizable = is_vectorizable_type(vi.type, vi.vecinfo)` for
every variable that is not raw. `is_vectorizable_type` returns its result and
the `vecinfo` it has filled in. -/
def set_vectorized_types
    (is_vectorizable_type : String → vectorization_info → Bool × vectorization_info)
    (l : List var_info) : List var_info :=
  l.map (fun vi =>
    if !vi.is_raw then
      let r := is_vectorizable_type vi.type vi.vecinfo
      { vi with vecinfo := { r.2 with is_vectorizable := r.1 } }
    else vi)

/-- The routine `TopLevelVisitor::check_var_info_list`: the diagnostics it
reports and `var_info_list` after the call; `none` when the fuel of the
propagation loop does not suffice. -/
def check_var_info_list (check_if_legal : String → Bool) (legal_as_string : String)
    (vectorize : Bool)
    (is_vectorizable_type : String → vectorization_info → Bool × vectorization_info)
    (fuel : Nat) (l : List var_info) : Option (List Diag × List var_info) :=
  let diags := l.flatMap (check_var_diags check_if_legal legal_as_string)
  match propagate_loop fuel l with
  | none => none
  | some (l', _) =>
    some (diags, if vectorize then set_vectorized_types is_vectorizable_type l' else l')

/-! ## Field references: data model -/

/-- The loop parity (`enum class Parity`); `none` is a parity that is not known
when the loop is analysed. -/
inductive Parity where
  | none
  | even
  | odd
  | all
  | x
deriving DecidableEq, Inhabited

/-- A syntax-tree expression node: its identity (also used as its source
location) and the results of `get_stmt_str`, `get_expr_type` and of the
canonical type query
`getType().getUnqualifiedType().getCanonicalType().getAsString(PP)`. -/
structure Expr where
  id : Nat
  text : String
  type : String
  canonical_type : String
deriving DecidableEq, Inhabited

/-- One occurrence of a field access (`struct field_ref`). The pointer `info` is
kept apart, see `field_check_result.info`. -/
structure field_ref where
  fullExpr : Expr
  nameExpr : Expr
  parityExpr : Expr
  direxpr_s : String
  sequence : Int
  is_written : Bool
  is_read : Bool
  is_direction : Bool
  is_constant_direction : Bool
  is_offset : Bool
  is_loop_local_dir : Bool
  constant_value : Int
deriving DecidableEq, Inhabited

/-- One direction used with a field (`struct dir_ptr`); `ref_list` holds the
positions in `field_ref_list` of the pointed-to references. -/
structure dir_ptr where
  parityExpr : Expr
  direxpr_s : String
  ref_list : List Nat
  count : Nat
  is_offset : Bool
  is_constant_direction : Bool
  constant_value : Int
  is_loop_local_dir : Bool
  name_with_dir : String := ""
deriving DecidableEq, Inhabited

/-- One field of the loop (`struct field_info`); `ref_list` holds the positions
in `field_ref_list` of the pointed-to references. -/
structure field_info where
  type_template : String
  element_type : String
  old_name : String
  nameExpr : Expr
  vecinfo : vectorization_info
  dir_list : List dir_ptr
  ref_list : List Nat
  first_assign_seq : Int
  is_written : Bool
  is_read_atX : Bool
  is_read_nb : Bool
  is_read_offset : Bool
  is_loop_local_dir : Bool
  new_name : String := ""
  loop_ref_name : String := ""
deriving DecidableEq, Inhabited

/-- The members of `loop_info` that the modelled routines read. -/
structure loop_info_struct where
  parity_value : Parity
  parity_text : String
  has_pragma_safe : Bool
  pragma_safe_args : String
  has_site_dependent_conditional : Bool
deriving DecidableEq, Inhabited

/-! ## `check_field_ref_list` (toplevelvisitor.cpp) -/

/-- The test `lfv.type_template.find("Field", 0) != 0` fails, that is the type
name starts with `Field`. -/
def starts_with_Field (t : String) : Bool :=
  "Field".data.isPrefixOf t.data

/-- The element type cut out of the canonical type:
`a = find('<') + 1; b = rfind('>') - a; substr(a, b)`, where a search without
result gives `npos`, so that `a = 0`, and a negative `b` takes the rest. -/
def element_type_of (canonical : String) : String :=
  let cs := canonical.data
  let a : Nat := if cs.contains '<' then cs.indexOf '<' + 1 else 0
  let r : Int :=
    if cs.contains '>' then ((cs.length - 1 - cs.reverse.indexOf '>' : Nat) : Int) else -1
  let b : Int := r - a
  if b < 0 then String.mk (cs.drop a) else String.mk ((cs.drop a).take b.toNat)

/-- Modelled from the spec: the default-constructed `field_info`, whose
declaration (in hilapp.h) is not among the sources. It is the descriptor of a
field for which no reference has been recorded yet: not written, not read, no
direction and no reference, and no vectorization info. -/
def field_info_default : field_info :=
  { type_template := ""
    element_type := ""
    old_name := ""
    nameExpr := ⟨0, "", "", ""⟩
    vecinfo := ⟨false, 0, ""⟩
    dir_list := []
    ref_list := []
    first_assign_seq := 0
    is_written := false
    is_read_atX := false
    is_read_nb := false
    is_read_offset := false
    is_loop_local_dir := false }

/-- The `field_info lfv` built for the first reference to a field, before the
reference is recorded in it. -/
def new_field_info (p : field_ref) : field_info :=
  { field_info_default with
    old_name := p.nameExpr.text
    type_template := String.mk (p.nameExpr.type.data.drop 5)
    element_type := element_type_of p.nameExpr.canonical_type
    nameExpr := p.nameExpr }

/-- The test that decides whether the direction entry `dp` is the direction of
the reference `p`. -/
def same_direction (is_duplicate_expr : Expr → Expr → Bool) (p : field_ref) (dp : dir_ptr) :
    Bool :=
  if p.is_constant_direction then
    dp.is_constant_direction && dp.constant_value == p.constant_value
  else is_duplicate_expr dp.parityExpr p.parityExpr

/-- The direction entry pushed when no entry of the field matches. -/
def new_dir_ptr (p : field_ref) (k : Nat) : dir_ptr :=
  { parityExpr := p.parityExpr
    direxpr_s := p.direxpr_s
    ref_list := [k]
    count := if p.is_offset = false then 1 else 0
    is_offset := p.is_offset
    is_constant_direction := p.is_constant_direction
    constant_value := p.constant_value
    is_loop_local_dir := p.is_loop_local_dir }

/-- The search through `fip->dir_list` for the direction of reference `p` (at
position `k` of `field_ref_list`): the first matching entry counts the reference,
otherwise a new entry is pushed at the back. -/
def update_dir_list (is_duplicate_expr : Expr → Expr → Bool) (p : field_ref) (k : Nat) :
    List dir_ptr → List dir_ptr
  | [] => [new_dir_ptr p k]
  | dp :: rest =>
    if same_direction is_duplicate_expr p dp then
      { dp with count := dp.count + (if p.is_offset = false then 1 else 0),
                ref_list := dp.ref_list ++ [k] } :: rest
    else dp :: update_dir_list is_duplicate_expr p k rest

/-- The updates of `*fip` for the reference `p` at position `k`. -/
def record_ref (is_duplicate_expr : Expr → Expr → Bool) (p : field_ref) (k : Nat)
    (fi : field_info) : field_info :=
  let fi1 : field_info :=
    if p.is_written && !fi.is_written then
      { fi with first_assign_seq := p.sequence, is_written := true }
    else fi
  let fi2 : field_info :=
    if p.is_read then
      (if p.is_direction then { fi1 with is_read_nb := true }
       else if !fi1.is_written || decide (fi1.first_assign_seq ≥ p.sequence) then
         { fi1 with is_read_atX := true }
       else fi1)
    else fi1
  let fi3 : field_info := if p.is_offset then { fi2 with is_read_offset := true } else fi2
  let fi4 : field_info := { fi3 with ref_list := fi3.ref_list ++ [k] }
  if p.is_direction then
    let fi5 : field_info :=
      if p.is_loop_local_dir then { fi4 with is_loop_local_dir := true } else fi4
    { fi5 with dir_list := update_dir_list is_duplicate_expr p k fi5.dir_list }
  else fi4

/-- State of the first loop of `check_field_ref_list`; `info` collects, in the
order of `field_ref_list`, the position in `field_info_list` that `p.info` is
set to. -/
structure field_state where
  field_info_list : List field_info
  info : List Nat
  diags : List Diag
  no_errors : Bool
deriving DecidableEq, Inhabited

/-- Body of the loop `for (field_ref &p : field_ref_list)` for the reference `p`
at position `k`. -/
def visit_field_ref (is_duplicate_expr : Expr → Expr → Bool) (st : field_state)
    (kp : Nat × field_ref) : field_state :=
  let k := kp.1
  let p := kp.2
  match st.field_info_list.findIdx? (fun li => is_duplicate_expr li.nameExpr p.nameExpr) with
  | some idx =>
    { st with
      field_info_list :=
        st.field_info_list.modify (record_ref is_duplicate_expr p k) idx
      info := st.info ++ [idx] }
  | none =>
    let bad := !starts_with_Field p.nameExpr.type
    { field_info_list :=
        st.field_info_list ++ [record_ref is_duplicate_expr p k (new_field_info p)]
      info := st.info ++ [st.field_info_list.length]
      diags := st.diags ++
        (if bad then
          [⟨Level.Error, p.nameExpr.id, "confused: type of Field expression?", []⟩]
        else [])
      no_errors := if bad then false else st.no_errors }

/-- The test of the second loop that makes a reference a culprit. `find_word`
returns the position of the word, `none` for `std::string::npos`. -/
def is_culprit (find_word : String → String → Option Nat) (li : loop_info_struct)
    (p : field_ref) : Bool :=
  p.is_direction && !p.is_written && !p.is_offset &&
    !(li.has_pragma_safe && (find_word li.pragma_safe_args p.nameExpr.text).isSome)

/-- What the culprit search reports for one reference of the field `l`: the
diagnostics, whether `found_error` is set, and whether `no_errors` is cleared. -/
def culprit_report (find_word : String → String → Option Nat) (li : loop_info_struct)
    (l : field_info) (p : field_ref) : List Diag × Bool × Bool :=
  if is_culprit find_word li p then
    if li.parity_value = Parity.all then
      ([⟨Level.Error, p.parityExpr.id,
          "simultaneous access '%0' and assignment '%1' not allowed with parity ALL",
          [p.fullExpr.text, l.old_name]⟩], true, true)
    else if li.parity_value = Parity.none then
      ([⟨Level.Remark, p.parityExpr.id,
          "simultaneous access '%0' and assignment to '%1' is allowed only when parity %2 is EVEN or ODD.  Inserting assertion to ensure that.",
          [p.fullExpr.text, l.old_name, li.parity_text]⟩], true, false)
    else ([], false, false)
  else ([], false, false)

/-- The references a `ref_list` points to. -/
def deref (refs : List field_ref) (ref_list : List Nat) : List field_ref :=
  ref_list.filterMap (fun k => refs[k]?)

/-- The check for `f[ALL] = f[X+dir]` use of the field `l` in the second loop:
the diagnostics reported and whether an Error was among them. -/
def hazard_check (find_word : String → String → Option Nat) (li : loop_info_struct)
    (refs : List field_ref) (l : field_info) : List Diag × Bool :=
  if l.is_written && decide (l.dir_list.length > 0) then
    let reports := (deref refs l.ref_list).map (culprit_report find_word li l)
    let found_error := reports.any (fun r => r.2.1)
    let notes : List Diag :=
      if found_error then
        ((deref refs l.ref_list).filter (fun p => p.is_written)).map
          (fun p => ⟨Level.Note, p.fullExpr.id, "location of assignment", []⟩)
      else []
    (reports.flatMap (fun r => r.1) ++ notes, reports.any (fun r => r.2.2))
  else ([], false)

/-- Result of `check_field_ref_list`: the return value, the diagnostics,
`field_info_list`, the values of the `info` pointers of the references and
`global.assert_loop_parity`. -/
structure field_check_result where
  no_errors : Bool
  diags : List Diag
  field_info_list : List field_info
  info : List Nat
  assert_loop_parity : Bool
deriving DecidableEq, Inhabited

/-- The first loop of `check_field_ref_list`, which builds `field_info_list`. -/
def collect_fields (is_duplicate_expr : Expr → Expr → Bool) (refs : List field_ref) :
    field_state :=
  refs.enum.foldl (visit_field_ref is_duplicate_expr) ⟨[], [], [], true⟩

/-- The routine `TopLevelVisitor::check_field_ref_list`. -/
def check_field_ref_list (is_duplicate_expr : Expr → Expr → Bool)
    (find_word : String → String → Option Nat)
    (inspect_field_type : Expr → vectorization_info)
    (li : loop_info_struct) (refs : List field_ref) : field_check_result :=
  let st := collect_fields is_duplicate_expr refs
  let checks := st.field_info_list.map (hazard_check find_word li refs)
  { no_errors := st.no_errors && !checks.any (fun c => c.2)
    diags := st.diags ++ checks.flatMap (fun c => c.1)
    field_info_list :=
      st.field_info_list.map (fun l => { l with vecinfo := inspect_field_type l.nameExpr })
    info := st.info
    assert_loop_parity := false }

/-! ## `check_loop_vectorizable` (codegen_avx_new.cpp) -/

/-- The local variables `is_vectorizable`, `vector_size`, `diag_count` and
`reason` of `check_loop_vectorizable`. -/
structure vec_state where
  is_vectorizable : Bool
  vector_size : Int
  diag_count : Int
  reason : String
deriving DecidableEq, Inhabited

/-- The statements
`is_vectorizable = false; if (diag_count++ > 0) reason += "\n"; reason += text;`. -/
def add_reason (st : vec_state) (text : String) : vec_state :=
  { st with
    is_vectorizable := false
    diag_count := st.diag_count + 1
    reason := (if st.diag_count > 0 then st.reason ++ "\n" else st.reason) ++ text }

/-- The size-mismatch message. It names `field_info_list.begin()->old_name`;
`first` is `none` when `field_info_list` is empty, and then the dereference has
no defined result. -/
def size_mismatch (first : Option String) (st : vec_state) (name : String) (size : Int) :
    Option vec_state :=
  match first with
  | none => none
  | some first_name =>
    some (add_reason st
      ("vector size of variables '" ++ name ++ "' is " ++ toString size ++ " and '" ++
        first_name ++ "' is " ++ toString st.vector_size))

/-- Body of the loop over `field_info_list`. -/
def check_field (first : Option String) (st : vec_state) (fi : field_info) :
    Option vec_state :=
  if !fi.vecinfo.is_vectorizable then
    some (add_reason st ("field variable '" ++ fi.old_name ++ "' is not vectorizable"))
  else if st.vector_size = 0 then
    some { st with vector_size := fi.vecinfo.vector_size }
  else if fi.vecinfo.vector_size ≠ st.vector_size then
    size_mismatch first st fi.old_name fi.vecinfo.vector_size
  else some st

/-- Body of the loop over `var_info_list`. -/
def check_var (first : Option String) (st : vec_state) (vi : var_info) : Option vec_state :=
  if vi.is_site_dependent then
    if vi.vecinfo.is_vectorizable then
      if st.vector_size = 0 then
        some { st with vector_size := vi.vecinfo.vector_size }
      else if st.vector_size ≠ vi.vecinfo.vector_size then
        size_mismatch first st vi.name vi.vecinfo.vector_size
      else some st
    else some (add_reason st ("variable '" ++ vi.name ++ "' is not vectorizable"))
  else some st

/-- Result of `check_loop_vectorizable`: the return value, the output arguments
`vector_size` and `diag_str`, and the diagnostics reported. -/
structure vectorizable_result where
  ret : Bool
  vector_size : Int
  diag_str : String
  diags : List Diag
deriving DecidableEq, Inhabited

/-- The state before the loops: `vector_size = 0`, and the test of the site
dependent conditional. -/
def vec_init (li : loop_info_struct) : vec_state :=
  if !(!li.has_site_dependent_conditional) then
    { is_vectorizable := false, vector_size := 0, diag_count := 1,
      reason := "it contains site dependent conditional" }
  else { is_vectorizable := true, vector_size := 0, diag_count := 0, reason := "" }

/-- The end of `check_loop_vectorizable`: `diag_str`, the Remark, the return
value. `S` is the location of the loop statement. -/
def vec_finish (avx_info verbosity : Int) (S : Nat) (st : vec_state) : vectorizable_result :=
  if !st.is_vectorizable then
    { ret := false
      vector_size := st.vector_size
      diag_str := "Loop is not AVX vectorizable because " ++ st.reason
      diags :=
        if avx_info > 0 ∨ verbosity > 0 then
          [⟨Level.Remark, S, "Loop is not AVX vectorizable because %0", [st.reason]⟩]
        else [] }
  else
    { ret := true
      vector_size := st.vector_size
      diag_str := "Loop is AVX vectorizable"
      diags :=
        if avx_info > 1 ∨ verbosity > 1 then
          [⟨Level.Remark, S, "Loop is AVX vectorizable", []⟩]
        else [] }

/-- The routine `MyASTVisitor::check_loop_vectorizable`; `avx_info` and
`verbosity` are the command line settings. The result is `none` when the
routine dereferences `field_info_list.begin()` of an empty list. -/
def check_loop_vectorizable (li : loop_info_struct) (avx_info verbosity : Int) (S : Nat)
    (field_info_list : List field_info) (var_info_list : List var_info) :
    Option vectorizable_result :=
  let first := field_info_list.head?.map (fun fi => fi.old_name)
  match field_info_list.foldlM (check_field first) (vec_init li) with
  | none => none
  | some st1 =>
    match var_info_list.foldlM (check_var first) st1 with
    | none => none
    | some st2 => some (vec_finish avx_info verbosity S st2)

/-! ## `remove_vars_out_of_scope` (toplevelvisitor.cpp) -/

/-- One declaration of a loop local variable (`struct var_decl`). The scope is
the value that the unsigned counter `parsing_state.scope_level` had at the
declaration. -/
structure var_decl where
  decl : Nat
  name : String
  type : String
  scope : Nat
deriving DecidableEq, Inhabited

/-- The loop condition
`var_decl_list.size() > 0 && var_decl_list.back().scope > level`. -/
def back_out_of_scope (level : Nat) (var_decl_list : List var_decl) : Bool :=
  match var_decl_list.getLast? with
  | some d => decide (d.scope > level)
  | none => false

/-- The loop `while (...) var_decl_list.pop_back();` of
`remove_vars_out_of_scope`; `none` when the fuel does not suffice. -/
def remove_vars_loop : Nat → Nat → List var_decl → Option (List var_decl)
  | 0, level, l => if back_out_of_scope level l then none else some l
  | fuel + 1, level, l =>
    if back_out_of_scope level l then remove_vars_loop fuel level l.dropLast else some l

/-- The routine `TopLevelVisitor::remove_vars_out_of_scope(level)`: the list
`var_decl_list` after the call. Every iteration pops one declaration, so the
length of the list is enough fuel (`remove_vars_loop_total`). -/
def remove_vars_out_of_scope (level : Nat) (var_decl_list : List var_decl) :
    Option (List var_decl) :=
  remove_vars_loop var_decl_list.length level var_decl_list

/-! ## `find_OP_bin_index` (expanded_ensemble_multicanonical.cpp) -/

/-- A value of type `double`: NaN, or a value that can be compared, from a linear
order `α` (the finite values and the two infinities). -/
inductive double (α : Type) where
  | NaN
  | value (x : α)
deriving DecidableEq, Inhabited

/-- The comparison `a <= b` of two values of type `double`: false when one of them is
NaN. -/
def double.le {α : Type} [LinearOrder α] : double α → double α → Bool
  | double.value x, double.value y => decide (x ≤ y)
  | _, _ => false

/-- The comparison `a < b` of two values of type `double`: false when one of them is
NaN. -/
def double.lt {α : Type} [LinearOrder α] : double α → double α → Bool
  | double.value x, double.value y => decide (x < y)
  | _, _ => false

instance double.instLE {α : Type} [LinearOrder α] : LE (double α) :=
  ⟨fun a b => double.le a b = true⟩

instance double.instLT {α : Type} [LinearOrder α] : LT (double α) :=
  ⟨fun a b => double.lt a b = true⟩

instance double.decidableLE {α : Type} [LinearOrder α] (a b : double α) : Decidable (a ≤ b) :=
  inferInstanceAs (Decidable (double.le a b = true))

instance double.decidableLT {α : Type} [LinearOrder α] (a b : double α) : Decidable (a < b) :=
  inferInstanceAs (Decidable (double.lt a b = true))

/-- The library routine `std::lower_bound(begin, end, value)` by its contract: the
distance from `begin` to the first element that is not less than `value`, the
length of the range when there is none. -/
def lower_bound {α : Type} [LT α] [DecidableRel (fun a b : α => a < b)] (v : List α)
    (value : α) : Nat :=
  v.findIdx (fun e => !decide (e < value))

/-- The routine `find_OP_bin_index(OP, ci)`; `g_OPBinLimits` holds the bin edges
of every chain. The order parameter and the edges are `double` values, which the
routine only compares: they are taken from a type with the comparisons `<=` and
`<`, which is `double α` with its NaN, or a linear order when all values are
numbers. The result is `none` when `ci` is not a chain or the chain has no edge,
where the accesses `g_OPBinLimits[ci]`, `front()` and `back()` are not defined. -/
def find_OP_bin_index {α : Type} [LE α] [LT α] [DecidableRel (fun a b : α => a ≤ b)]
    [DecidableRel (fun a b : α => a < b)] (g_OPBinLimits : List (List α)) (OP : α)
    (ci : Nat) : Option Int :=
  match g_OPBinLimits[ci]? with
  | none => none
  | some limits =>
    match limits.head?, limits.getLast? with
    | some front, some back =>
      if OP ≤ front then some (-1)
      else if OP ≥ back then some (-1)
      else
        let lower_limit : Int := (lower_bound limits OP : Int) - 1
        some lower_limit
    | _, _ => none

/-! ## `TopLevelVisitor::TraverseStmt` (toplevelvisitor.cpp) -/

/-- A statement node of the syntax tree: its identity and its children, in the
order in which the base class `RecursiveASTVisitor` traverses them. -/
inductive Stmt where
  | node (id : Nat) (children : List Stmt)

/-- The flags `parsing_state` of `TopLevelVisitor` (toplevelvisitor.h);
`skip_children` and `scope_level` are `unsigned`. -/
structure parsing_state_t where
  skip_children : Nat
  scope_level : Nat
  ast_depth : Int
  stmt_sequence : Int
  in_loop_body : Bool
  accept_field_parity : Bool
  loop_function_next : Bool
deriving DecidableEq, Inhabited

/-- State of a traversal: the flags, and the identities of the nodes that the base
class has visited (called `VisitStmt` for) so far. -/
structure traversal where
  parsing_state : parsing_state_t
  visited : List Nat
deriving DecidableEq, Inhabited

/-- The statement `if (parsing_state.skip_children > 0) parsing_state.skip_children++;`. -/
def enter_skip (ps : parsing_state_t) : parsing_state_t :=
  if ps.skip_children > 0 then { ps with skip_children := (ps.skip_children + 1) % 2 ^ 32 }
  else ps

/-- The statement `parsing_state.ast_depth++;`. -/
def enter_depth (ps : parsing_state_t) : parsing_state_t :=
  { ps with ast_depth := ps.ast_depth + 1 }

/-- The statement `if (parsing_state.ast_depth > 0) parsing_state.ast_depth--;`. -/
def leave_depth (t : traversal) : traversal :=
  if t.parsing_state.ast_depth > 0 then
    { t with parsing_state := { t.parsing_state with ast_depth := t.parsing_state.ast_depth - 1 } }
  else t

/-- The statement `if (parsing_state.skip_children > 0) parsing_state.skip_children--;`. -/
def leave_skip (t : traversal) : traversal :=
  if t.parsing_state.skip_children > 0 then
    { t with parsing_state :=
      { t.parsing_state with skip_children := t.parsing_state.skip_children - 1 } }
  else t

/-- What one call of `VisitStmt` does, as far as the traversal sees it. The handlers
of the visit call `TraverseStmt` themselves for parts of the visited node
(`TraverseStmt(assignee)`, `TraverseStmt(ip)` for an index expression): `nested`
lists these calls in their order, each with the change of the flags that precedes
it and with the descendant it is for, given by the positions of the children on
the way down from the visited node. `finish` gives, from the flags after these
calls, the value that `VisitStmt` returns and the flags that it leaves. -/
structure visit_plan where
  nested : List ((parsing_state_t → parsing_state_t) × List Nat)
  finish : parsing_state_t → Bool × parsing_state_t

/-- One call of `VisitStmt` with the plan `plan`, where `traverse_nested` is what
`TraverseStmt` does for a descendant of the visited node: the value returned and
the state of the traversal afterwards. -/
def run_visit (traverse_nested : List Nat → traversal → traversal) (plan : visit_plan)
    (t : traversal) : Bool × traversal :=
  ((plan.finish (plan.nested.foldl
      (fun u step => traverse_nested step.2 ⟨step.1 u.parsing_state, u.visited⟩)
      t).parsing_state).1,
    ⟨(plan.finish (plan.nested.foldl
      (fun u step => traverse_nested step.2 ⟨step.1 u.parsing_state, u.visited⟩)
      t).parsing_state).2,
     (plan.nested.foldl
      (fun u step => traverse_nested step.2 ⟨step.1 u.parsing_state, u.visited⟩)
      t).visited⟩)

mutual
/-- The routine `TopLevelVisitor::TraverseStmt`. When `skip_children` is zero it
goes via `RecursiveASTVisitor<TopLevelVisitor>::TraverseStmt`, which visits the node
(`VisitStmt`, whose plan for a node and the flags at its start is a parameter
here) and, when the visit returns true, traverses the children through
`TraverseStmt`. The node is entered in `visited` when `VisitStmt` is called for
it. -/
def TraverseStmt (VisitStmt : Stmt → parsing_state_t → visit_plan) :
    Stmt → traversal → traversal
  | Stmt.node id children, t =>
    leave_skip
      (if (enter_skip t.parsing_state).skip_children = 0 then
        leave_depth
          (if (run_visit (traverse_at VisitStmt children)
              (VisitStmt (Stmt.node id children) (enter_depth (enter_skip t.parsing_state)))
              ⟨enter_depth (enter_skip t.parsing_state), t.visited ++ [id]⟩).1 then
            traverse_children VisitStmt children
              (run_visit (traverse_at VisitStmt children)
                (VisitStmt (Stmt.node id children) (enter_depth (enter_skip t.parsing_state)))
                ⟨enter_depth (enter_skip t.parsing_state), t.visited ++ [id]⟩).2
          else
            (run_visit (traverse_at VisitStmt children)
              (VisitStmt (Stmt.node id children) (enter_depth (enter_skip t.parsing_state)))
              ⟨enter_depth (enter_skip t.parsing_state), t.visited ++ [id]⟩).2)
      else ⟨enter_skip t.parsing_state, t.visited⟩)
/-- The traversal of the children of a node by the base class, one call of
`TraverseStmt` per child. -/
def traverse_children (VisitStmt : Stmt → parsing_state_t → visit_plan) :
    List Stmt → traversal → traversal
  | [], t => t
  | c :: rest, t => traverse_children VisitStmt rest (TraverseStmt VisitStmt c t)
/-- The call of `TraverseStmt` for the descendant that the positions lead to, from
the list of the children of a node; nothing is traversed when there is no such
descendant. -/
def traverse_at (VisitStmt : Stmt → parsing_state_t → visit_plan) :
    List Stmt → List Nat → traversal → traversal
  | [], _, t => t
  | _ :: _, [], t => t
  | c :: _, [0], t => TraverseStmt VisitStmt c t
  | Stmt.node _ cs :: _, 0 :: j :: more, t => traverse_at VisitStmt cs (j :: more) t
  | _ :: rest, (i + 1) :: more, t => traverse_at VisitStmt rest (i :: more) t
end

/-- The call of `VisitStmt` that `TraverseStmt` makes for the node `id` from the
state `t` with `skip_children` zero: the value returned and the state after the
visit, with the visits that the handlers made through their own calls of
`TraverseStmt`. -/
def visit_of (VisitStmt : Stmt → parsing_state_t → visit_plan) (id : Nat)
    (children : List Stmt) (t : traversal) : Bool × traversal :=
  run_visit (traverse_at VisitStmt children)
    (VisitStmt (Stmt.node id children) (enter_depth t.parsing_state))
    ⟨enter_depth t.parsing_state, t.visited ++ [id]⟩

/-! ## `generate_code_avx` (codegen_avx_new.cpp) -/

/-- One reduction to an element of a vector or array (`struct vector_reduction_ref`). -/
structure vector_reduction_ref where
  ref : Nat
  type : String
  index_name : String
  vector_name : String
  reduction_type : reduction
deriving DecidableEq, Inhabited

/-- What `generate_code_avx` gets from outside the modelled files: `comment_string`
and `remove_X` (string utilities), the code that `generate_code_cpu` returns, the
globals `looping_var` and `parity_in_this_loop`, and of the buffer `loopBuf` the
text `loopBuf.dump()` of the loop body after all replacements and the text
`loopBuf.get(range)` of a direction expression. -/
structure avx_environment where
  comment_string : String → String
  remove_X : String → String
  generate_code_cpu : String
  looping_var : String
  parity_in_this_loop : String
  loopBuf_dump : String
  loopBuf_get : Expr → String

/-- Body of the loop "Create temporary variables for reductions": the code
emitted so far and the variables with `new_name` set. -/
def avx_declare_reduction (st : String × List var_info) (v : var_info) :
    String × List var_info :=
  if v.reduction_type ≠ reduction.NONE then
    let new_name := "v_" ++ v.reduction_name
    let code := st.1 ++ v.vecinfo.vectorized_type ++ " " ++ new_name
    (if v.reduction_type = reduction.SUM then code ++ "(0);\n"
     else if v.reduction_type = reduction.PRODUCT then code ++ "(1);\n"
     else code,
     st.2 ++ [{ v with new_name := new_name }])
  else (st.1, st.2 ++ [v])

/-- Body of the loop "Add vector reduction variable here, inside the loop". -/
def avx_declare_vector_reduction (code : String) (vrf : vector_reduction_ref) : String :=
  let code1 :=
    if vrf.reduction_type = reduction.SUM then
      code ++ "vectorize_struct<" ++ vrf.type ++ ", vector_size>::type v_" ++
        vrf.vector_name ++ "(0);\n"
    else code
  if vrf.reduction_type = reduction.PRODUCT then
    code1 ++ "vectorize_struct<" ++ vrf.type ++ ", vector_size>::type v_" ++
      vrf.vector_name ++ "(1);\n"
  else code1

/-- The neighbour fetch emitted for one direction of the field `l`. -/
def avx_fetch_direction (env : avx_environment) (l : field_info) (code : String)
    (d : dir_ptr) : String :=
  if d.count > 0 then
    let dirname :=
      if d.is_constant_direction then d.direxpr_s
      else env.remove_X (env.loopBuf_get d.parityExpr)
    code ++ l.vecinfo.vectorized_type ++ " " ++ d.name_with_dir ++ " = " ++ l.new_name ++
      ".get_vector_at<" ++ l.vecinfo.vectorized_type ++ ">(loop_lattice->neighbours[" ++
      dirname ++ "][" ++ env.looping_var ++ "]);\n"
  else code

/-- Body of the loop "Create temporary field element variables". -/
def avx_field_temporaries (env : avx_environment) (code : String) (l : field_info) : String :=
  let code1 :=
    if l.is_read_nb then l.dir_list.foldl (avx_fetch_direction env l) code else code
  if l.is_read_atX then
    code1 ++ l.vecinfo.vectorized_type ++ " " ++ l.loop_ref_name ++ " = " ++ l.new_name ++
      ".get_vector_at<" ++ l.vecinfo.vectorized_type ++ ">(" ++ env.looping_var ++ ");\n"
  else if l.is_written then
    code1 ++ l.vecinfo.vectorized_type ++ " " ++ l.loop_ref_name ++ ";\n"
  else code1

/-- Body of the loop "Add vector reductions"; the counter `i` is never
incremented and stays 0. -/
def avx_vector_reduction (code : String) (vrf : vector_reduction_ref) : String :=
  let i : Int := 0
  let code1 := code ++ "int v_index_" ++ toString i ++ "[vector_size];\n" ++
    vrf.index_name ++ ".store(&v_index_" ++ toString i ++ "[0]);\n" ++
    vrf.type ++ " a_" ++ vrf.vector_name ++ "[vector_size];\n" ++
    "v_" ++ vrf.vector_name ++ ".store(&a_" ++ vrf.vector_name ++ "[0]);\n" ++
    "for( int i=0; i<vector_size; i++)\x7b\n"
  let code2 :=
    if vrf.reduction_type = reduction.SUM then
      code1 ++ vrf.vector_name ++ "[v_index_" ++ toString i ++ "[i]] += " ++
        "a_" ++ vrf.vector_name ++ "[i];\n"
    else code1
  let code3 :=
    if vrf.reduction_type = reduction.PRODUCT then
      code2 ++ vrf.vector_name ++ "[v_index_" ++ toString i ++ "[i]] *= " ++
        "a_" ++ vrf.vector_name ++ "[i];\n"
    else code2
  code3 ++ "\x7d\n"

/-- Body of the loop "Add calls to setters". -/
def avx_store_back (env : avx_environment) (code : String) (l : field_info) : String :=
  if l.is_written then
    code ++ l.new_name ++ ".set_vector_at<" ++ l.vecinfo.vectorized_type ++ ">(" ++
      l.loop_ref_name ++ ", " ++ env.looping_var ++ ");\n"
  else code

/-- The `wait_get` calls emitted for the field `l` in the second round. -/
def avx_wait_gets (env : avx_environment) (code : String) (l : field_info) : String :=
  l.dir_list.foldl
    (fun code d =>
      if d.count > 0 then
        code ++ l.new_name ++ ".wait_get(" ++ d.direxpr_s ++ ", " ++
          env.parity_in_this_loop ++ ");\n"
      else code)
    code

/-- Body of the loop "Final reduction of the temporary reduction variables". -/
def avx_final_reduction (code : String) (v : var_info) : String :=
  if v.reduction_type = reduction.SUM then
    code ++ v.reduction_name ++ " = reduce_sum(" ++ v.new_name ++ ");\n"
  else if v.reduction_type = reduction.PRODUCT then
    code ++ v.reduction_name ++ " = reduce_prod(" ++ v.new_name ++ ");\n"
  else code

/-- The text emitted between the accumulator declarations and the declarations
of the vector reductions: the loop lattice, the loop bounds and the head of the
loop, with the head of the wait loop when `generate_wait_loops` is set. -/
def avx_loop_header (env : avx_environment) (generate_wait_loops : Bool)
    (fieldname : String) : String :=
  "const auto * RESTRICT loop_lattice = " ++ fieldname ++ ".fs->vector_lattice;\n" ++
  "const int loop_begin = loop_lattice->loop_begin(" ++ env.parity_in_this_loop ++ ");\n" ++
  "const int loop_end   = loop_lattice->loop_end(" ++ env.parity_in_this_loop ++ ");\n" ++
  (if generate_wait_loops then "for (int _wait_i_ = 0; _wait_i_ < 2; ++_wait_i_) \x7b\n"
   else "") ++
  "for(int " ++ env.looping_var ++ " = loop_begin; " ++ env.looping_var ++
    " < loop_end; ++" ++ env.looping_var ++ ") \x7b\n" ++
  (if generate_wait_loops then
    "if (((loop_lattice->vec_wait_arr_[" ++ env.looping_var ++
      "] & _dir_mask_) != 0) == _wait_i_) \x7b\n"
   else "")

/-- The vectorized path of `generate_code_avx`, from the text `code` emitted so
far (the comment with the verdict). The result is `none` when
`field_info_list.front()` is taken of an empty list. -/
def generate_code_avx_vectorized (env : avx_environment) (semicolon_at_end : Bool)
    (generate_wait_loops : Bool) (field_info_list : List field_info)
    (var_info_list : List var_info) (vector_reduction_ref_list : List vector_reduction_ref)
    (code : String) : Option String :=
  let r := var_info_list.foldl avx_declare_reduction (code, [])
  match field_info_list.head? with
  | none => none
  | some front =>
    let code1 := r.1 ++ avx_loop_header env generate_wait_loops front.new_name
    let code2 := vector_reduction_ref_list.foldl avx_declare_vector_reduction code1
    let code3 := field_info_list.foldl (avx_field_temporaries env) code2
    let code4 := code3 ++ env.loopBuf_dump ++ (if semicolon_at_end then ";" else "") ++ "\n"
    let code5 := vector_reduction_ref_list.foldl avx_vector_reduction code4
    let code6 := code5 ++ (if !semicolon_at_end then "\x7d" else "") ++ "\n"
    let code7 := field_info_list.foldl (avx_store_back env) code6
    let code8 := code7 ++ "\x7d\n"
    let code9 :=
      if generate_wait_loops then
        field_info_list.foldl (avx_wait_gets env)
          (code8 ++ "\x7d\nif (_dir_mask_ == 0) break;    // No need for another round\n") ++
          "\x7d\n"
      else code8
    some (r.2.foldl avx_final_reduction code9)

/-- The routine `MyASTVisitor::generate_code_avx`: the code it returns; `none`
when it runs into the dereference of an empty `field_info_list`. -/
def generate_code_avx (li : loop_info_struct) (avx_info verbosity : Int) (S : Nat)
    (env : avx_environment) (semicolon_at_end : Bool) (generate_wait_loops : Bool)
    (field_info_list : List field_info) (var_info_list : List var_info)
    (vector_reduction_ref_list : List vector_reduction_ref) : Option String :=
  match check_loop_vectorizable li avx_info verbosity S field_info_list var_info_list with
  | none => none
  | some verdict =>
    let code := env.comment_string verdict.diag_str ++ "\n"
    if !verdict.ret then some (code ++ env.generate_code_cpu)
    else
      generate_code_avx_vectorized env semicolon_at_end generate_wait_loops field_info_list
        var_info_list vector_reduction_ref_list code

/-! ## `handle_field_X_expr` (toplevelvisitor.cpp) -/

/-- What `handle_field_X_expr` asks of the syntax tree and of other parts of hilapp:
`getType().isConstQualified()` of a name expression; whether
`isModifiableLvalue(*Context)` is `MLV_Valid`; `get_parity_val`; `remove_X` with
its flag `has_X`; the `FieldRefChecker`, which gives the name of the loop-local
variable that an expression depends on, if there is one; the operator call `Op`
found in a direction expression, as its spelling and, when its argument 1 is an
integer constant expression, the value of that; and `contains_random`. -/
structure field_X_environment where
  isConstQualified : Expr → Bool
  isModifiableLvalue : Expr → Bool
  get_parity_val : Expr → Parity
  remove_X : String → String × Bool
  loop_local_var : Expr → Option String
  direction_operator : Expr → Option (String × Option Int)
  contains_random : Expr → Bool

/-- The members of `TopLevelVisitor` and the globals that `handle_field_X_expr`
reads or writes, with the diagnostics reported so far. -/
structure field_X_state where
  field_ref_list : List field_ref
  diags : List Diag
  parsing_state : parsing_state_t
  loop_info : loop_info_struct
  parity_expr : Option Expr
deriving DecidableEq, Inhabited

/-- A call `handle_field_X_expr(e, is_assign, is_also_read, is_X, is_func_arg)`:
`e` is the expression after `IgnoreParens` and `IgnoreImplicit`; `operands` holds
the name and parity expressions when `e` is a `CXXOperatorCallExpr` or an
`ArraySubscriptExpr`; `nested` lists the calls of `handle_field_X_expr` that the
traversal `TraverseStmt(lfe.parityExpr)` of the direction expression makes, in
their order. -/
inductive field_X_call where
  | mk (e : Expr) (operands : Option (Expr × Expr))
      (is_assign is_also_read is_X is_func_arg : Bool) (nested : List field_X_call)

/-- Modelled from the spec: the default-constructed `field_ref`, whose declaration
(in hilapp.h) is not among the sources: no expression, not read, not written, and
none of the direction attributes. -/
def field_ref_default : field_ref :=
  { fullExpr := ⟨0, "", "", ""⟩
    nameExpr := ⟨0, "", "", ""⟩
    parityExpr := ⟨0, "", "", ""⟩
    direxpr_s := ""
    sequence := 0
    is_written := false
    is_read := false
    is_direction := false
    is_constant_direction := false
    is_offset := false
    is_loop_local_dir := false
    constant_value := 0 }

/-- The reference `lfe` after the assignments of `fullExpr`, `nameExpr`,
`parityExpr`, `is_written`, `is_read` and `sequence`. -/
def new_field_ref (e nameExpr parityExpr : Expr) (is_assign is_also_read : Bool)
    (sequence : Int) : field_ref :=
  { field_ref_default with
    fullExpr := e
    nameExpr := nameExpr
    parityExpr := parityExpr
    is_written := is_assign
    is_read := is_also_read || !is_assign
    sequence := sequence }

/-- One call of `reportDiag`. -/
def report_field_X (st : field_X_state) (d : Diag) : field_X_state :=
  { st with diags := st.diags ++ [d] }

/-- The branch `parity_expr_type == "Parity"`; `none` stands for `exit(1)`. -/
def parity_branch (env : field_X_environment) (is_X : Bool) (lfe : field_ref)
    (st : field_X_state) : Option field_X_state :=
  if lfe.parityExpr.type = "Parity" then
    if is_X then none
    else if st.parsing_state.accept_field_parity then
      some { st with
        parity_expr := some lfe.parityExpr
        loop_info := { st.loop_info with
          parity_value := env.get_parity_val lfe.parityExpr
          parity_text := lfe.parityExpr.text } }
    else
      some (report_field_X st ⟨Level.Error, lfe.parityExpr.id,
        "Field[Parity] not allowed here, use Field[X] -type instead", []⟩)
  else some st

/-- The start of the branch for `X_plus_direction` and `X_plus_offset`, up to
`lfe.is_direction = true`; `none` stands for `exit(1)` after the Fatal
diagnostic. -/
def direction_prelude (env : field_X_environment) (is_assign is_func_arg : Bool)
    (lfe : field_ref) (st : field_X_state) : Option (field_ref × field_X_state) :=
  let st1 :=
    if is_assign && !is_func_arg then
      report_field_X st ⟨Level.Error, lfe.parityExpr.id,
        "assignment to Field expression with [X + dir] -type argument not allowed.", []⟩
    else st
  let st2 :=
    if is_assign && is_func_arg then
      report_field_X st1 ⟨Level.Error, lfe.parityExpr.id,
        "cannot use a non-const. reference to Field expression with [X + dir] -type argument.",
        []⟩
    else st1
  if (env.remove_X lfe.parityExpr.text).2 then
    some ({ lfe with direxpr_s := (env.remove_X lfe.parityExpr.text).1, is_direction := true },
      st2)
  else none

/-- The branch `parity_expr_type == "X_plus_offset"`. -/
def offset_branch (env : field_X_environment) (lfe : field_ref) (st : field_X_state) :
    field_ref × field_X_state :=
  ({ lfe with is_offset := true },
    match env.loop_local_var lfe.parityExpr with
    | some name =>
      report_field_X st ⟨Level.Error, lfe.parityExpr.id,
        "non-nearest neighbour reference cannot depend on variable '%0' defined inside site loop",
        [name]⟩
    | none => st)

/-- The label `result.getExtValue() + offset` of a constant direction whose
operator is spelled `ops`: the offset is 0 for `+` and 50 for `-`, and any other
operator ends in `exit(1)` (`none`). The value is an unbounded integer here. -/
def direction_label (ops : String) (value : Int) : Option Int :=
  if ops = "+" then some (value + 0)
  else if ops = "-" then some (value + 50)
  else none

/-- The part of `handle_field_X_expr` from `lfe.is_written = is_assign` to the
point where the direction is known: the reference, the state, and whether the
direction is not a constant, in which case the direction expression is traversed
next. `none` stands for `exit(1)`. -/
def field_X_prepare (env : field_X_environment) (e nameExpr parityExpr : Expr)
    (is_assign is_also_read is_X is_func_arg : Bool) (st : field_X_state) :
    Option (field_ref × field_X_state × Bool) :=
  let lfe0 := new_field_ref e nameExpr parityExpr is_assign is_also_read
    st.parsing_state.stmt_sequence
  let st1 :=
    if is_assign && !env.isModifiableLvalue nameExpr then
      report_field_X st ⟨Level.Error, nameExpr.id,
        "cannot assign to non-modifiable lvalue Field expression", []⟩
    else st
  match parity_branch env is_X lfe0 st1 with
  | none => none
  | some st2 =>
    let st3 : field_X_state :=
      { st2 with parsing_state := { st2.parsing_state with accept_field_parity := false } }
    if parityExpr.type = "X_plus_direction" ∨ parityExpr.type = "X_plus_offset" then
      match direction_prelude env is_assign is_func_arg lfe0 st3 with
      | none => none
      | some (lfe1, st4) =>
        if parityExpr.type = "X_plus_offset" then
          some ((offset_branch env lfe1 st4).1, (offset_branch env lfe1 st4).2, false)
        else
          match env.direction_operator parityExpr with
          | none => none
          | some (ops, some value) =>
            match direction_label ops value with
            | none => none
            | some label =>
              some ({ lfe1 with is_constant_direction := true, constant_value := label },
                st4, false)
          | some (_, none) => some ({ lfe1 with is_constant_direction := false }, st4, true)
    else some (lfe0, st3, false)

/-- The end of `handle_field_X_expr`: the checks of the name expression and for
random number generators, and `field_ref_list.push_back(lfe)`. -/
def push_field_ref (env : field_X_environment) (lfe : field_ref) (st : field_X_state) :
    field_X_state :=
  let st1 :=
    match env.loop_local_var lfe.nameExpr with
    | some name =>
      report_field_X st ⟨Level.Error, lfe.nameExpr.id,
        "Field reference cannot depend on loop-local variable '%0'", [name]⟩
    | none => st
  let st2 :=
    if env.contains_random lfe.fullExpr then
      report_field_X st1 ⟨Level.Error, lfe.fullExpr.id,
        "Field reference cannot call a random number generator", []⟩
    else st1
  { st2 with field_ref_list := st2.field_ref_list ++ [lfe] }

mutual
/-- The routine `TopLevelVisitor::handle_field_X_expr`: the state it leaves and the
value it leaves in the reference parameter `is_assign`; `none` stands for
`exit(1)`. The test `r.fullExpr == lfe.fullExpr` compares pointers, that is node
identities. The traversal of a direction that is not a constant is represented by
the calls of `handle_field_X_expr` that it makes. -/
def handle_field_X_expr (env : field_X_environment) :
    field_X_call → field_X_state → Option (field_X_state × Bool)
  | field_X_call.mk e operands is_assign is_also_read is_X is_func_arg nested, st =>
    match operands with
    | none => none
    | some (nameExpr, parityExpr) =>
      if st.field_ref_list.any (fun r => r.fullExpr.id == e.id) then
        some (st, is_assign && !env.isConstQualified nameExpr)
      else
        match field_X_prepare env e nameExpr parityExpr
            (is_assign && !env.isConstQualified nameExpr) is_also_read is_X is_func_arg st with
        | none => none
        | some (lfe, st1, true) =>
          match handle_nested_calls env nested st1 with
          | none => none
          | some st2 =>
            some (push_field_ref env
              (if (env.loop_local_var parityExpr).isSome then
                { lfe with is_loop_local_dir := true }
              else lfe) st2,
              false)
        | some (lfe, st1, false) =>
          some (push_field_ref env lfe st1, is_assign && !env.isConstQualified nameExpr)
/-- A sequence of calls of `handle_field_X_expr`, one after the other. -/
def handle_nested_calls (env : field_X_environment) :
    List field_X_call → field_X_state → Option field_X_state
  | [], st => some st
  | c :: rest, st =>
    match handle_field_X_expr env c st with
    | none => none
    | some (st1, _) => handle_nested_calls env rest st1
end

mutual
/-- The identities of the expression of a call and of the expressions of the calls
nested in it. -/
def call_ids : field_X_call → List Nat
  | field_X_call.mk e _ _ _ _ _ nested => e.id :: nested_call_ids nested
/-- The identities of the expressions of a list of calls. -/
def nested_call_ids : List field_X_call → List Nat
  | [] => []
  | c :: rest => call_ids c ++ nested_call_ids rest
end

mutual
/-- The expression of a call is none of the expressions inside its direction
expression, and so on downwards: a node of a syntax tree is not below itself. -/
def tree_like : field_X_call → Bool
  | field_X_call.mk e _ _ _ _ _ nested =>
    !(nested_call_ids nested).contains e.id && all_tree_like nested
/-- All calls of a list are `tree_like`. -/
def all_tree_like : List field_X_call → Bool
  | [] => true
  | c :: rest => tree_like c && all_tree_like rest
end

/-- The identities of the expressions `fullExpr` recorded in `field_ref_list`. -/
def recorded_ids (st : field_X_state) : List Nat :=
  st.field_ref_list.map (fun r => r.fullExpr.id)

/-! ## Directions and parities (plumbing/defs.h) -/

/-- The enumerators of `enum direction : unsigned` for the dimension `NDIM`, in
the order of their declaration, so that the value of an enumerator is its
position; the last enumerator `NDIRECTIONS` is their number. Other dimensions
declare no directions. -/
def direction_names (NDIM : Nat) : List String :=
  if NDIM = 4 then ["XUP", "YUP", "ZUP", "TUP", "TDOWN", "ZDOWN", "YDOWN", "XDOWN"]
  else if NDIM = 3 then ["XUP", "YUP", "ZUP", "ZDOWN", "YDOWN", "XDOWN"]
  else if NDIM = 2 then ["XUP", "YUP", "YDOWN", "XDOWN"]
  else if NDIM = 1 then ["XUP", "XDOWN"]
  else []

/-- The constant `NDIRS = NDIRECTIONS`. -/
def NDIRS (NDIM : Nat) : Nat :=
  (direction_names NDIM).length

/-- The unsigned value of the direction with the given enumerator name. -/
def direction_value (NDIM : Nat) (name : String) : Nat :=
  (direction_names NDIM).indexOf name

/-- The function `next_direction`, on the unsigned values of the directions:
`static_cast<direction>(static_cast<unsigned>(dir)+1)`. -/
def next_direction (dir : Nat) : Nat :=
  (dir + 1) % 2 ^ 32

/-- A value of `enum class parity : unsigned`, given by its unsigned value. -/
structure parity where
  val : Nat
deriving DecidableEq, Inhabited

/-- The enumerator `parity::none = 0`. -/
def parity.none : parity := ⟨0⟩

/-- The enumerator `parity::even`. -/
def parity.even : parity := ⟨1⟩

/-- The enumerator `parity::odd`. -/
def parity.odd : parity := ⟨2⟩

/-- The enumerator `parity::all`. -/
def parity.all : parity := ⟨3⟩

/-- The enumerator `parity::x`, which is also the constant `X`. -/
def parity.x : parity := ⟨4⟩

/-- The constant `EVEN`. -/
def EVEN : parity := parity.even

/-- The constant `ODD`. -/
def ODD : parity := parity.odd

/-- The constant `ALL`. -/
def ALL : parity := parity.all

/-- The function `parity_bits`: `0x3 & static_cast<unsigned>(p)`. -/
def parity_bits (p : parity) : Nat :=
  3 &&& p.val

/-- The function `opp_parity`:
`static_cast<parity>(0x3 & ((u<<1)|(u>>1)))` for `u = parity_bits(p)`, in
`unsigned` arithmetic of 32 bits. -/
def opp_parity (p : parity) : parity :=
  ⟨3 &&& (((parity_bits p <<< 1) % 2 ^ 32) ||| (parity_bits p >>> 1))⟩

/-! ## `matrix<n,m,T>` (datatypes/general_matrix.h) -/

/-- An object of `class matrix<n,m,T>`: the template parameters `n` and `m` and
the member `T c[n][m]` as the list of its rows. -/
structure matrix (α : Type) where
  n : Nat
  m : Nat
  c : List (List α)
deriving DecidableEq, Inhabited

/-- The element `c[i][j]`; `none` when an index is outside the array. -/
def matrix.elem {α : Type} (A : matrix α) (i j : Nat) : Option α :=
  match A.c[i]? with
  | none => none
  | some row => row[j]?

/-- The assignment `c[i][j] = v`; `none` when an index is outside the array. -/
def matrix.assign {α : Type} (A : matrix α) (i j : Nat) (v : α) : Option (matrix α) :=
  match A.c[i]? with
  | none => none
  | some row => if j < row.length then some { A with c := A.c.set i (row.set j v) } else none

/-- The member `matrix<n,m,T>::fill(rhs)`:
`for (int i = 0; i < n; i++) for (int j = 0; j < n; j++) c[i][j] = (rhs);`. -/
def matrix.fill {α : Type} (A : matrix α) (rhs : α) : Option (matrix α) :=
  (List.range A.n).foldlM
    (fun B i => (List.range A.n).foldlM (fun B' j => B'.assign i j rhs) B) A

/-- The member `matrix<n,m,T>::norm_sq()`; `norm_squared` is the function of that
name for the elements. The result starts as `norm_squared(c[0][0])`, and the loop
over all `i < n`, `j < m` adds `norm_squared(c[i][j])` under the condition
`i>0&&j>0`. -/
def matrix.norm_sq {α β : Type} [Add β] (norm_squared : α → β) (A : matrix α) : Option β :=
  match A.elem 0 0 with
  | none => none
  | some c00 =>
    (List.range A.n).foldlM
      (fun result i => (List.range A.m).foldlM
        (fun result' j =>
          if i > 0 ∧ j > 0 then (A.elem i j).map (fun x => result' + norm_squared x)
          else some result') result)
      (norm_squared c00)

/-- The free function `norm_squared(matrix<n,m,T> & rhs)`, whose body is that of
`norm_sq` for `rhs`. -/
def norm_squared_matrix {α β : Type} [Add β] (norm_squared : α → β) (rhs : matrix α) :
    Option β :=
  match rhs.elem 0 0 with
  | none => none
  | some c00 =>
    (List.range rhs.n).foldlM
      (fun result i => (List.range rhs.m).foldlM
        (fun result' j =>
          if i > 0 ∧ j > 0 then (rhs.elem i j).map (fun x => result' + norm_squared x)
          else some result') result)
      (norm_squared c00)

/-- The operator `operator* (const matrix<n,m,T> &A, const scalart s)`:
`res.c[i][j] = s * A.c[i][j]` for all `i < n`, `j < m`. -/
def matrix_times_scalar {α : Type} [Mul α] (A : matrix α) (s : α) : Option (matrix α) :=
  ((List.range A.n).mapM
    (fun i => (List.range A.m).mapM (fun j => (A.elem i j).map (fun a => s * a)))).map
    (fun rows => { A with c := rows })

/-- The operator `operator/ (const matrix<n,m,T> &A, const scalart s)`:
`res.c[i][j] = s / A.c[i][j]` for all `i < n`, `j < m`. -/
def matrix_over_scalar {α : Type} [Div α] (A : matrix α) (s : α) : Option (matrix α) :=
  ((List.range A.n).mapM
    (fun i => (List.range A.m).mapM (fun j => (A.elem i j).map (fun a => s / a)))).map
    (fun rows => { A with c := rows })

/-! ## Direct weight iteration (tools/expanded_ensemble_multicanonical.cpp) -/

/-- The globals that the direct iteration reads and writes: the vectors
`g_OPBinLimits`, `g_WValues`, `g_N_OP_Bin`, `g_N_OP_BinTotal`, the counter
`g_WeightIterationCount`, and the members `sample_size`, `single_check_interval`,
`C` and `C_min` of `g_WParam.DIP`. The `double` values are taken from an ordered
field, with exact arithmetic, and the `int` counters are unbounded. -/
structure muca_state (α : Type) where
  g_OPBinLimits : List (List α)
  g_WValues : List (List α)
  g_N_OP_Bin : List (List Int)
  g_N_OP_BinTotal : List (List Int)
  g_WeightIterationCount : Int
  sample_size : Int
  single_check_interval : Int
  C : α
  C_min : α
deriving DecidableEq, Inhabited

/-- The position that `operator[]` of a `std::vector` takes for an `int` index:
the index converted to `size_t`, of 64 bits. -/
def vector_index (i : Int) : Nat :=
  (i % 2 ^ 64).toNat

/-- The statement `v[ci][i] = f(v[ci][i])` for a vector of vectors; `none` when an
index is outside its vector, where the access is not defined. -/
def update_at {β : Type} (v : List (List β)) (ci : Nat) (i : Int) (f : β → β) :
    Option (List (List β)) :=
  match v[ci]? with
  | none => none
  | some row =>
    match row[vector_index i]? with
    | none => none
    | some x => some (v.set ci (row.set (vector_index i) (f x)))

/-- The value `*std::min_element(v.begin(), v.end())`: the first element that no
other element is less than; `none` for the empty vector. -/
def min_element {α : Type} [LinearOrder α] : List α → Option α
  | [] => none
  | a :: t => some (t.foldl (fun b x => if x < b then x else b) a)

/-- The routine `all_visited`, the default of `finish_check`. -/
def all_visited (n : List Int) : Bool :=
  n.all (fun x => !(x == 0))

/-- The routine `bin_OP_value(OP, ci)`. -/
def bin_OP_value {α : Type} [LinearOrder α] (st : muca_state α) (OP : α) (ci : Nat) :
    Option (muca_state α) :=
  match st.g_OPBinLimits[ci]? with
  | none => none
  | some limits =>
    match limits.head?, limits.getLast? with
    | some front, some back =>
      if OP ≤ front then some st
      else if OP ≥ back then some st
      else
        (update_at st.g_N_OP_Bin ci ((lower_bound limits OP : Int) - 1) (fun x => x + 1)).map
          (fun bins => { st with g_N_OP_Bin := bins })
    | _, _ => none

/-- The loop `for (m = 0; m < N; m++)` of `iterate_weight_function_direct` that
adds `C * g_N_OP_Bin[ci][m] * N / samples` to `g_WValues[ci][m]` and
`g_N_OP_Bin[ci][m]` to `g_N_OP_BinTotal[ci][m]`. -/
def add_bin_weights {α : Type} [LinearOrderedField α] (N : Nat) (ci : Nat)
    (st : muca_state α) : Option (muca_state α) :=
  (List.range N).foldlM
    (fun (s : muca_state α) (m : Nat) =>
      match s.g_N_OP_Bin[ci]? with
      | none => none
      | some bins =>
        match bins[m]? with
        | none => none
        | some hits =>
          match update_at s.g_WValues ci (m : Int)
              (fun w => w + s.C * (hits : α) * (N : α) / (s.sample_size : α)),
            update_at s.g_N_OP_BinTotal ci (m : Int) (fun t => t + hits) with
          | some weights, some totals =>
            some { s with g_WValues := weights, g_N_OP_BinTotal := totals }
          | _, _ => none)
    st

/-- The statements that set the minimum weight to zero: `base` is the minimum of
`g_WValues[ci]`, and the loop `for (m = 0; m < N; ++m)` subtracts it from
`g_WValues[ci][m]` and clears `g_N_OP_Bin[ci][m]`. -/
def subtract_base {α : Type} [LinearOrderedField α] (N : Nat) (ci : Nat)
    (st : muca_state α) : Option (muca_state α) :=
  match st.g_WValues[ci]? with
  | none => none
  | some weights =>
    match min_element weights with
    | none => none
    | some base =>
      (List.range N).foldlM
        (fun (s : muca_state α) (m : Nat) =>
          match update_at s.g_WValues ci (m : Int) (fun w => w - base),
            update_at s.g_N_OP_Bin ci (m : Int) (fun _ => 0) with
          | some ws, some bins => some { s with g_WValues := ws, g_N_OP_Bin := bins }
          | _, _ => none)
        st

/-- The block `if (finish_check(g_N_OP_BinTotal[ci]))`: the totals of the first `N`
bins are cleared and `C` is divided by 1.5. -/
def decrease_update_size {α : Type} [LinearOrderedField α] (finish_check : List Int → Bool)
    (N : Nat) (ci : Nat) (st : muca_state α) : Option (muca_state α) :=
  match st.g_N_OP_BinTotal[ci]? with
  | none => none
  | some totals =>
    if finish_check totals then
      ((List.range N).foldlM
        (fun (s : muca_state α) (m : Nat) =>
          (update_at s.g_N_OP_BinTotal ci (m : Int) (fun _ => 0)).map
            (fun t => { s with g_N_OP_BinTotal := t }))
        st).map (fun s => { s with C := s.C / (3 / 2) })
    else some st

/-- The routine `iterate_weight_function_direct(OP, ci)` on the process of rank 0:
the state it leaves and the value `continue_iteration`. Here `N` is
`g_WValues.size()`. Printing and the file `intermediate_weight.dat` are left
out. -/
def iterate_weight_function_direct {α : Type} [LinearOrderedField α]
    (finish_check : List Int → Bool) (st : muca_state α) (OP : α) (ci : Nat) :
    Option (muca_state α × Bool) :=
  match bin_OP_value st OP ci with
  | none => none
  | some st1 =>
    let st2 := { st1 with g_WeightIterationCount := st1.g_WeightIterationCount + 1 }
    let updated :=
      if st2.g_WeightIterationCount ≥ st2.sample_size then
        match add_bin_weights st2.g_WValues.length ci st2 with
        | none => none
        | some st3 =>
          match subtract_base st2.g_WValues.length ci st3 with
          | none => none
          | some st4 =>
            decrease_update_size finish_check st2.g_WValues.length ci
              { st4 with g_WeightIterationCount := 0 }
      else some st2
    updated.map (fun s => (s, !decide (s.C < s.C_min)))

/-- The routine `iterate_weight_function_direct_single(OP, ci)` on the process of
rank 0: the state it leaves and the value `continue_iteration`. Here `N` is
`g_WValues[ci].size()`; the remainder by `single_check_interval` is not defined
for the interval 0. Printing is left out. -/
def iterate_weight_function_direct_single {α : Type} [LinearOrderedField α]
    (finish_check : List Int → Bool) (st : muca_state α) (OP : α) (ci : Nat) :
    Option (muca_state α × Bool) :=
  match st.g_WValues[ci]? with
  | none => none
  | some weights =>
    match find_OP_bin_index st.g_OPBinLimits OP ci with
    | none => none
    | some bin_index =>
      match (if bin_index ≠ -1 then
          update_at st.g_N_OP_BinTotal ci bin_index (fun t => t + 1)
        else some st.g_N_OP_BinTotal) with
      | none => none
      | some totals =>
        match update_at st.g_WValues ci bin_index (fun w => w + st.C) with
        | none => none
        | some ws =>
          let st1 := { st with
            g_N_OP_BinTotal := totals
            g_WeightIterationCount := st.g_WeightIterationCount + 1
            g_WValues := ws }
          if st1.single_check_interval = 0 then none
          else if st1.g_WeightIterationCount.tmod st1.single_check_interval = 0 then
            match subtract_base weights.length ci st1 with
            | none => none
            | some st2 =>
              (decrease_update_size finish_check weights.length ci st2).map
                (fun s => (s, !decide (s.C < s.C_min)))
          else some (st1, true)

/-! ## `handle_bracket_var_ref` (toplevelvisitor.cpp) -/

/-- The kinds `array_ref::reftype` that the sources name. -/
inductive reftype where
  | REPLACE
  | ARRAY
  | STD_VECTOR
  | STD_ARRAY
  | REDUCTION
deriving DecidableEq, Inhabited

/-- The members of `bracket_ref_t` that `handle_bracket_var_ref` reads: the whole
expression, the root variable (a null pointer is `none`), the base and the index
expressions. -/
structure bracket_ref_t where
  E : Expr
  DRE : Option Expr
  BASE : Expr
  Idx : List Expr
deriving DecidableEq, Inhabited

/-- One array of the loop (`struct array_ref`); `vd` is the identity of the
declaration, `none` for a null pointer. -/
structure array_ref where
  refs : List bracket_ref_t
  vd : Option Nat
  name : String
  element_type : String
  reduction_type : reduction
  type : reftype
  size : Int
  dimensions : List Nat
  size_expr : String
  data_ptr : String
deriving DecidableEq, Inhabited

/-- One loop constant expression (`struct loop_const_expr_ref`). -/
structure loop_const_expr_ref where
  refs : List Expr
  expression : String
  exprstring : String
  type : String
  reduction_type : reduction
deriving DecidableEq, Inhabited

/-- The members of `TopLevelVisitor` and of `loop_info` that
`handle_bracket_var_ref` reads or writes, with the diagnostics reported so far. -/
structure bracket_state where
  array_ref_list : List array_ref
  loop_const_expr_ref_list : List loop_const_expr_ref
  var_decl_list : List var_decl
  diags : List Diag
  skip_children : Nat
  has_site_dependent_cond_or_index : Bool
  has_pragma_access : Bool
  pragma_access_args : String
deriving DecidableEq, Inhabited

/-- What `handle_bracket_var_ref` asks of the syntax tree and of other parts of
hilapp: `find_word`; for the root variable, whether it is a `DeclRefExpr` and then
the identity of its `VarDecl`, if it has one (`decl_ref`); the name of a
declaration; `is_site_dependent` and `contains_loop_local_var`; the dimensions of
the constant array type of an expression, if it has one; the canonical type of an
expression; the size that `std::stoi` reads from the last template argument of a
`std::array` type; the type of a loop constant expression; `remove_all_whitespace`;
and the routines `handle_var_ref` and `TraverseStmt`, as what they do to the
state. -/
structure bracket_environment where
  find_word : String → String → Option Nat
  decl_ref : Expr → Option (Option Nat)
  getNameAsString : Nat → String
  is_site_dependent : Expr → Bool
  contains_loop_local_var : Expr → Bool
  constant_array_dimensions : Expr → Option (List Nat)
  canonical_type : Expr → String
  std_array_size : String → Int
  const_expr_type : Expr → String
  remove_all_whitespace : String → String
  handle_var_ref : Expr → Bool → String → bracket_state → bracket_state
  TraverseStmt : Expr → bracket_state → bracket_state

/-- One call of `reportDiag`. -/
def report_bracket (st : bracket_state) (d : Diag) : bracket_state :=
  { st with diags := st.diags ++ [d] }

/-- The routine `is_variable_loop_local`; the test `d.scope >= 0` holds for every
scope. -/
def is_variable_loop_local (var_decl_list : List var_decl) (decl : Option Nat) : Bool :=
  var_decl_list.any (fun d => decide (d.scope ≥ 0) && decl == some d.decl)

/-- The routine `handle_loop_const_expr_ref(E, is_assign, assignop)`. -/
def handle_loop_const_expr_ref (env : bracket_environment) (E : Expr) (is_assign : Bool)
    (assignop : String) (st : bracket_state) : bracket_state :=
  let expression := E.text
  let expstr := env.remove_all_whitespace expression
  if is_assign && assignop != "+=" then
    report_bracket st ⟨Level.Error, E.id,
      "expression can be used only on the lhs of a sum reduction (+=)", []⟩
  else
    match st.loop_const_expr_ref_list.find? (fun cer => cer.exprstring == expstr),
      st.loop_const_expr_ref_list.findIdx? (fun cer => cer.exprstring == expstr) with
    | some cer, some idx =>
      if (is_assign && cer.reduction_type == reduction.NONE) ||
          (!is_assign && cer.reduction_type != reduction.NONE) then
        report_bracket
          (report_bracket st ⟨Level.Error, E.id,
            "expression cannot be used in reduction and on RHS of statement in the same loop",
            []⟩)
          ⟨Level.Note, (cer.refs.head?.map (fun r => r.id)).getD 0,
            "location of another reference", []⟩
      else
        { st with loop_const_expr_ref_list :=
            st.loop_const_expr_ref_list.modify (fun c => { c with refs := c.refs ++ [E] }) idx }
    | _, _ =>
      { st with loop_const_expr_ref_list := st.loop_const_expr_ref_list ++
          [{ refs := [E], expression := expression, exprstring := expstr
             type := env.const_expr_type E
             reduction_type := if is_assign then reduction.SUM else reduction.NONE }] }

/-- The local variable `reduction_type` of `handle_bracket_var_ref`. -/
def bracket_reduction_type (is_assign : Bool) (assignop : String) : reduction :=
  if is_assign then
    if assignop = "+=" then reduction.SUM else reduction.PRODUCT
  else reduction.NONE

/-- The test `check` of the search through `array_ref_list`. -/
def array_ref_matches (ref : bracket_ref_t) (dre : Expr) (vd : Option Nat) (ar : array_ref) :
    Bool :=
  if dre.id = ref.BASE.id then vd == ar.vd && ar.type != reftype.REPLACE
  else ar.name == ref.BASE.text

/-- The end of most branches: `is_assign = false`, the traversal of the index
expressions, `parsing_state.skip_children = 1` and `return 1`. -/
def traverse_indices (env : bracket_environment) (ref : bracket_ref_t) (st : bracket_state) :
    bracket_state × Bool × Int :=
  ({ ref.Idx.foldl (fun s ip => env.TraverseStmt ip s) st with skip_children := 1 }, false, 1)

/-- The branch of `handle_bracket_var_ref` for an array that `array_ref_list` has
already, at position `idx`. -/
def existing_array_ref (env : bracket_environment) (ref : bracket_ref_t) (type : reftype)
    (is_assign : Bool) (reduction_type : reduction) (ar : array_ref) (idx : Nat)
    (st : bracket_state) : bracket_state × Bool × Int :=
  if xor (ar.type == reftype.REDUCTION) (type == reftype.REDUCTION) then
    ({ report_bracket st ⟨Level.Error, ref.E.id,
        "ReductionVector cannot be used on RHS and LHS simultaneously.", []⟩ with
      skip_children := 1 }, is_assign, 1)
  else if ar.type == reftype.REDUCTION && ar.reduction_type != reduction_type then
    ({ report_bracket st ⟨Level.Error, ref.E.id,
        "cannot use '+=' and '*=' reduction to the same variable simultaneously.", []⟩ with
      skip_children := 1 }, is_assign, 1)
  else
    traverse_indices env ref
      { st with array_ref_list :=
          st.array_ref_list.modify (fun a => { a with refs := a.refs ++ [ref] }) idx }

/-- The branch of `handle_bracket_var_ref` for an array that `array_ref_list` does
not have yet. The member `dimensions` of the new `array_ref` is empty until it is
filled. -/
def new_array_ref (env : bracket_environment) (ref : bracket_ref_t) (type : reftype)
    (is_assign : Bool) (assignop : String) (dre : Expr) (vd : Option Nat) (site_dep : Bool)
    (reduction_type : reduction) (st : bracket_state) : bracket_state × Bool × Int :=
  let name :=
    match vd with
    | some d => if dre.id = ref.BASE.id then env.getNameAsString d else ref.BASE.text
    | none => ref.BASE.text
  let has_loop_local_var := ref.Idx.any env.contains_loop_local_var
  let ar : array_ref :=
    { refs := [ref], vd := vd, name := name, element_type := env.canonical_type ref.E
      reduction_type := reduction_type, type := type, size := 0, dimensions := []
      size_expr := "", data_ptr := "" }
  if !site_dep && !has_loop_local_var && type != reftype.REDUCTION then
    ({ handle_loop_const_expr_ref env ref.E is_assign assignop st with skip_children := 1 },
      is_assign, 1)
  else if is_assign && (site_dep || has_loop_local_var) && type != reftype.REDUCTION then
    (report_bracket st ⟨Level.Error, ref.E.id,
      "cannot assign to an array, std::vector or std::array where the access depends on a variable which may be changed inside loop execution. Use ReductionVector if this behaviour is needed.",
      []⟩, is_assign, 1)
  else if type = reftype.ARRAY then
    match env.constant_array_dimensions ref.BASE with
    | some dims =>
      traverse_indices env ref
        { st with array_ref_list := st.array_ref_list ++
            [{ ar with
               size := (dims.foldl (fun s d => s * d) 1 : Nat)
               dimensions := dims
               size_expr := toString (dims.foldl (fun s d => s * d) 1)
               data_ptr := name }] }
    | none =>
      ({ report_bracket st ⟨Level.Error, ref.E.id,
          "array size is unknown - recommend using Vector<>, std::array<> or std::vector<> instead",
          []⟩ with skip_children := 1 }, is_assign, 1)
  else if type = reftype.STD_ARRAY then
    traverse_indices env ref
      { st with array_ref_list := st.array_ref_list ++
          [{ ar with
             size := env.std_array_size (env.canonical_type ref.BASE)
             size_expr := toString (env.std_array_size (env.canonical_type ref.BASE))
             data_ptr := name ++ ".data()" }] }
  else
    traverse_indices env ref
      { st with array_ref_list := st.array_ref_list ++
          [{ ar with
             size := 0
             size_expr := name ++ ".size()"
             data_ptr := name ++ ".data()"
             reduction_type := reduction_type }] }

/-- The routine `TopLevelVisitor::handle_bracket_var_ref(ref, type, is_assign,
assignop)`: the state it leaves, the value it leaves in the reference parameter
`is_assign`, and the value it returns. The result is `none` for a null root
variable `ref.DRE`, which the routine passes to `dyn_cast`. -/
def handle_bracket_var_ref (env : bracket_environment) (ref : bracket_ref_t) (type : reftype)
    (is_assign : Bool) (assignop : String) (st : bracket_state) :
    Option (bracket_state × Bool × Int) :=
  match ref.DRE with
  | none => none
  | some dre =>
    if st.has_pragma_access && (env.find_word st.pragma_access_args dre.text).isSome then
      some (st, is_assign, 0)
    else
      let vd : Option Nat := (env.decl_ref dre).join
      if (env.decl_ref dre).isSome && is_variable_loop_local st.var_decl_list vd then
        if type = reftype.ARRAY then
          some (traverse_indices env ref (env.handle_var_ref dre is_assign assignop st))
        else
          some ({ report_bracket st ⟨Level.Error, ref.E.id,
              "cannot define this type of variable inside onsites()-loop", []⟩ with
            skip_children := 1 }, is_assign, 1)
      else if env.is_site_dependent ref.BASE then
        some ({ report_bracket st ⟨Level.Error, ref.E.id,
            "Base of bracket expression '%0' should be constant within onsites()",
            [ref.BASE.text]⟩ with skip_children := 1 }, is_assign, 1)
      else
        let site_dep := ref.Idx.any env.is_site_dependent
        let st1 : bracket_state :=
          if site_dep || is_assign then { st with has_site_dependent_cond_or_index := true }
          else st
        let reduction_type := bracket_reduction_type is_assign assignop
        match st1.array_ref_list.find? (array_ref_matches ref dre vd),
          st1.array_ref_list.findIdx? (array_ref_matches ref dre vd) with
        | some ar, some idx =>
          some (existing_array_ref env ref type is_assign reduction_type ar idx st1)
        | _, _ =>
          some (new_array_ref env ref type is_assign assignop dre vd site_dep reduction_type st1)

/-! ## Concrete inputs -/

/-- A variable declared outside the loop, used as `x += ...; x = ...;`: a sum
reduction that is also assigned with `=`. -/
def ex_sum_and_assign : var_info :=
  { name := "x", type := "double", decl_type := "double"
    refs := [⟨1, true, "+="⟩, ⟨2, true, "="⟩]
    is_loop_local := false, is_raw := false, is_assigned := true
    is_site_dependent := false, is_special_reduction_type := false
    reduction_type := reduction.SUM, dependent_vars := []
    vecinfo := ⟨false, 0, ""⟩ }

/-- A variable declared outside the loop, used as `x = ...;`. -/
def ex_plain_assign : var_info :=
  { name := "x", type := "double", decl_type := "double"
    refs := [⟨1, true, "="⟩]
    is_loop_local := false, is_raw := false, is_assigned := true
    is_site_dependent := false, is_special_reduction_type := false
    reduction_type := reduction.NONE, dependent_vars := []
    vecinfo := ⟨false, 0, ""⟩ }

/-- A variable declared outside the loop, used as `s += ...; ... = s;`: a sum
reduction that is also read. -/
def ex_sum_and_read : var_info :=
  { name := "s", type := "double", decl_type := "double"
    refs := [⟨1, true, "+="⟩, ⟨2, false, ""⟩]
    is_loop_local := false, is_raw := false, is_assigned := true
    is_site_dependent := false, is_special_reduction_type := false
    reduction_type := reduction.SUM, dependent_vars := []
    vecinfo := ⟨false, 0, ""⟩ }

/-- A stand-in for `is_vectorizable_type` that vectorizes nothing. -/
def ex_is_vectorizable_type (_ : String) (v : vectorization_info) :
    Bool × vectorization_info :=
  (false, v)

/-- A stand-in for `check_if_legal`: only `class Reduction` types are legal. -/
def ex_check_if_legal (t : String) : Bool :=
  "class Reduction".data.isPrefixOf t.data

/-- A site dependent variable of a type that cannot be vectorized. -/
def ex_scalar_var : var_info :=
  { name := "v", type := "std::string", decl_type := "std::string"
    refs := [⟨1, true, "="⟩]
    is_loop_local := true, is_raw := false, is_assigned := true
    is_site_dependent := true, is_special_reduction_type := false
    reduction_type := reduction.NONE, dependent_vars := []
    vecinfo := ⟨false, 0, ""⟩ }

/-- A field descriptor with the given name, vectorizability and vector size. -/
def ex_field (name : String) (vectorizable : Bool) (size : Int) : field_info :=
  { type_template := "<double>", element_type := "double", old_name := name
    nameExpr := ⟨1, name, "Field<double>", "Field<double>"⟩
    vecinfo := ⟨vectorizable, size, "Vec4d"⟩
    dir_list := [], ref_list := [0], first_assign_seq := 0
    is_written := false, is_read_atX := true, is_read_nb := false
    is_read_offset := false, is_loop_local_dir := false }

/-- A site dependent variable of a vectorizable type with the given vector size. -/
def ex_site_var (name : String) (size : Int) : var_info :=
  { name := name, type := "double", decl_type := "double"
    refs := [⟨1, true, "="⟩]
    is_loop_local := true, is_raw := false, is_assigned := true
    is_site_dependent := true, is_special_reduction_type := false
    reduction_type := reduction.NONE, dependent_vars := []
    vecinfo := ⟨true, size, "Vec4d"⟩ }

/-- The reference `f[X]` on the left of `f[X] = f[X+e_x]`. -/
def ex_write_ref : field_ref :=
  { fullExpr := ⟨10, "f[X]", "double", "double"⟩
    nameExpr := ⟨1, "f", "Field<double>", "Field<double>"⟩
    parityExpr := ⟨11, "X", "X_index_type", "X_index_type"⟩
    direxpr_s := "", sequence := 1
    is_written := true, is_read := false, is_direction := false
    is_constant_direction := false, is_offset := false, is_loop_local_dir := false
    constant_value := 0 }

/-- The reference `f[X+e_x]` on the right of `f[X] = f[X+e_x]`. -/
def ex_neighbour_ref : field_ref :=
  { fullExpr := ⟨20, "f[X+e_x]", "double", "double"⟩
    nameExpr := ⟨2, "f", "Field<double>", "Field<double>"⟩
    parityExpr := ⟨21, "X+e_x", "X_plus_direction", "X_plus_direction"⟩
    direxpr_s := "e_x", sequence := 1
    is_written := false, is_read := true, is_direction := true
    is_constant_direction := true, is_offset := false, is_loop_local_dir := false
    constant_value := 0 }

/-- A stand-in for `is_duplicate_expr`: expressions with the same source text. -/
def ex_is_duplicate_expr (a b : Expr) : Bool :=
  a.text == b.text

/-- A stand-in for `find_word` on an empty pragma argument: nothing is found. -/
def ex_find_word (_ _ : String) : Option Nat :=
  none

/-- A stand-in for `inspect_field_type`: every field holds four doubles. -/
def ex_inspect_field_type (_ : Expr) : vectorization_info :=
  ⟨true, 4, "Vec4d"⟩

/-- The descriptor of `f` that `check_field_ref_list` builds for
`f[X] = f[X+e_x]`. -/
def ex_hazard_field : field_info :=
  { type_template := "<double>", element_type := "double", old_name := "f"
    nameExpr := ⟨1, "f", "Field<double>", "Field<double>"⟩
    vecinfo := ⟨true, 4, "Vec4d"⟩
    dir_list := [⟨⟨21, "X+e_x", "X_plus_direction", "X_plus_direction"⟩, "e_x", [1], 1,
      false, true, 0, false, ""⟩]
    ref_list := [0, 1], first_assign_seq := 1
    is_written := true, is_read_atX := false, is_read_nb := true
    is_read_offset := false, is_loop_local_dir := false }

/-- Declarations at scope levels 0, 1, 1, 2, as inside two nested blocks. -/
def ex_var_decl_list : List var_decl :=
  [⟨1, "a", "double", 0⟩, ⟨2, "b", "int", 1⟩, ⟨3, "c", "int", 1⟩, ⟨4, "d", "float", 2⟩]

/-- A stand-in for `VisitStmt`: the node 2 is an assignment in a loop body, for
which `handle_loop_body_stmt` runs `TraverseStmt(assignee)` and
`TraverseStmt(assigned_expr)`, the two children of the node, sets `skip_children`
to 1 and returns true; at every other node the visit returns true and leaves the
flags. -/
def ex_VisitStmt (s : Stmt) (_ : parsing_state_t) : visit_plan :=
  match s with
  | Stmt.node id _ =>
    if id = 2 then
      ⟨[(fun ps => ps, [0]), (fun ps => ps, [1])],
        fun ps => (true, { ps with skip_children := 1 })⟩
    else ⟨[], fun ps => (true, ps)⟩

/-- A stand-in for `VisitStmt` whose handler at the node 2 sets `skip_children` to 1
without a call of `TraverseStmt` of its own. -/
def ex_VisitStmt_plain (s : Stmt) (_ : parsing_state_t) : visit_plan :=
  match s with
  | Stmt.node id _ =>
    if id = 2 then ⟨[], fun ps => (true, { ps with skip_children := 1 })⟩
    else ⟨[], fun ps => (true, ps)⟩

/-- The flags at the start of a loop body. -/
def ex_parsing_state : parsing_state_t :=
  { skip_children := 0, scope_level := 0, ast_depth := 0, stmt_sequence := 0
    in_loop_body := true, accept_field_parity := false, loop_function_next := false }

/-- The reference `a[X]` on the left of `a[X] = b[X] + c[X+e_x]`. -/
def ex_ref_a : field_ref :=
  { fullExpr := ⟨30, "a[X]", "double", "double"⟩
    nameExpr := ⟨31, "a", "Field<double>", "Field<double>"⟩
    parityExpr := ⟨32, "X", "X_index_type", "X_index_type"⟩
    direxpr_s := "", sequence := 1
    is_written := true, is_read := false, is_direction := false
    is_constant_direction := false, is_offset := false, is_loop_local_dir := false
    constant_value := 0 }

/-- The reference `b[X]` of `a[X] = b[X] + c[X+e_x]`. -/
def ex_ref_b : field_ref :=
  { fullExpr := ⟨40, "b[X]", "double", "double"⟩
    nameExpr := ⟨41, "b", "Field<double>", "Field<double>"⟩
    parityExpr := ⟨42, "X", "X_index_type", "X_index_type"⟩
    direxpr_s := "", sequence := 1
    is_written := false, is_read := true, is_direction := false
    is_constant_direction := false, is_offset := false, is_loop_local_dir := false
    constant_value := 0 }

/-- The reference `c[X+e_x]` of `a[X] = b[X] + c[X+e_x]`. -/
def ex_ref_c : field_ref :=
  { fullExpr := ⟨50, "c[X+e_x]", "double", "double"⟩
    nameExpr := ⟨51, "c", "Field<double>", "Field<double>"⟩
    parityExpr := ⟨52, "X+e_x", "X_plus_direction", "X_plus_direction"⟩
    direxpr_s := "e_x", sequence := 1
    is_written := false, is_read := true, is_direction := true
    is_constant_direction := true, is_offset := false, is_loop_local_dir := false
    constant_value := 0 }

/-- The descriptors that `check_field_ref_list` builds for the loop
`a[X] = b[X] + c[X+e_x]`, with the names that the code generator uses for the
fields and their values at the site. -/
def ex_abc_fields : List field_info :=
  (check_field_ref_list ex_is_duplicate_expr ex_find_word ex_inspect_field_type
    ⟨Parity.all, "ALL", false, "", false⟩ [ex_ref_a, ex_ref_b, ex_ref_c]).field_info_list.map
    (fun l => { l with new_name := l.old_name, loop_ref_name := l.old_name ++ "_at_X" })

/-- The descriptors of `ex_abc_fields` with the name `<field>_dir` for the
temporary of every direction. -/
def ex_abc_named : List field_info :=
  ex_abc_fields.map (fun l =>
    { l with dir_list := l.dir_list.map (fun d => { d with name_with_dir := l.old_name ++ "_dir" }) })

/-- Stand-ins for the surroundings of `generate_code_avx`. -/
def ex_avx_environment : avx_environment :=
  { comment_string := fun s => "// " ++ s
    remove_X := fun s => s
    generate_code_cpu := ""
    looping_var := "_HILA_index"
    parity_in_this_loop := "ALL"
    loopBuf_dump := "\x7b a_at_X = b_at_X + c_dir; \x7d"
    loopBuf_get := fun e => e.text }

/-- Three variables of a loop: a sum reduction, a product reduction, and a
variable that is no reduction. -/
def ex_reduction_vars : List var_info :=
  [ { name := "s", type := "double", decl_type := "double", refs := [⟨1, true, "+="⟩]
      is_loop_local := false, is_raw := false, is_assigned := true
      is_site_dependent := false, is_special_reduction_type := false
      reduction_type := reduction.SUM, dependent_vars := []
      vecinfo := ⟨true, 4, "Vec4d"⟩, reduction_name := "r_s" },
    { name := "p", type := "Reduction<double>", decl_type := "class Reduction<double>"
      refs := [⟨2, true, "*="⟩]
      is_loop_local := false, is_raw := false, is_assigned := true
      is_site_dependent := false, is_special_reduction_type := true
      reduction_type := reduction.PRODUCT, dependent_vars := []
      vecinfo := ⟨true, 4, "Vec4d"⟩, reduction_name := "r_p" },
    { name := "k", type := "int", decl_type := "int", refs := [⟨3, false, ""⟩]
      is_loop_local := false, is_raw := false, is_assigned := false
      is_site_dependent := false, is_special_reduction_type := false
      reduction_type := reduction.NONE, dependent_vars := []
      vecinfo := ⟨true, 8, "Vec8i"⟩, reduction_name := "" } ]

/-- A sum reduction to the elements of a vector. -/
def ex_vector_reductions : List vector_reduction_ref :=
  [⟨4, "double", "idx", "hist", reduction.SUM⟩]

/-- The descriptor of `a` in `ex_abc_fields`. -/
def ex_field_a : field_info :=
  { type_template := "<double>", element_type := "double", old_name := "a"
    nameExpr := ⟨31, "a", "Field<double>", "Field<double>"⟩
    vecinfo := ⟨true, 4, "Vec4d"⟩
    dir_list := [], ref_list := [0], first_assign_seq := 1
    is_written := true, is_read_atX := false, is_read_nb := false
    is_read_offset := false, is_loop_local_dir := false
    new_name := "a", loop_ref_name := "a_at_X" }

/-- The descriptor of `c` that `check_field_ref_list` builds for the loop
`a[X] = b[X] + c[X+e_x]`. -/
def ex_field_c : field_info :=
  { type_template := "<double>", element_type := "double", old_name := "c"
    nameExpr := ⟨51, "c", "Field<double>", "Field<double>"⟩
    vecinfo := ⟨true, 4, "Vec4d"⟩
    dir_list := [⟨⟨52, "X+e_x", "X_plus_direction", "X_plus_direction"⟩, "e_x", [2], 1,
      false, true, 0, false, ""⟩]
    ref_list := [2], first_assign_seq := 0
    is_written := false, is_read_atX := false, is_read_nb := true
    is_read_offset := false, is_loop_local_dir := false }

/-- The reference `f[X-e_x]`, with the label 50 of the direction `-e_x`. -/
def ex_down_ref : field_ref :=
  { fullExpr := ⟨60, "f[X-e_x]", "double", "double"⟩
    nameExpr := ⟨61, "f", "Field<double>", "Field<double>"⟩
    parityExpr := ⟨62, "X-e_x", "X_plus_direction", "X_plus_direction"⟩
    direxpr_s := "e_x", sequence := 1
    is_written := false, is_read := true, is_direction := true
    is_constant_direction := true, is_offset := false, is_loop_local_dir := false
    constant_value := 50 }

/-- The descriptor of `f` that `check_field_ref_list` builds for the references
`f[X+e_x]` and `f[X-e_x]`. -/
def ex_field_up_down : field_info :=
  { type_template := "<double>", element_type := "double", old_name := "f"
    nameExpr := ⟨2, "f", "Field<double>", "Field<double>"⟩
    vecinfo := ⟨true, 4, "Vec4d"⟩
    dir_list := [⟨⟨21, "X+e_x", "X_plus_direction", "X_plus_direction"⟩, "e_x", [0], 1,
        false, true, 0, false, ""⟩,
      ⟨⟨62, "X-e_x", "X_plus_direction", "X_plus_direction"⟩, "e_x", [1], 1,
        false, true, 50, false, ""⟩]
    ref_list := [0, 1], first_assign_seq := 0
    is_written := false, is_read_atX := false, is_read_nb := true
    is_read_offset := false, is_loop_local_dir := false }

/-- Stand-ins for the surroundings of `handle_field_X_expr`: nothing is const
qualified, loop local or random, every name is a modifiable lvalue, `remove_X`
takes the two characters `X+` or `X-` off, and the direction `e_x` is the integer
constant 0. -/
def ex_field_X_environment : field_X_environment :=
  { isConstQualified := fun _ => false
    isModifiableLvalue := fun _ => true
    get_parity_val := fun _ => Parity.all
    remove_X := fun s => (String.mk (s.data.drop 2), s.data.head? == some 'X')
    loop_local_var := fun _ => none
    direction_operator := fun e =>
      if e.text = "X+e_x" then some ("+", some 0)
      else if e.text = "X-e_x" then some ("-", some 0)
      else some ("+", none)
    contains_random := fun _ => false }

/-- The state at the start of the loop `f[X] = f[X+e_x]`, in its first statement. -/
def ex_field_X_start : field_X_state :=
  { field_ref_list := []
    diags := []
    parsing_state := { ex_parsing_state with stmt_sequence := 1 }
    loop_info := ⟨Parity.all, "ALL", false, "", false⟩
    parity_expr := none }

/-- The call for the expression `f[X]` that is assigned to. -/
def ex_call_write : field_X_call :=
  field_X_call.mk ⟨10, "f[X]", "double", "double"⟩
    (some (⟨1, "f", "Field<double>", "Field<double>"⟩, ⟨11, "X", "X_index_type", "X_index_type"⟩))
    true false true false []

/-- The call for the expression `f[X+e_x]` that is read. -/
def ex_call_neighbour : field_X_call :=
  field_X_call.mk ⟨20, "f[X+e_x]", "double", "double"⟩
    (some (⟨2, "f", "Field<double>", "Field<double>"⟩,
      ⟨21, "X+e_x", "X_plus_direction", "X_plus_direction"⟩))
    false false false false []

/-- The call for the expression `f[X-e_x]` that is read. -/
def ex_call_down : field_X_call :=
  field_X_call.mk ⟨60, "f[X-e_x]", "double", "double"⟩
    (some (⟨61, "f", "Field<double>", "Field<double>"⟩,
      ⟨62, "X-e_x", "X_plus_direction", "X_plus_direction"⟩))
    false false false false []

/-- A matrix with one row and two columns. -/
def ex_row_matrix : matrix Int :=
  { n := 1, m := 2, c := [[1, 2]] }

/-- A matrix with two rows and one column. -/
def ex_column_matrix : matrix Int :=
  { n := 2, m := 1, c := [[1], [2]] }

/-- The matrix with the single element 2. -/
def ex_unit_matrix : matrix Rat :=
  { n := 1, m := 1, c := [[2]] }

/-- One chain with the two bins from 0 to 1 and from 1 to 2, both with weight 0,
before the first iteration; the weights are checked every tenth iteration. -/
def ex_muca_state : muca_state Rat :=
  { g_OPBinLimits := [[0, 1, 2]]
    g_WValues := [[0, 0]]
    g_N_OP_Bin := [[0, 0], [0]]
    g_N_OP_BinTotal := [[0, 0], [0]]
    g_WeightIterationCount := 0
    sample_size := 1
    single_check_interval := 10
    C := 1
    C_min := 1 / 10 }

/-- One chain with the two bins from 0 to 1 and from 1 to 2, with the weights 0 and
1, whose minimum is zero, and the update size 3. -/
def ex_muca_one_chain : muca_state Rat :=
  { g_OPBinLimits := [[0, 1, 2]]
    g_WValues := [[0, 1]]
    g_N_OP_Bin := [[0, 0], [0]]
    g_N_OP_BinTotal := [[0, 0], [0]]
    g_WeightIterationCount := 0
    sample_size := 1
    single_check_interval := 10
    C := 3
    C_min := 1 / 10 }

/-- Two chains with the single bin from 0 to 1 each, with weight 0. -/
def ex_muca_two_chains : muca_state Rat :=
  { g_OPBinLimits := [[0, 1], [0, 1]]
    g_WValues := [[0], [0]]
    g_N_OP_Bin := [[0], [0], [0, 0]]
    g_N_OP_BinTotal := [[0], [0], [0, 0]]
    g_WeightIterationCount := 0
    sample_size := 1
    single_check_interval := 10
    C := 1
    C_min := 1 / 10 }

/-- Stand-ins for the surroundings of `handle_bracket_var_ref`: the root variable
is the declaration 7 with the name `rv`, the index `i` is site dependent, and the
other routines leave the state as it is. -/
def ex_bracket_environment : bracket_environment :=
  { find_word := fun _ _ => none
    decl_ref := fun _ => some (some 7)
    getNameAsString := fun _ => "rv"
    is_site_dependent := fun e => e.text == "i"
    contains_loop_local_var := fun _ => false
    constant_array_dimensions := fun _ => none
    canonical_type := fun e => e.canonical_type
    std_array_size := fun _ => 0
    const_expr_type := fun e => e.type
    remove_all_whitespace := fun s => s
    handle_var_ref := fun _ _ _ st => st
    TraverseStmt := fun _ st => st }

/-- The expression `rv[i]` for a `ReductionVector<double> rv` that is declared
outside the loop. -/
def ex_bracket_ref : bracket_ref_t :=
  { E := ⟨70, "rv[i]", "double", "double"⟩
    DRE := some ⟨71, "rv", "ReductionVector<double>", "ReductionVector<double>"⟩
    BASE := ⟨71, "rv", "ReductionVector<double>", "ReductionVector<double>"⟩
    Idx := [⟨72, "i", "int", "int"⟩] }

/-- The state at the start of a loop without local variables. -/
def ex_bracket_state : bracket_state :=
  { array_ref_list := [], loop_const_expr_ref_list := [], var_decl_list := [], diags := []
    skip_children := 0, has_site_dependent_cond_or_index := false
    has_pragma_access := false, pragma_access_args := "" }

/-- The entry of `array_ref_list` for `rv`, with the given kind of reduction. -/
def ex_array_ref (r : reduction) : array_ref :=
  { refs := [ex_bracket_ref], vd := some 7, name := "rv", element_type := "double"
    reduction_type := r, type := reftype.REDUCTION, size := 0, dimensions := []
    size_expr := "rv.size()", data_ptr := "rv.data()" }

/-! ### Specification vocabulary for the propagation -/

/-- Number of descriptors not marked site dependent. -/
def unmarked (l : List var_info) : Nat :=
  l.countP (fun v => !v.is_site_dependent)

/-- A `dependent_vars` link: the descriptor at position `i` lists `d`. -/
def depends_on (l : List var_info) (i d : Nat) : Prop :=
  ∃ vi, l[i]? = some vi ∧ d ∈ vi.dependent_vars

/-- The variable at position `i` is marked in `l`, or a chain of `dependent_vars`
links leads from it to a variable that is marked in `l`. -/
def leads_to_marked (l : List var_info) (i : Nat) : Prop :=
  sd_at l i = true ∨ ∃ j, Relation.TransGen (depends_on l) i j ∧ sd_at l j = true

/-- The list `cur` comes from `l` by switching some flags `is_site_dependent` from
false to true, each of them justified by a chain of links in `l`. -/
def evolves (l cur : List var_info) : Prop :=
  cur.length = l.length ∧
  ∀ (j : Nat) (v : var_info), l[j]? = some v →
    ∃ b, cur[j]? = some { v with is_site_dependent := b } ∧
      (v.is_site_dependent = true → b = true) ∧ (b = true → leads_to_marked l j)

/-- No unmarked descriptor has a marked dependency. -/
def stable (r : List var_info) : Prop :=
  ∀ (j : Nat) (vi : var_info), r[j]? = some vi → vi.is_site_dependent = false →
    has_marked_dependency r vi.dependent_vars = false

/-! ### Specification vocabulary for `check_loop_vectorizable` -/

/-- The vector sizes reported in the loop: those of the vectorizable fields, then
those of the site dependent variables that are vectorizable. -/
def lane_widths (field_info_list : List field_info) (var_info_list : List var_info) :
    List Int :=
  (field_info_list.filter (fun fi => fi.vecinfo.is_vectorizable)).map
      (fun fi => fi.vecinfo.vector_size) ++
    (var_info_list.filter (fun vi => vi.is_site_dependent && vi.vecinfo.is_vectorizable)).map
      (fun vi => vi.vecinfo.vector_size)

/-- The candidate size after the sizes `ws` have been met, starting from `w`
(zero: none yet). -/
def candidate_size (w : Int) : List Int → Int
  | [] => w
  | s :: t => candidate_size (if w = 0 then s else w) t

/-- The sizes `ws`, met one after the other, never differ from the candidate
size they meet. -/
def consistent_sizes (w : Int) : List Int → Prop
  | [] => True
  | s :: t => (w = 0 ∨ s = w) ∧ consistent_sizes (if w = 0 then s else w) t

/-- The string `s` contains the string `name`. -/
def contains_name (s name : String) : Prop :=
  name.data <:+: s.data

/-- What every step of `check_loop_vectorizable` keeps: a cleared
`is_vectorizable`, the text of `reason` as a prefix, a candidate size once set. -/
def vec_extends (st st' : vec_state) : Prop :=
  (st.is_vectorizable = false → st'.is_vectorizable = false) ∧
  (∃ suffix : String, st'.reason = st.reason ++ suffix) ∧
  (st.vector_size ≠ 0 → st'.vector_size = st.vector_size)

/-! ### Specification vocabulary for `generate_code_avx` -/

/-- The accumulator declaration of a reduction variable, in the words of the
specification: seeded with 0 for SUM and with 1 for PRODUCT, none for NONE. -/
def accumulator_declaration (v : var_info) : String :=
  match v.reduction_type with
  | reduction.SUM => v.vecinfo.vectorized_type ++ " " ++ ("v_" ++ v.reduction_name) ++ "(0);\n"
  | reduction.PRODUCT =>
    v.vecinfo.vectorized_type ++ " " ++ ("v_" ++ v.reduction_name) ++ "(1);\n"
  | reduction.NONE => ""

/-- The accumulator declaration of a vector reduction, in the words of the
specification. -/
def vector_accumulator_declaration (vrf : vector_reduction_ref) : String :=
  match vrf.reduction_type with
  | reduction.SUM =>
    "vectorize_struct<" ++ vrf.type ++ ", vector_size>::type v_" ++ vrf.vector_name ++ "(0);\n"
  | reduction.PRODUCT =>
    "vectorize_struct<" ++ vrf.type ++ ", vector_size>::type v_" ++ vrf.vector_name ++ "(1);\n"
  | reduction.NONE => ""

/-- The store-back call of a field. -/
def store_back_call (env : avx_environment) (l : field_info) : String :=
  l.new_name ++ ".set_vector_at<" ++ l.vecinfo.vectorized_type ++ ">(" ++
    l.loop_ref_name ++ ", " ++ env.looping_var ++ ");\n"

/-! ### Specification vocabulary for the first loop of `check_field_ref_list` -/

/-- The invariant of the loop over `field_ref_list` after the first `n` references:
`info` has one entry per reference; the descriptor that `info` names for a
reference lists the reference and carries its name expression or a duplicate of
it; a reference listed by a descriptor has that descriptor as `info`; the
`ref_list` of every descriptor is increasing; no descriptor's name expression is
a duplicate of a later one; the first reference of a descriptor gave it its name
expression; and the descriptors are in the order of their first references. -/
def fields_inv (is_duplicate_expr : Expr → Expr → Bool) (refs : List field_ref) (n : Nat)
    (st : field_state) : Prop :=
  st.info.length = n ∧
  (∀ (k idx : Nat), st.info[k]? = some idx →
    ∃ l p, st.field_info_list[idx]? = some l ∧ refs[k]? = some p ∧ k ∈ l.ref_list ∧
      (l.nameExpr = p.nameExpr ∨ is_duplicate_expr l.nameExpr p.nameExpr = true)) ∧
  (∀ (idx : Nat) (l : field_info), st.field_info_list[idx]? = some l →
    ∀ k ∈ l.ref_list, st.info[k]? = some idx) ∧
  (∀ l ∈ st.field_info_list, l.ref_list.Pairwise (· < ·)) ∧
  (st.field_info_list.map (fun l => l.nameExpr)).Pairwise
    (fun a b => is_duplicate_expr a b = false) ∧
  (∀ (idx : Nat) (l : field_info), st.field_info_list[idx]? = some l →
    ∃ k0 p0, l.ref_list.head? = some k0 ∧ refs[k0]? = some p0 ∧ l.nameExpr = p0.nameExpr) ∧
  (∀ (i j : Nat) (li lj : field_info), i < j → st.field_info_list[i]? = some li →
    st.field_info_list[j]? = some lj →
    ∀ ki kj, li.ref_list.head? = some ki → lj.ref_list.head? = some kj → ki < kj)

/-- Specification vocabulary: `field_info_list` (`fil`) and the `info` pointers
hold one descriptor per class of name expressions of `field_ref_list` (`refs`):
every reference has as `info` a descriptor of a duplicate name expression, which
lists it once, and no other descriptor lists it; the `ref_list` of a descriptor
is the increasing list of the positions of the references of its class, and its
name expression is that of the first of them; two descriptors never have duplicate
name expressions; and the descriptors stand in the order of their first
references. -/
def one_descriptor_per_class (is_duplicate_expr : Expr → Expr → Bool) (refs : List field_ref)
    (fil : List field_info) (info : List Nat) : Prop :=
  (∀ (k : Nat) (p : field_ref), refs[k]? = some p →
    ∃ idx l, info[k]? = some idx ∧ fil[idx]? = some l ∧
      is_duplicate_expr l.nameExpr p.nameExpr = true ∧ l.ref_list.count k = 1 ∧
      ∀ (j : Nat) (l' : field_info), fil[j]? = some l' → k ∈ l'.ref_list → j = idx) ∧
  (∀ (idx : Nat) (l : field_info), fil[idx]? = some l →
    l.ref_list.Pairwise (· < ·) ∧
    (∀ k, k ∈ l.ref_list ↔
      ∃ p, refs[k]? = some p ∧ is_duplicate_expr l.nameExpr p.nameExpr = true) ∧
    ∃ k0 p0, l.ref_list.head? = some k0 ∧ refs[k0]? = some p0 ∧ l.nameExpr = p0.nameExpr) ∧
  (∀ (i j : Nat) (li lj : field_info), fil[i]? = some li → fil[j]? = some lj →
    is_duplicate_expr li.nameExpr lj.nameExpr = true → i = j) ∧
  (∀ (i j : Nat) (li lj : field_info), i < j → fil[i]? = some li → fil[j]? = some lj →
    ∀ ki kj, li.ref_list.head? = some ki → lj.ref_list.head? = some kj → ki < kj)

/-! ### Specification vocabulary for the direction entries -/

/-- The reference at position `k` of `field_ref_list` is a direction reference. -/
def is_direction_at (refs : List field_ref) (k : Nat) : Bool :=
  match refs[k]? with
  | some p => p.is_direction
  | none => false

/-- Two direction entries are constant directions with the same label. -/
def same_constant_label (a b : dir_ptr) : Prop :=
  a.is_constant_direction = true ∧ b.is_constant_direction = true ∧
    a.constant_value = b.constant_value

/-- What holds for the `dir_list` of every descriptor during the first loop of
`check_field_ref_list`: the entries list, between them, each direction reference
of the field once; no entry is without a reference; `count` is the number of the
entry's references that are not offsets; the entry of a constant-direction
reference is a constant direction with the label of the reference; and no two
entries are constant directions with the same label. -/
def dir_entries_inv (refs : List field_ref) (l : field_info) : Prop :=
  (l.dir_list.flatMap (fun dp => dp.ref_list)).Perm
    (l.ref_list.filter (fun k => is_direction_at refs k)) ∧
  (∀ dp ∈ l.dir_list, dp.ref_list ≠ []) ∧
  (∀ dp ∈ l.dir_list, dp.count = (deref refs dp.ref_list).countP (fun p => !p.is_offset)) ∧
  (∀ dp ∈ l.dir_list, ∀ k ∈ dp.ref_list, ∀ p, refs[k]? = some p →
    p.is_constant_direction = true →
    dp.is_constant_direction = true ∧ dp.constant_value = p.constant_value) ∧
  l.dir_list.Pairwise (fun a b => ¬ same_constant_label a b)

/-- The reference at position `k` is in the `ref_list` of exactly one entry of the
direction list `ds`, and once there. -/
def in_exactly_one_entry (ds : List dir_ptr) (k : Nat) : Prop :=
  ∃ i dp, ds[i]? = some dp ∧ dp.ref_list.count k = 1 ∧
    ∀ (j : Nat) (dp' : dir_ptr), ds[j]? = some dp' → k ∈ dp'.ref_list → j = i

/-! ### Specification vocabulary for `matrix` -/

/-- The sum of `norm_squared(c[i][j])` over all elements of the matrix. -/
def sum_of_norm_squared {α β : Type} [Add β] [Zero β] (norm_squared : α → β) (A : matrix α) :
    β :=
  ((A.c.flatMap id).map norm_squared).sum

/-! ### Specification vocabulary for the reads at the site -/

/-- The first written reference of a list of references, in list order. -/
def first_write (ps : List field_ref) : Option field_ref :=
  ps.find? (fun p => p.is_written)

/-- Some read reference `f[X]` of the list, not a neighbour reference, either
precedes every written reference of the list or has a sequence number not greater
than that of the first written reference. -/
def read_at_X_spec (ps : List field_ref) : Prop :=
  ∃ (i : Nat) (p : field_ref), ps[i]? = some p ∧ p.is_read = true ∧ p.is_direction = false ∧
    ((∀ (j : Nat) (q : field_ref), ps[j]? = some q → q.is_written = true → i < j) ∨
     (∃ w, first_write ps = some w ∧ p.sequence ≤ w.sequence))

/-- What holds for the write and read flags of every descriptor during the first
loop of `check_field_ref_list`, in terms of the references recorded for it. -/
def read_write_inv (refs : List field_ref) (l : field_info) : Prop :=
  l.is_written = (deref refs l.ref_list).any (fun p => p.is_written) ∧
  (∀ w, first_write (deref refs l.ref_list) = some w → l.first_assign_seq = w.sequence) ∧
  (l.is_read_atX = true ↔ read_at_X_spec (deref refs l.ref_list))

/-- The label of a recorded reference is the one that the code computes: a
reference marked `is_constant_direction` is marked `is_direction`, the operator of
its direction expression has an integer constant as its argument, and
`constant_value` is `direction_label` of the spelling of the operator and of the
value of the constant. -/
def label_recorded (env : field_X_environment) (r : field_ref) : Prop :=
  r.is_constant_direction = true →
    r.is_direction = true ∧
    ∃ (ops : String) (value : Int),
      env.direction_operator r.parityExpr = some (ops, some value) ∧
      direction_label ops value = some r.constant_value

/-- The fetch of the neighbours in one direction of a field into the temporary
`name_with_dir`; nothing for a direction that no reference uses. -/
def neighbour_fetch (env : avx_environment) (l : field_info) (d : dir_ptr) : String :=
  if d.count > 0 then
    l.vecinfo.vectorized_type ++ " " ++ d.name_with_dir ++ " = " ++ l.new_name ++
      ".get_vector_at<" ++ l.vecinfo.vectorized_type ++ ">(loop_lattice->neighbours[" ++
      (if d.is_constant_direction then d.direxpr_s
       else env.remove_X (env.loopBuf_get d.parityExpr)) ++
      "][" ++ env.looping_var ++ "]);\n"
  else ""

/-- The temporaries of one field: the neighbour fetches when the field is read at
a neighbour, and the temporary of the value at the site, loaded when the field is
read at the site and only declared when it is written without being read there. -/
def field_temporaries (env : avx_environment) (l : field_info) : String :=
  (if l.is_read_nb then String.join (l.dir_list.map (neighbour_fetch env l)) else "") ++
  (if l.is_read_atX then
    l.vecinfo.vectorized_type ++ " " ++ l.loop_ref_name ++ " = " ++ l.new_name ++
      ".get_vector_at<" ++ l.vecinfo.vectorized_type ++ ">(" ++ env.looping_var ++ ");\n"
  else if l.is_written then l.vecinfo.vectorized_type ++ " " ++ l.loop_ref_name ++ ";\n"
  else "")

/-- The collapse of one vector reduction over the lanes, with the index array
`v_index_0`. -/
def lane_collapse (vrf : vector_reduction_ref) : String :=
  "int v_index_0[vector_size];\n" ++
  vrf.index_name ++ ".store(&v_index_0[0]);\n" ++
  vrf.type ++ " a_" ++ vrf.vector_name ++ "[vector_size];\n" ++
  "v_" ++ vrf.vector_name ++ ".store(&a_" ++ vrf.vector_name ++ "[0]);\n" ++
  "for( int i=0; i<vector_size; i++)\x7b\n" ++
  (match vrf.reduction_type with
   | reduction.SUM => vrf.vector_name ++ "[v_index_0[i]] += a_" ++ vrf.vector_name ++ "[i];\n"
   | reduction.PRODUCT =>
     vrf.vector_name ++ "[v_index_0[i]] *= a_" ++ vrf.vector_name ++ "[i];\n"
   | reduction.NONE => "") ++
  "\x7d\n"

/-- The `wait_get` call for one direction of a field; nothing for a direction that
no reference uses. -/
def wait_get_call (env : avx_environment) (l : field_info) (d : dir_ptr) : String :=
  if d.count > 0 then
    l.new_name ++ ".wait_get(" ++ d.direxpr_s ++ ", " ++ env.parity_in_this_loop ++ ");\n"
  else ""

/-- The `wait_get` calls of one field. -/
def wait_get_calls (env : avx_environment) (l : field_info) : String :=
  String.join (l.dir_list.map (wait_get_call env l))

/-- The final reduction of one variable from its accumulator `v_<reduction name>`;
nothing for a variable that is no reduction. -/
def final_reduction (v : var_info) : String :=
  match v.reduction_type with
  | reduction.SUM => v.reduction_name ++ " = reduce_sum(" ++ ("v_" ++ v.reduction_name) ++ ");\n"
  | reduction.PRODUCT =>
    v.reduction_name ++ " = reduce_prod(" ++ ("v_" ++ v.reduction_name) ++ ");\n"
  | reduction.NONE => ""

/-- The loop lattice, the loop bounds and the head of the loop over the sites,
inside the head of the wait loop and followed by the test of the wait mask when
wait loops are generated. -/
def vectorized_loop_header (env : avx_environment) (generate_wait_loops : Bool)
    (fieldname : String) : String :=
  match generate_wait_loops with
  | false =>
    "const auto * RESTRICT loop_lattice = " ++ fieldname ++ ".fs->vector_lattice;\n" ++
    "const int loop_begin = loop_lattice->loop_begin(" ++ env.parity_in_this_loop ++ ");\n" ++
    "const int loop_end   = loop_lattice->loop_end(" ++ env.parity_in_this_loop ++ ");\n" ++
    "for(int " ++ env.looping_var ++ " = loop_begin; " ++ env.looping_var ++
      " < loop_end; ++" ++ env.looping_var ++ ") \x7b\n"
  | true =>
    "const auto * RESTRICT loop_lattice = " ++ fieldname ++ ".fs->vector_lattice;\n" ++
    "const int loop_begin = loop_lattice->loop_begin(" ++ env.parity_in_this_loop ++ ");\n" ++
    "const int loop_end   = loop_lattice->loop_end(" ++ env.parity_in_this_loop ++ ");\n" ++
    "for (int _wait_i_ = 0; _wait_i_ < 2; ++_wait_i_) \x7b\n" ++
    "for(int " ++ env.looping_var ++ " = loop_begin; " ++ env.looping_var ++
      " < loop_end; ++" ++ env.looping_var ++ ") \x7b\n" ++
    "if (((loop_lattice->vec_wait_arr_[" ++ env.looping_var ++
      "] & _dir_mask_) != 0) == _wait_i_) \x7b\n"

/-- The code between the accumulator declarations and the store-back calls: the
temporaries of the fields, the loop body as `loopBuf` holds it, and the collapse of
the vector reductions before the brace that closes the body. -/
def loop_body_code (env : avx_environment) (semicolon_at_end : Bool)
    (fields : List field_info) (vrfs : List vector_reduction_ref) : String :=
  String.join (fields.map (field_temporaries env)) ++
  env.loopBuf_dump ++ (if semicolon_at_end then ";" else "") ++ "\n" ++
  String.join (vrfs.map lane_collapse) ++
  (if semicolon_at_end then "" else "\x7d") ++ "\n"

/-- The code after the store-back calls: the end of the loop over the sites, with
wait loops the end of the test, the early exit, the `wait_get` calls and the end of
the wait loop, and the final reductions. -/
def code_after_store_back (env : avx_environment) (generate_wait_loops : Bool)
    (fields : List field_info) (vars : List var_info) : String :=
  "\x7d\n" ++
  (if generate_wait_loops then
    "\x7d\nif (_dir_mask_ == 0) break;    // No need for another round\n" ++
      String.join (fields.map (wait_get_calls env)) ++ "\x7d\n"
  else "") ++
  String.join (vars.map final_reduction)

/-- The code before the store-back calls: the comment with the verdict, the
accumulator declarations, the loop header, the declarations for the vector
reductions, and the code up to the end of the loop body. -/
def code_before_store_back (env : avx_environment) (semicolon_at_end : Bool)
    (generate_wait_loops : Bool) (fields : List field_info) (vars : List var_info)
    (vrfs : List vector_reduction_ref) (diag_str : String) (fieldname : String) : String :=
  env.comment_string diag_str ++ "\n" ++
  String.join (vars.map accumulator_declaration) ++
  vectorized_loop_header env generate_wait_loops fieldname ++
  String.join (vrfs.map vector_accumulator_declaration) ++
  loop_body_code env semicolon_at_end fields vrfs

/-- The code after the accumulator declarations: the code up to the end of the
loop body, the store-back calls of the written fields, and the code after
them. -/
def code_after_accumulators (env : avx_environment) (semicolon_at_end : Bool)
    (generate_wait_loops : Bool) (fields : List field_info) (vars : List var_info)
    (vrfs : List vector_reduction_ref) : String :=
  loop_body_code env semicolon_at_end fields vrfs ++
  String.join ((fields.filter (fun l => l.is_written)).map (store_back_call env)) ++
  code_after_store_back env generate_wait_loops fields vars

/-! ## Theorems -/

/-! ### Propagation of site dependence -/

theorem evolves_refl (l : List var_info) : evolves l l := by
  refine ⟨rfl, fun j v hv => ⟨v.is_site_dependent, ?_, fun h => h, fun h => ?_⟩⟩
  · simpa using hv
  · left
    simp [sd_at, hv, h]

theorem sd_at_eq_true {l : List var_info} {d : Nat} (h : sd_at l d = true) :
    ∃ v, l[d]? = some v ∧ v.is_site_dependent = true := by
  unfold sd_at at h
  split at h
  · next v hv => exact ⟨v, hv, h⟩
  · cases h

theorem evolves_sd_at {l cur : List var_info} (h : evolves l cur) {d : Nat}
    (hd : sd_at cur d = true) : leads_to_marked l d := by
  obtain ⟨v, hv, hsd⟩ := sd_at_eq_true hd
  obtain ⟨hlt, _⟩ := List.getElem?_eq_some.mp hv
  have hlt0 : d < l.length := h.1 ▸ hlt
  obtain ⟨b, hb, _, hlead⟩ := h.2 d l[d] (List.getElem?_eq_getElem hlt0)
  rw [hv] at hb
  have hvb : v = { l[d] with is_site_dependent := b } := Option.some.inj hb
  apply hlead
  rw [hvb] at hsd
  exact hsd

theorem evolves_mono {l cur : List var_info} (h : evolves l cur) {d : Nat}
    (hd : sd_at l d = true) : sd_at cur d = true := by
  obtain ⟨v, hv, hsd⟩ := sd_at_eq_true hd
  obtain ⟨b, hb, hmono, _⟩ := h.2 d v hv
  simp [sd_at, hb, hmono hsd]

theorem evolves_deps {l cur : List var_info} (h : evolves l cur) {i : Nat} {vi : var_info}
    (hi : cur[i]? = some vi) :
    ∃ v, l[i]? = some v ∧ vi.dependent_vars = v.dependent_vars ∧
      vi = { v with is_site_dependent := vi.is_site_dependent } := by
  obtain ⟨hlt, _⟩ := List.getElem?_eq_some.mp hi
  have hlt0 : i < l.length := h.1 ▸ hlt
  obtain ⟨b, hb, _, _⟩ := h.2 i l[i] (List.getElem?_eq_getElem hlt0)
  rw [hi] at hb
  have hvb : vi = { l[i] with is_site_dependent := b } := Option.some.inj hb
  refine ⟨l[i], List.getElem?_eq_getElem hlt0, ?_, ?_⟩
  · rw [hvb]
  · rw [hvb]

theorem propagate_visit_evolves (l : List var_info) (st : List var_info × Nat) (i : Nat)
    (h : evolves l st.1) : evolves l (propagate_visit st i).1 := by
  unfold propagate_visit
  split
  · exact h
  · next vi hvi =>
    split
    · next hc =>
      obtain ⟨hsd, hdep⟩ := hc
      obtain ⟨v0, hv0, hdeps, hvi0⟩ := evolves_deps h hvi
      have hlead : leads_to_marked l i := by
        unfold has_marked_dependency at hdep
        obtain ⟨d, hdmem, hdsd⟩ := List.any_eq_true.mp hdep
        have hdl := evolves_sd_at h hdsd
        have hlink : depends_on l i d := ⟨v0, hv0, hdeps ▸ hdmem⟩
        right
        rcases hdl with hdl | ⟨k, hk, hksd⟩
        · exact ⟨d, Relation.TransGen.single hlink, hdl⟩
        · exact ⟨k, Relation.TransGen.head hlink hk, hksd⟩
      refine ⟨by simp [h.1], fun j v hv => ?_⟩
      by_cases hji : i = j
      · subst hji
        have hlt : i < st.1.length := (List.getElem?_eq_some.mp hvi).1
        rw [hv0] at hv
        have hvv : v0 = v := Option.some.inj hv
        subst hvv
        refine ⟨true, ?_, fun _ => rfl, fun _ => hlead⟩
        simp only [List.getElem?_set_self hlt]
        rw [hvi0]
      · obtain ⟨b, hb, h1, h2⟩ := h.2 j v hv
        exact ⟨b, by simp only [List.getElem?_set_ne hji]; exact hb, h1, h2⟩
    · exact h

theorem propagate_upto_succ (l : List var_info) (n : Nat) :
    propagate_upto l (n + 1) = propagate_visit (propagate_upto l n) n := by
  simp [propagate_upto, List.range_succ, List.foldl_append]

theorem propagate_upto_evolves (l0 l : List var_info) (h : evolves l0 l) (n : Nat) :
    evolves l0 (propagate_upto l n).1 := by
  induction n with
  | zero => simpa [propagate_upto] using h
  | succ n ih =>
    rw [propagate_upto_succ]
    exact propagate_visit_evolves _ _ _ ih

theorem unmarked_set_marked (l : List var_info) (i : Nat) (vi : var_info)
    (h : l[i]? = some vi) (hsd : vi.is_site_dependent = false) :
    unmarked (l.set i { vi with is_site_dependent := true }) + 1 = unmarked l := by
  induction l generalizing i with
  | nil => simp at h
  | cons a t ih =>
    cases i with
    | zero =>
      simp at h
      subst h
      simp [unmarked, List.countP_cons, hsd]
    | succ k =>
      simp at h
      have := ih k h
      simp only [unmarked, List.set_cons_succ, List.countP_cons] at this ⊢
      omega

theorem propagate_visit_count (st : List var_info × Nat) (i : Nat) :
    unmarked (propagate_visit st i).1 + (propagate_visit st i).2 = unmarked st.1 + st.2 := by
  unfold propagate_visit
  split
  · rfl
  · next vi hvi =>
    split
    · next hc =>
      have := unmarked_set_marked st.1 i vi hvi hc.1
      simp only
      omega
    · rfl

theorem propagate_upto_count (l : List var_info) (n : Nat) :
    unmarked (propagate_upto l n).1 + (propagate_upto l n).2 = unmarked l := by
  induction n with
  | zero => simp [propagate_upto]
  | succ n ih =>
    rw [propagate_upto_succ, propagate_visit_count]
    exact ih

theorem propagate_visit_found_zero (st : List var_info × Nat) (i : Nat)
    (h : (propagate_visit st i).2 = 0) :
    propagate_visit st i = st ∧ st.2 = 0 ∧
      ∀ vi, st.1[i]? = some vi → vi.is_site_dependent = false →
        has_marked_dependency st.1 vi.dependent_vars = false := by
  unfold propagate_visit at h ⊢
  split at h
  · next hnone =>
    rw [hnone]
    exact ⟨rfl, h, fun vi hvi => by cases hvi⟩
  · next vi hvi =>
    rw [hvi]
    split at h
    · simp at h
    · next hc =>
      rw [if_neg hc]
      refine ⟨rfl, h, fun v hv hsd => ?_⟩
      cases hv
      by_contra hne
      exact hc ⟨hsd, by simpa using hne⟩

theorem propagate_upto_found_zero (l : List var_info) (n : Nat)
    (h : (propagate_upto l n).2 = 0) :
    (propagate_upto l n).1 = l ∧
      ∀ j, j < n → ∀ vi, l[j]? = some vi → vi.is_site_dependent = false →
        has_marked_dependency l vi.dependent_vars = false := by
  induction n with
  | zero => exact ⟨by simp [propagate_upto], fun j hj => absurd hj (Nat.not_lt_zero j)⟩
  | succ n ih =>
    rw [propagate_upto_succ] at h ⊢
    obtain ⟨heq, hz, hcond⟩ := propagate_visit_found_zero _ _ h
    obtain ⟨hl, hprev⟩ := ih hz
    rw [heq]
    refine ⟨hl, fun j hj vi hvi hsd => ?_⟩
    rcases Nat.lt_succ_iff_lt_or_eq.mp hj with hlt | rfl
    · exact hprev j hlt vi hvi hsd
    · rw [hl] at hcond
      exact hcond vi hvi hsd

theorem propagate_pass_found_zero (l : List var_info) (h : (propagate_pass l).2 = 0) :
    (propagate_pass l).1 = l ∧ stable l := by
  obtain ⟨hl, hs⟩ := propagate_upto_found_zero l l.length h
  refine ⟨hl, fun j vi hvi hsd => hs j ?_ vi hvi hsd⟩
  exact (List.getElem?_eq_some.mp hvi).1

theorem stable_link {l r : List var_info} (he : evolves l r) (hs : stable r) {a d : Nat}
    (hlink : depends_on l a d) (hd : sd_at r d = true) : sd_at r a = true := by
  obtain ⟨va, hva, hmem⟩ := hlink
  obtain ⟨b, hb, _, _⟩ := he.2 a va hva
  cases b with
  | true => simp [sd_at, hb]
  | false =>
    have := hs a _ hb rfl
    have hany : has_marked_dependency r va.dependent_vars = true :=
      List.any_eq_true.mpr ⟨d, hmem, hd⟩
    simp only at this
    rw [this] at hany
    cases hany

theorem stable_complete {l r : List var_info} (he : evolves l r) (hs : stable r) {i : Nat}
    (h : leads_to_marked l i) : sd_at r i = true := by
  rcases h with h | ⟨j, hchain, hj⟩
  · exact evolves_mono he h
  · induction hchain using Relation.TransGen.head_induction_on with
    | base hlink => exact stable_link he hs hlink (evolves_mono he hj)
    | ih hlink _ ih => exact stable_link he hs hlink ih

theorem propagate_loop_spec (l0 : List var_info) :
    ∀ (fuel : Nat) (cur : List var_info), evolves l0 cur → unmarked cur < fuel →
      ∃ r p, propagate_loop fuel cur = some (r, p) ∧ evolves l0 r ∧ stable r ∧
        1 ≤ p ∧ p ≤ unmarked cur + 1 := by
  intro fuel
  induction fuel with
  | zero => intro cur _ h; exact absurd h (Nat.not_lt_zero _)
  | succ fuel ih =>
    intro cur hev hfuel
    have hcount := propagate_upto_count cur cur.length
    have hev1 : evolves l0 (propagate_pass cur).1 := propagate_upto_evolves l0 cur hev _
    by_cases hfound : (propagate_pass cur).2 > 0
    · have hlt : unmarked (propagate_pass cur).1 < fuel := by
        unfold propagate_pass at hfound ⊢
        omega
      obtain ⟨r, p, hr, hevr, hst, hp1, hp2⟩ := ih _ hev1 hlt
      refine ⟨r, p + 1, ?_, hevr, hst, by omega, ?_⟩
      · simp only [propagate_loop, hfound, if_true, hr]
      · unfold propagate_pass at hfound hp2
        omega
    · have hz : (propagate_pass cur).2 = 0 := by omega
      obtain ⟨hl, hst⟩ := propagate_pass_found_zero cur hz
      refine ⟨cur, 1, ?_, hev, hst, le_refl 1, by omega⟩
      simp only [propagate_loop, hfound, if_false, hl]

theorem has_marked_dependency_of_none_marked (l : List var_info)
    (h : ∀ d, sd_at l d = false) (deps : List Nat) : has_marked_dependency l deps = false := by
  unfold has_marked_dependency
  rw [Bool.eq_false_iff]
  intro hany
  obtain ⟨d, _, hd⟩ := List.any_eq_true.mp hany
  rw [h d] at hd
  cases hd

theorem propagate_upto_none_marked (l : List var_info) (h : ∀ d, sd_at l d = false) (n : Nat) :
    propagate_upto l n = (l, 0) := by
  induction n with
  | zero => simp [propagate_upto]
  | succ n ih =>
    rw [propagate_upto_succ, ih]
    unfold propagate_visit
    split
    · rfl
    · next vi _ =>
      have := has_marked_dependency_of_none_marked l h vi.dependent_vars
      simp [this]

theorem none_marked_of_unmarked_eq (l : List var_info) (h : unmarked l = l.length) (d : Nat) :
    sd_at l d = false := by
  unfold unmarked at h
  rw [List.countP_eq_length] at h
  unfold sd_at
  split
  · next v hv =>
    have := h v (List.mem_iff_getElem?.mpr ⟨d, hv⟩)
    simpa using this
  · rfl

theorem propagate_loop_passes (l : List var_info) (k : Nat) :
    ∃ r p, propagate_loop (max l.length 1 + k) l = some (r, p) ∧ evolves l r ∧ stable r ∧
      1 ≤ p ∧ p ≤ max l.length 1 := by
  by_cases hall : unmarked l = l.length
  · have hnone := none_marked_of_unmarked_eq l hall
    have hpass : propagate_pass l = (l, 0) := propagate_upto_none_marked l hnone _
    obtain ⟨m, hm⟩ : ∃ m, max l.length 1 + k = m + 1 := ⟨max l.length 1 + k - 1, by omega⟩
    have hst : stable l := (propagate_pass_found_zero l (by rw [hpass])).2
    refine ⟨l, 1, ?_, evolves_refl l, hst, le_refl 1, by omega⟩
    rw [hm]
    simp [propagate_loop, hpass]
  · have hle : unmarked l ≤ l.length := List.countP_le_length _
    obtain ⟨r, p, hr, hev, hst, hp1, hp2⟩ :=
      propagate_loop_spec l (max l.length 1 + k) l (evolves_refl l) (by omega)
    exact ⟨r, p, hr, hev, hst, hp1, by omega⟩

theorem sd_at_set_vectorized_types
    (f : String → vectorization_info → Bool × vectorization_info) (l : List var_info) (i : Nat) :
    sd_at (set_vectorized_types f l) i = sd_at l i := by
  unfold sd_at set_vectorized_types
  rw [List.getElem?_map]
  cases l[i]? with
  | none => rfl
  | some v =>
    simp only [Option.map_some']
    split <;> rfl

/-- C2: after the propagation loop of `check_var_info_list` (which ends, for
every list and so for every order of `var_info_list`), a variable is marked site
dependent iff it was marked before the loop or a chain of `dependent_vars` links
leads from it to a variable that was marked before the loop; and no variable
left unmarked has a dependency that is marked. -/
theorem propagation_reaches_fixed_point (l : List var_info) (k : Nat) :
    ∃ r p, propagate_loop (l.length + 1 + k) l = some (r, p) ∧ r.length = l.length ∧
      (∀ i, sd_at r i = true ↔
        (sd_at l i = true ∨
          ∃ j, Relation.TransGen (depends_on l) i j ∧ sd_at l j = true)) ∧
      (∀ (i : Nat) (vi : var_info), r[i]? = some vi → vi.is_site_dependent = false →
        ∀ d ∈ vi.dependent_vars, sd_at r d = false) := by
  have hle : unmarked l ≤ l.length := List.countP_le_length _
  obtain ⟨r, p, hr, hev, hst, _, _⟩ :=
    propagate_loop_spec l (l.length + 1 + k) l (evolves_refl l) (by omega)
  refine ⟨r, p, hr, hev.1, fun i => ⟨fun h => evolves_sd_at hev h,
    fun h => stable_complete hev hst h⟩, fun i vi hvi hsd d hd => ?_⟩
  have := hst i vi hvi hsd
  unfold has_marked_dependency at this
  rw [Bool.eq_false_iff] at this ⊢
  intro hdsd
  exact this (List.any_eq_true.mpr ⟨d, hd, hdsd⟩)

/-- C3: the propagation is monotonic. In every pass a variable that is marked
site dependent stays marked, and every variable that is site dependent before
the call of `check_var_info_list` is site dependent after it. -/
theorem propagation_monotonic (check_if_legal : String → Bool) (legal_as_string : String)
    (vectorize : Bool)
    (is_vectorizable_type : String → vectorization_info → Bool × vectorization_info)
    (l : List var_info) (k : Nat) :
    (∀ i, sd_at l i = true → sd_at (propagate_pass l).1 i = true) ∧
    ∃ ds r, check_var_info_list check_if_legal legal_as_string vectorize
        is_vectorizable_type (l.length + 1 + k) l = some (ds, r) ∧
      ∀ i, sd_at l i = true → sd_at r i = true := by
  constructor
  · intro i hi
    exact evolves_mono (propagate_upto_evolves l l (evolves_refl l) l.length) hi
  · have hle : unmarked l ≤ l.length := List.countP_le_length _
    obtain ⟨r, p, hr, hev, _, _, _⟩ :=
      propagate_loop_spec l (l.length + 1 + k) l (evolves_refl l) (by omega)
    refine ⟨l.flatMap (check_var_diags check_if_legal legal_as_string),
      if vectorize = true then set_vectorized_types is_vectorizable_type r else r,
      by simp only [check_var_info_list, hr], fun i hi => ?_⟩
    have := evolves_mono hev hi
    cases vectorize with
    | true => simpa [sd_at_set_vectorized_types] using this
    | false => simpa using this

/-- C4, refuted as stated: for the empty `var_info_list` (N = 0) the `do ... while`
loop performs one pass. -/
theorem propagation_passes_counterexample :
    propagate_loop 1 [] = some ([], 1) ∧ ¬ (1 ≤ ([] : List var_info).length) := by
  constructor
  · rfl
  · simp

/-- C4, amended: for every `var_info_list` and every dependency graph the
propagation loop ends, after at least one and at most `max N 1` full passes,
where N is the number of variables (so at most N passes when the list is not
empty). -/
theorem propagation_terminates_within_passes (l : List var_info) (k : Nat) :
    ∃ r p, propagate_loop (max l.length 1 + k) l = some (r, p) ∧
      1 ≤ p ∧ p ≤ max l.length 1 := by
  obtain ⟨r, p, hr, _, _, hp1, hp2⟩ := propagate_loop_passes l k
  exact ⟨r, p, hr, hp1, hp2⟩

/-- C8: `get_reduction_type` returns SUM exactly for an assignment with `+=` to
a variable that is not loop local, PRODUCT exactly for an assignment with `*=`
to such a variable, and NONE in every other case. -/
theorem get_reduction_type_spec (is_assign : Bool) (assignop : String) (vi : var_info) :
    (get_reduction_type is_assign assignop vi = reduction.SUM ↔
      (is_assign = true ∧ vi.is_loop_local = false ∧ assignop = "+=")) ∧
    (get_reduction_type is_assign assignop vi = reduction.PRODUCT ↔
      (is_assign = true ∧ vi.is_loop_local = false ∧ assignop = "*=")) ∧
    (get_reduction_type is_assign assignop vi = reduction.NONE ↔
      (is_assign = false ∨ vi.is_loop_local = true ∨
        (assignop ≠ "+=" ∧ assignop ≠ "*="))) := by
  have hne : ("+=" : String) ≠ "*=" := by decide
  unfold get_reduction_type
  cases is_assign <;> cases vi.is_loop_local <;> simp
  by_cases h1 : assignop = "+="
  · subst h1
    simp [hne]
  · by_cases h2 : assignop = "*="
    · subst h2
      simp [h1]
    · simp [h1, h2]

/-! ### `check_field_ref_list` -/

theorem foldl_visit_invariant (is_duplicate_expr : Expr → Expr → Bool) (refs : List field_ref)
    (P : field_state → Prop)
    (hstep : ∀ st k p, refs[k]? = some p → P st →
      P (visit_field_ref is_duplicate_expr st (k, p))) :
    ∀ (xs : List (Nat × field_ref)), (∀ kp ∈ xs, refs[kp.1]? = some kp.2) →
      ∀ st, P st → P (xs.foldl (visit_field_ref is_duplicate_expr) st) := by
  intro xs
  induction xs with
  | nil => intro _ st h; exact h
  | cons a t ih =>
    intro hmem st h
    rw [List.foldl_cons]
    apply ih (fun kp hkp => hmem kp (List.mem_cons_of_mem _ hkp))
    exact hstep st a.1 a.2 (hmem a (List.mem_cons_self _ _)) h

/-- Induction principle for the first loop of `check_field_ref_list`. -/
theorem collect_fields_invariant (is_duplicate_expr : Expr → Expr → Bool)
    (refs : List field_ref) (P : field_state → Prop) (h0 : P ⟨[], [], [], true⟩)
    (hstep : ∀ st k p, refs[k]? = some p → P st →
      P (visit_field_ref is_duplicate_expr st (k, p))) :
    P (collect_fields is_duplicate_expr refs) := by
  unfold collect_fields
  exact foldl_visit_invariant is_duplicate_expr refs P hstep refs.enum
    (fun kp hkp => List.mem_enum_iff_getElem?.mp hkp) _ h0

theorem mem_modify_cases {α : Type} (f : α → α) (l : List α) (n : Nat) (x : α)
    (h : x ∈ l.modify f n) : x ∈ l ∨ ∃ y ∈ l, x = f y := by
  by_cases hn : n < l.length
  · rw [List.modify_eq_take_cons_drop hn] at h
    rcases List.mem_append.mp h with h | h
    · exact Or.inl (List.mem_of_mem_take h)
    · rcases List.mem_cons.mp h with h | h
      · exact Or.inr ⟨l[n], List.getElem_mem _, h⟩
      · exact Or.inl (List.mem_of_mem_drop h)
  · rw [List.modify_eq_self (by omega)] at h
    exact Or.inl h

/-- A property of descriptors that every new descriptor has and every recorded
reference keeps holds for all of `field_info_list` after the first loop. -/
theorem collect_fields_forall (is_duplicate_expr : Expr → Expr → Bool)
    (refs : List field_ref) (Q : field_info → Prop)
    (hnew : ∀ k p, refs[k]? = some p →
      Q (record_ref is_duplicate_expr p k (new_field_info p)))
    (hrec : ∀ k p fi, refs[k]? = some p → Q fi → Q (record_ref is_duplicate_expr p k fi)) :
    ∀ l ∈ (collect_fields is_duplicate_expr refs).field_info_list, Q l := by
  apply collect_fields_invariant is_duplicate_expr refs
    (fun st => ∀ l ∈ st.field_info_list, Q l)
  · intro l hl
    cases hl
  · intro st k p hp hst l hl
    unfold visit_field_ref at hl
    simp only at hl
    split at hl
    · simp only at hl
      rcases mem_modify_cases _ _ _ _ hl with h | ⟨y, hy, rfl⟩
      · exact hst l h
      · exact hrec k p y hp (hst y hy)
    · simp only at hl
      rcases List.mem_append.mp hl with h | h
      · exact hst l h
      · rw [List.mem_singleton] at h
        rw [h]
        exact hnew k p hp

theorem update_dir_list_ne_nil (is_duplicate_expr : Expr → Expr → Bool) (p : field_ref)
    (k : Nat) (ds : List dir_ptr) : update_dir_list is_duplicate_expr p k ds ≠ [] := by
  cases ds with
  | nil => simp [update_dir_list]
  | cons d t =>
    unfold update_dir_list
    split <;> simp

theorem record_ref_ref_list (is_duplicate_expr : Expr → Expr → Bool) (p : field_ref) (k : Nat)
    (fi : field_info) :
    (record_ref is_duplicate_expr p k fi).ref_list = fi.ref_list ++ [k] := by
  unfold record_ref
  simp only
  repeat' split
  all_goals rfl

theorem record_ref_dir_list (is_duplicate_expr : Expr → Expr → Bool) (p : field_ref) (k : Nat)
    (fi : field_info) :
    (record_ref is_duplicate_expr p k fi).dir_list =
      if p.is_direction then update_dir_list is_duplicate_expr p k fi.dir_list
      else fi.dir_list := by
  unfold record_ref
  simp only
  repeat' split
  all_goals rfl

theorem record_ref_old_name (is_duplicate_expr : Expr → Expr → Bool) (p : field_ref) (k : Nat)
    (fi : field_info) :
    (record_ref is_duplicate_expr p k fi).old_name = fi.old_name := by
  unfold record_ref
  simp only
  repeat' split
  all_goals rfl

theorem collect_fields_dir_list_ne_nil (is_duplicate_expr : Expr → Expr → Bool)
    (refs : List field_ref) :
    ∀ l ∈ (collect_fields is_duplicate_expr refs).field_info_list,
      ∀ k ∈ l.ref_list, ∀ p, refs[k]? = some p → p.is_direction = true → l.dir_list ≠ [] := by
  have hrec : ∀ k p fi, refs[k]? = some p →
      (∀ j ∈ fi.ref_list, ∀ q, refs[j]? = some q → q.is_direction = true → fi.dir_list ≠ []) →
      ∀ j ∈ (record_ref is_duplicate_expr p k fi).ref_list, ∀ q, refs[j]? = some q →
        q.is_direction = true → (record_ref is_duplicate_expr p k fi).dir_list ≠ [] := by
    intro k p fi hp hfi j hj q hq hdir
    rw [record_ref_ref_list] at hj
    rw [record_ref_dir_list]
    rcases List.mem_append.mp hj with hj | hj
    · split
      · exact update_dir_list_ne_nil _ _ _ _
      · exact hfi j hj q hq hdir
    · rw [List.mem_singleton] at hj
      subst hj
      rw [hp] at hq
      cases hq
      rw [if_pos hdir]
      exact update_dir_list_ne_nil _ _ _ _
  apply collect_fields_forall is_duplicate_expr refs
    (fun l => ∀ k ∈ l.ref_list, ∀ p, refs[k]? = some p → p.is_direction = true →
      l.dir_list ≠ [])
  · intro k p hp
    exact hrec k p (new_field_info p) hp
      (fun j hj => by simp [new_field_info, field_info_default] at hj)
  · exact hrec

theorem collect_fields_no_errors (is_duplicate_expr : Expr → Expr → Bool)
    (refs : List field_ref)
    (htypes : ∀ q ∈ refs, starts_with_Field q.nameExpr.type = true) :
    (collect_fields is_duplicate_expr refs).no_errors = true ∧
      (collect_fields is_duplicate_expr refs).diags = [] := by
  apply collect_fields_invariant is_duplicate_expr refs
    (fun st => st.no_errors = true ∧ st.diags = [])
  · exact ⟨rfl, rfl⟩
  · intro st k p hp hst
    have hty := htypes p (List.mem_iff_getElem?.mpr ⟨k, hp⟩)
    unfold visit_field_ref
    simp only
    split
    · exact hst
    · simp [hty, hst.1, hst.2]

theorem culprit_report_no_error (find_word : String → String → Option Nat)
    (li : loop_info_struct) (hpar : li.parity_value ≠ Parity.all) (l : field_info)
    (p : field_ref) :
    (culprit_report find_word li l p).2.2 = false ∧
      ∀ d ∈ (culprit_report find_word li l p).1, d.level ≠ Level.Error := by
  unfold culprit_report
  split_ifs <;> simp_all

theorem hazard_check_no_error (find_word : String → String → Option Nat)
    (li : loop_info_struct) (hpar : li.parity_value ≠ Parity.all) (refs : List field_ref)
    (l : field_info) :
    (hazard_check find_word li refs l).2 = false ∧
      ∀ d ∈ (hazard_check find_word li refs l).1, d.level ≠ Level.Error := by
  unfold hazard_check
  split
  · constructor
    · simp only
      rw [Bool.eq_false_iff]
      intro hany
      obtain ⟨r, hr, hr2⟩ := List.any_eq_true.mp hany
      obtain ⟨q, _, rfl⟩ := List.mem_map.mp hr
      rw [(culprit_report_no_error find_word li hpar l q).1] at hr2
      cases hr2
    · intro d hd
      simp only at hd
      rcases List.mem_append.mp hd with hd | hd
      · obtain ⟨r, hr, hdr⟩ := List.mem_flatMap.mp hd
        obtain ⟨q, _, rfl⟩ := List.mem_map.mp hr
        exact (culprit_report_no_error find_word li hpar l q).2 d hdr
      · split at hd
        · obtain ⟨q, _, rfl⟩ := List.mem_map.mp hd
          simp
        · cases hd
  · exact ⟨rfl, fun d hd => by cases hd⟩

/-- C1: in `check_field_ref_list`, for a field that is written in the loop and
has a read-only nearest-neighbour reference (a direction, not written, not an offset,
not exempted by the safe pragma), all field types being recognised Field types:
the Error is reported for that reference iff the loop parity is ALL, the function
returns false iff the loop parity is ALL, and with parity EVEN or ODD no Error is
reported and the function returns true. -/
theorem hazard_error_iff_parity_all (is_duplicate_expr : Expr → Expr → Bool)
    (find_word : String → String → Option Nat)
    (inspect_field_type : Expr → vectorization_info)
    (li : loop_info_struct) (refs : List field_ref) (l : field_info) (k : Nat) (p : field_ref)
    (htypes : ∀ q ∈ refs, starts_with_Field q.nameExpr.type = true)
    (hl : l ∈ (check_field_ref_list is_duplicate_expr find_word inspect_field_type li
      refs).field_info_list)
    (hw : l.is_written = true) (hk : k ∈ l.ref_list) (hp : refs[k]? = some p)
    (hdir : p.is_direction = true) (hnw : p.is_written = false) (hoff : p.is_offset = false)
    (hsafe : (li.has_pragma_safe &&
      (find_word li.pragma_safe_args p.nameExpr.text).isSome) = false) :
    ((⟨Level.Error, p.parityExpr.id,
        "simultaneous access '%0' and assignment '%1' not allowed with parity ALL",
        [p.fullExpr.text, l.old_name]⟩ : Diag) ∈
        (check_field_ref_list is_duplicate_expr find_word inspect_field_type li refs).diags ↔
      li.parity_value = Parity.all) ∧
    ((check_field_ref_list is_duplicate_expr find_word inspect_field_type li
        refs).no_errors = false ↔ li.parity_value = Parity.all) ∧
    (li.parity_value = Parity.even ∨ li.parity_value = Parity.odd →
      (check_field_ref_list is_duplicate_expr find_word inspect_field_type li
        refs).no_errors = true ∧
      ∀ d ∈ (check_field_ref_list is_duplicate_expr find_word inspect_field_type li
        refs).diags, d.level ≠ Level.Error) := by
  obtain ⟨hne, hnd⟩ := collect_fields_no_errors is_duplicate_expr refs htypes
  -- when the parity is not ALL, nothing is an Error
  have hnot : li.parity_value ≠ Parity.all →
      (check_field_ref_list is_duplicate_expr find_word inspect_field_type li
        refs).no_errors = true ∧
      ∀ d ∈ (check_field_ref_list is_duplicate_expr find_word inspect_field_type li
        refs).diags, d.level ≠ Level.Error := by
    intro hpar
    unfold check_field_ref_list
    simp only
    rw [hne, hnd]
    constructor
    · rw [Bool.true_and, Bool.not_eq_true', Bool.eq_false_iff]
      intro hany
      obtain ⟨c, hc, hc2⟩ := List.any_eq_true.mp hany
      obtain ⟨f, _, rfl⟩ := List.mem_map.mp hc
      rw [(hazard_check_no_error find_word li hpar refs f).1] at hc2
      cases hc2
    · intro d hd
      rw [List.nil_append] at hd
      obtain ⟨c, hc, hdc⟩ := List.mem_flatMap.mp hd
      obtain ⟨f, _, rfl⟩ := List.mem_map.mp hc
      exact (hazard_check_no_error find_word li hpar refs f).2 d hdc
  -- when the parity is ALL, the reference is reported
  have hall : li.parity_value = Parity.all →
      (⟨Level.Error, p.parityExpr.id,
        "simultaneous access '%0' and assignment '%1' not allowed with parity ALL",
        [p.fullExpr.text, l.old_name]⟩ : Diag) ∈
        (check_field_ref_list is_duplicate_expr find_word inspect_field_type li refs).diags ∧
      (check_field_ref_list is_duplicate_expr find_word inspect_field_type li
        refs).no_errors = false := by
    intro hpar
    unfold check_field_ref_list at hl ⊢
    simp only at hl ⊢
    obtain ⟨l0, hl0, rfl⟩ := List.mem_map.mp hl
    simp only at hw hk
    have hdl := collect_fields_dir_list_ne_nil is_duplicate_expr refs l0 hl0 k hk p hp hdir
    have hlen : l0.dir_list.length > 0 := List.length_pos.mpr hdl
    have hpmem : p ∈ deref refs l0.ref_list :=
      List.mem_filterMap.mpr ⟨k, hk, hp⟩
    have hcul : is_culprit find_word li p = true := by
      unfold is_culprit
      rw [hdir, hnw, hoff, hsafe]
      rfl
    have hrep : culprit_report find_word li l0 p =
        ([⟨Level.Error, p.parityExpr.id,
          "simultaneous access '%0' and assignment '%1' not allowed with parity ALL",
          [p.fullExpr.text, l0.old_name]⟩], true, true) := by
      unfold culprit_report
      rw [if_pos hcul, if_pos hpar]
    have hrmem : culprit_report find_word li l0 p ∈
        (deref refs l0.ref_list).map (culprit_report find_word li l0) :=
      List.mem_map.mpr ⟨p, hpmem, rfl⟩
    have hcond : (l0.is_written && decide (l0.dir_list.length > 0)) = true := by
      simp [hw, hlen]
    have hcmem : hazard_check find_word li refs l0 ∈
        (collect_fields is_duplicate_expr refs).field_info_list.map
          (hazard_check find_word li refs) :=
      List.mem_map.mpr ⟨l0, hl0, rfl⟩
    constructor
    · apply List.mem_append_right
      refine List.mem_flatMap.mpr ⟨_, hcmem, ?_⟩
      unfold hazard_check
      rw [if_pos hcond]
      simp only
      apply List.mem_append_left
      refine List.mem_flatMap.mpr ⟨_, hrmem, ?_⟩
      rw [hrep]
      exact List.mem_singleton.mpr rfl
    · rw [Bool.and_eq_false_iff]
      right
      rw [Bool.not_eq_false']
      refine List.any_eq_true.mpr ⟨_, hcmem, ?_⟩
      unfold hazard_check
      rw [if_pos hcond]
      simp only
      refine List.any_eq_true.mpr ⟨_, hrmem, ?_⟩
      rw [hrep]
  refine ⟨⟨fun hd => ?_, fun h => (hall h).1⟩, ⟨fun hf => ?_, fun h => (hall h).2⟩, fun h => ?_⟩
  · by_contra hpar
    exact (hnot hpar).2 _ hd rfl
  · by_contra hpar
    rw [(hnot hpar).1] at hf
    cases hf
  · apply hnot
    rcases h with h | h <;> rw [h] <;> decide

/-- Witness for C1: the loop `f[X] = f[X+e_x]` with parity ALL. -/
theorem hazard_error_iff_parity_all_witness :
    ((⟨Level.Error, ex_neighbour_ref.parityExpr.id,
        "simultaneous access '%0' and assignment '%1' not allowed with parity ALL",
        [ex_neighbour_ref.fullExpr.text, ex_hazard_field.old_name]⟩ : Diag) ∈
        (check_field_ref_list ex_is_duplicate_expr ex_find_word ex_inspect_field_type
          ⟨Parity.all, "ALL", false, "", false⟩ [ex_write_ref, ex_neighbour_ref]).diags ↔
      (⟨Parity.all, "ALL", false, "", false⟩ : loop_info_struct).parity_value = Parity.all) ∧
    ((check_field_ref_list ex_is_duplicate_expr ex_find_word ex_inspect_field_type
        ⟨Parity.all, "ALL", false, "", false⟩ [ex_write_ref, ex_neighbour_ref]).no_errors =
          false ↔
      (⟨Parity.all, "ALL", false, "", false⟩ : loop_info_struct).parity_value = Parity.all) ∧
    ((⟨Parity.all, "ALL", false, "", false⟩ : loop_info_struct).parity_value = Parity.even ∨
      (⟨Parity.all, "ALL", false, "", false⟩ : loop_info_struct).parity_value = Parity.odd →
      (check_field_ref_list ex_is_duplicate_expr ex_find_word ex_inspect_field_type
        ⟨Parity.all, "ALL", false, "", false⟩ [ex_write_ref, ex_neighbour_ref]).no_errors =
          true ∧
      ∀ d ∈ (check_field_ref_list ex_is_duplicate_expr ex_find_word ex_inspect_field_type
        ⟨Parity.all, "ALL", false, "", false⟩ [ex_write_ref, ex_neighbour_ref]).diags,
        d.level ≠ Level.Error) :=
  hazard_error_iff_parity_all ex_is_duplicate_expr ex_find_word ex_inspect_field_type
    ⟨Parity.all, "ALL", false, "", false⟩ [ex_write_ref, ex_neighbour_ref] ex_hazard_field 1
    ex_neighbour_ref (by decide) (by decide) rfl (by decide) rfl rfl rfl rfl rfl

/-! ### Diagnostics of `check_var_info_list` -/

theorem check_var_info_list_diags (check_if_legal : String → Bool) (legal_as_string : String)
    (vectorize : Bool)
    (is_vectorizable_type : String → vectorization_info → Bool × vectorization_info)
    (l : List var_info) (k : Nat) :
    ∃ r, check_var_info_list check_if_legal legal_as_string vectorize is_vectorizable_type
        (l.length + 1 + k) l =
      some (l.flatMap (check_var_diags check_if_legal legal_as_string), r) := by
  have hle : unmarked l ≤ l.length := List.countP_le_length _
  obtain ⟨r, p, hr, _⟩ :=
    propagate_loop_spec l (l.length + 1 + k) l (evolves_refl l) (by omega)
  exact ⟨if vectorize = true then set_vectorized_types is_vectorizable_type r else r,
    by simp only [check_var_info_list, hr]⟩

/-- C9, refuted as stated: for `x += ...; x = ...;` with `x` declared outside the
loop, the reference that assigns with `=` gets no Error; `check_var_info_list`
reports nothing at all. -/
theorem assign_outside_loop_counterexample :
    ex_sum_and_assign.is_loop_local = false ∧ ex_sum_and_assign.is_raw = false ∧
    (⟨2, true, "="⟩ : var_ref) ∈ ex_sum_and_assign.refs ∧
    check_var_info_list ex_check_if_legal "" false ex_is_vectorizable_type 2
      [ex_sum_and_assign] = some ([], [ex_sum_and_assign]) := by
  refine ⟨rfl, rfl, by decide, by decide⟩

/-- C9, amended: for every variable declared outside the loop (not loop local,
not raw pointer accessed) whose reduction kind is NONE, which is not of the
special type `Reduction<T>` and is marked `is_assigned`, `check_var_info_list`
reports the Error "cannot assign to variable defined outside site loop" for
every reference that assigns to it. -/
theorem assign_outside_loop_reported (check_if_legal : String → Bool)
    (legal_as_string : String) (vectorize : Bool)
    (is_vectorizable_type : String → vectorization_info → Bool × vectorization_info)
    (l : List var_info) (k : Nat) (vi : var_info) (vr : var_ref)
    (hvi : vi ∈ l) (hlocal : vi.is_loop_local = false) (hraw : vi.is_raw = false)
    (hred : vi.reduction_type = reduction.NONE)
    (hspecial : vi.is_special_reduction_type = false) (hass : vi.is_assigned = true)
    (hvr : vr ∈ vi.refs) (hvrass : vr.is_assigned = true) :
    ∃ ds r, check_var_info_list check_if_legal legal_as_string vectorize
        is_vectorizable_type (l.length + 1 + k) l = some (ds, r) ∧
      (⟨Level.Error, vr.ref,
        "cannot assign to variable defined outside site loop (unless reduction '+=' or '*=')",
        []⟩ : Diag) ∈ ds := by
  obtain ⟨r, hr⟩ := check_var_info_list_diags check_if_legal legal_as_string vectorize
    is_vectorizable_type l k
  refine ⟨_, r, hr, List.mem_flatMap.mpr ⟨vi, hvi, ?_⟩⟩
  unfold check_var_diags
  simp only [hlocal, hraw, hred, hspecial, hass]
  simp only [Bool.not_false, Bool.and_self, if_true, ne_eq, not_true_eq_false, if_false,
    Bool.false_eq_true, reduceCtorEq, List.append_nil]
  exact List.mem_map.mpr ⟨vr, List.mem_filter.mpr ⟨hvr, hvrass⟩, rfl⟩

/-- Witness for C9: the loop with the single outside variable `x`, assigned with `=`. -/
theorem assign_outside_loop_reported_witness :
    ∃ ds r, check_var_info_list ex_check_if_legal "" false ex_is_vectorizable_type
        ([ex_plain_assign].length + 1 + 0) [ex_plain_assign] = some (ds, r) ∧
      (⟨Level.Error, 1,
        "cannot assign to variable defined outside site loop (unless reduction '+=' or '*=')",
        []⟩ : Diag) ∈ ds :=
  assign_outside_loop_reported ex_check_if_legal "" false ex_is_vectorizable_type
    [ex_plain_assign] 0 ex_plain_assign ⟨1, true, "="⟩ (by decide) rfl rfl rfl rfl rfl
    (by decide) rfl

/-- C10, refuted as stated: for `s += ...; ... = s;` with `s` declared outside the
loop, `check_var_info_list` reports no diagnostic. -/
theorem reduction_and_read_counterexample :
    ex_sum_and_read.is_loop_local = false ∧
    (⟨1, true, "+="⟩ : var_ref) ∈ ex_sum_and_read.refs ∧
    (⟨2, false, ""⟩ : var_ref) ∈ ex_sum_and_read.refs ∧
    check_var_info_list ex_check_if_legal "" false ex_is_vectorizable_type 2
      [ex_sum_and_read] = some ([], [ex_sum_and_read]) := by
  refine ⟨rfl, by decide, by decide, by decide⟩

/-- C10, amended: for every variable that is the target of a `+=` reduction (kind
SUM), or of a `*=` reduction (kind PRODUCT) of a legal type, `check_var_info_list`
reports no diagnostic, whatever its other references are: the diagnostics of the
call are those of the other variables of the list. -/
theorem reduction_variable_not_flagged (check_if_legal : String → Bool)
    (legal_as_string : String) (vectorize : Bool)
    (is_vectorizable_type : String → vectorization_info → Bool × vectorization_info)
    (pre post : List var_info) (vi : var_info) (k : Nat)
    (hred : vi.reduction_type = reduction.SUM ∨
      (vi.reduction_type = reduction.PRODUCT ∧ check_if_legal vi.decl_type = true)) :
    ∃ ds r, check_var_info_list check_if_legal legal_as_string vectorize
        is_vectorizable_type ((pre ++ vi :: post).length + 1 + k) (pre ++ vi :: post) =
          some (ds, r) ∧
      ds = (pre ++ post).flatMap (check_var_diags check_if_legal legal_as_string) := by
  obtain ⟨r, hr⟩ := check_var_info_list_diags check_if_legal legal_as_string vectorize
    is_vectorizable_type (pre ++ vi :: post) k
  refine ⟨_, r, hr, ?_⟩
  have hnone : check_var_diags check_if_legal legal_as_string vi = [] := by
    unfold check_var_diags
    rcases hred with h | ⟨h, hleg⟩
    · simp [h]
    · simp [h, hleg]
  simp [List.flatMap_append, List.flatMap_cons, hnone]

/-- Witness for C10: the loop with the single sum reduction variable `s`, which is
also read. -/
theorem reduction_variable_not_flagged_witness :
    ∃ ds r, check_var_info_list ex_check_if_legal "" false ex_is_vectorizable_type
        (([] ++ ex_sum_and_read :: []).length + 1 + 0) ([] ++ ex_sum_and_read :: []) =
          some (ds, r) ∧
      ds = ([] ++ []).flatMap (check_var_diags ex_check_if_legal "") :=
  reduction_variable_not_flagged ex_check_if_legal "" false ex_is_vectorizable_type
    [] [] ex_sum_and_read 0 (Or.inl rfl)

/-! ### `check_loop_vectorizable` -/

theorem check_field_true (first : Option String) (st st' : vec_state) (fi : field_info) :
    (check_field first st fi = some st' ∧ st'.is_vectorizable = true) ↔
      (st.is_vectorizable = true ∧ fi.vecinfo.is_vectorizable = true ∧
        (st.vector_size = 0 ∨ fi.vecinfo.vector_size = st.vector_size) ∧
        st' = { st with
          vector_size := if st.vector_size = 0 then fi.vecinfo.vector_size
            else st.vector_size }) := by
  unfold check_field
  cases hv : fi.vecinfo.is_vectorizable with
  | false =>
    simp only [Bool.not_false, if_true, Option.some.injEq, Bool.false_eq_true, false_and,
      and_false, iff_false, not_and]
    intro h
    rw [← h]
    simp [add_reason]
  | true =>
    simp only [Bool.not_true, Bool.false_eq_true, if_false, true_and]
    by_cases h0 : st.vector_size = 0
    · simp only [h0, if_true, Option.some.injEq, true_or, true_and]
      constructor
      · rintro ⟨rfl, h⟩
        exact ⟨h, rfl⟩
      · rintro ⟨h, rfl⟩
        exact ⟨rfl, h⟩
    · simp only [h0, if_false, false_or]
      by_cases hs : fi.vecinfo.vector_size = st.vector_size
      · simp only [hs, ne_eq, not_true_eq_false, if_false, Option.some.injEq, true_and]
        constructor
        · rintro ⟨rfl, h⟩
          exact ⟨h, rfl⟩
        · rintro ⟨h, rfl⟩
          exact ⟨rfl, h⟩
      · simp only [ne_eq, hs, not_false_eq_true, if_true, false_and, and_false, iff_false,
          not_and]
        intro h
        unfold size_mismatch at h
        split at h
        · cases h
        · cases h
          simp [add_reason]

theorem check_var_true (first : Option String) (st st' : vec_state) (vi : var_info) :
    (check_var first st vi = some st' ∧ st'.is_vectorizable = true) ↔
      (st.is_vectorizable = true ∧
        (vi.is_site_dependent = true → vi.vecinfo.is_vectorizable = true ∧
          (st.vector_size = 0 ∨ vi.vecinfo.vector_size = st.vector_size)) ∧
        st' = { st with
          vector_size := if vi.is_site_dependent = true ∧ st.vector_size = 0
            then vi.vecinfo.vector_size else st.vector_size }) := by
  unfold check_var
  cases hsd : vi.is_site_dependent with
  | false =>
    simp only [Bool.false_eq_true, if_false, Option.some.injEq, false_and, false_implies,
      true_and]
    constructor
    · rintro ⟨rfl, h⟩
      exact ⟨h, rfl⟩
    · rintro ⟨h, rfl⟩
      exact ⟨rfl, h⟩
  | true =>
    simp only [if_true, true_and, true_implies]
    cases hv : vi.vecinfo.is_vectorizable with
    | false =>
      simp only [Bool.false_eq_true, if_false, Option.some.injEq, false_and, and_false,
        iff_false, not_and]
      intro h
      rw [← h]
      simp [add_reason]
    | true =>
      simp only [if_true, true_and]
      by_cases h0 : st.vector_size = 0
      · simp only [h0, if_true, Option.some.injEq, true_or, true_and]
        constructor
        · rintro ⟨rfl, h⟩
          exact ⟨h, rfl⟩
        · rintro ⟨h, rfl⟩
          exact ⟨rfl, h⟩
      · simp only [h0, if_false, false_or]
        by_cases hs : vi.vecinfo.vector_size = st.vector_size
        · simp only [hs, ne_eq, not_true_eq_false, if_false, Option.some.injEq, true_and]
          constructor
          · rintro ⟨rfl, h⟩
            exact ⟨h, rfl⟩
          · rintro ⟨h, rfl⟩
            exact ⟨rfl, h⟩
        · have hs' : st.vector_size ≠ vi.vecinfo.vector_size := fun h => hs h.symm
          simp only [ne_eq, hs', hs, not_false_eq_true, if_true, false_and, and_false,
            iff_false, not_and]
          intro h
          unfold size_mismatch at h
          split at h
          · cases h
          · cases h
            simp [add_reason]

theorem fields_fold_true (first : Option String) :
    ∀ (fields : List field_info) (st st' : vec_state),
      (fields.foldlM (check_field first) st = some st' ∧ st'.is_vectorizable = true) ↔
        (st.is_vectorizable = true ∧ (∀ fi ∈ fields, fi.vecinfo.is_vectorizable = true) ∧
          consistent_sizes st.vector_size (fields.map (fun fi => fi.vecinfo.vector_size)) ∧
          st' = { st with vector_size :=
            candidate_size st.vector_size (fields.map (fun fi => fi.vecinfo.vector_size)) }) := by
  intro fields
  induction fields with
  | nil =>
    intro st st'
    simp only [List.foldlM_nil, List.map_nil, consistent_sizes, candidate_size,
      List.not_mem_nil, false_implies, implies_true, true_and]
    constructor
    · rintro ⟨h, hv⟩
      cases h
      exact ⟨hv, rfl⟩
    · rintro ⟨hv, rfl⟩
      exact ⟨rfl, hv⟩
  | cons fi t ih =>
    intro st st'
    rw [List.foldlM_cons]
    simp only [List.map_cons, consistent_sizes, candidate_size, List.mem_cons, forall_eq_or_imp]
    constructor
    · rintro ⟨h, hv⟩
      cases hmid : check_field first st fi with
      | none => rw [hmid] at h; cases h
      | some mid =>
        rw [hmid] at h
        obtain ⟨hmv, hall, hcons, hst'⟩ := (ih mid st').mp ⟨h, hv⟩
        obtain ⟨hsv, hfv, hok, hmideq⟩ := (check_field_true first st mid fi).mp ⟨hmid, hmv⟩
        rw [hmideq] at hcons hst'
        exact ⟨hsv, ⟨hfv, hall⟩, ⟨hok, hcons⟩, hst'⟩
    · rintro ⟨hsv, ⟨hfv, hall⟩, ⟨hok, hcons⟩, hst'⟩
      obtain ⟨hmid, hmv⟩ := (check_field_true first st _ fi).mpr ⟨hsv, hfv, hok, rfl⟩
      rw [hmid]
      exact (ih _ st').mpr ⟨hmv, hall, hcons, hst'⟩

theorem vars_fold_true (first : Option String) :
    ∀ (vars : List var_info) (st st' : vec_state),
      (vars.foldlM (check_var first) st = some st' ∧ st'.is_vectorizable = true) ↔
        (st.is_vectorizable = true ∧
          (∀ vi ∈ vars, vi.is_site_dependent = true → vi.vecinfo.is_vectorizable = true) ∧
          consistent_sizes st.vector_size
            ((vars.filter (fun vi => vi.is_site_dependent)).map
              (fun vi => vi.vecinfo.vector_size)) ∧
          st' = { st with vector_size :=
            (candidate_size st.vector_size
              ((vars.filter (fun vi => vi.is_site_dependent)).map
                (fun vi => vi.vecinfo.vector_size))) }) := by
  intro vars
  induction vars with
  | nil =>
    intro st st'
    simp only [List.foldlM_nil, List.filter_nil, List.map_nil, consistent_sizes, candidate_size,
      List.not_mem_nil, false_implies, implies_true, true_and]
    constructor
    · rintro ⟨h, hv⟩
      cases h
      exact ⟨hv, rfl⟩
    · rintro ⟨hv, rfl⟩
      exact ⟨rfl, hv⟩
  | cons vi t ih =>
    intro st st'
    rw [List.foldlM_cons]
    simp only [List.mem_cons, forall_eq_or_imp]
    by_cases hsd : vi.is_site_dependent = true
    · rw [List.filter_cons_of_pos hsd]
      simp only [List.map_cons, consistent_sizes, candidate_size]
      constructor
      · rintro ⟨h, hv⟩
        cases hmid : check_var first st vi with
        | none => rw [hmid] at h; cases h
        | some mid =>
          rw [hmid] at h
          obtain ⟨hmv, hall, hcons, hst'⟩ := (ih mid st').mp ⟨h, hv⟩
          obtain ⟨hsv, hfv, hmideq⟩ := (check_var_true first st mid vi).mp ⟨hmid, hmv⟩
          rw [hmideq] at hcons hst'
          simp only [hsd, true_and] at hcons hst'
          exact ⟨hsv, ⟨fun h => (hfv h).1, hall⟩, ⟨(hfv hsd).2, hcons⟩, hst'⟩
      · rintro ⟨hsv, ⟨hfv, hall⟩, ⟨hok, hcons⟩, hst'⟩
        obtain ⟨hmid, hmv⟩ := (check_var_true first st _ vi).mpr
          ⟨hsv, fun _ => ⟨hfv hsd, hok⟩, rfl⟩
        rw [hmid]
        refine (ih _ st').mpr ⟨hmv, hall, ?_⟩
        simp only [hsd, true_and]
        exact ⟨hcons, hst'⟩
    · rw [List.filter_cons_of_neg hsd]
      constructor
      · rintro ⟨h, hv⟩
        cases hmid : check_var first st vi with
        | none => rw [hmid] at h; cases h
        | some mid =>
          rw [hmid] at h
          obtain ⟨hmv, hall, hcons, hst'⟩ := (ih mid st').mp ⟨h, hv⟩
          obtain ⟨hsv, hfv, hmideq⟩ := (check_var_true first st mid vi).mp ⟨hmid, hmv⟩
          rw [hmideq] at hcons hst'
          simp only [hsd, false_and, if_false] at hcons hst'
          exact ⟨hsv, ⟨fun h => (hfv h).1, hall⟩, hcons, hst'⟩
      · rintro ⟨hsv, ⟨hfv, hall⟩, hcons, hst'⟩
        obtain ⟨hmid, hmv⟩ := (check_var_true first st _ vi).mpr
          ⟨hsv, fun h => absurd h hsd, rfl⟩
        rw [hmid]
        refine (ih _ st').mpr ⟨hmv, hall, ?_⟩
        simp only [hsd, false_and, if_false]
        exact ⟨hcons, hst'⟩

theorem consistent_sizes_append (w : Int) (a b : List Int) :
    consistent_sizes w (a ++ b) ↔
      consistent_sizes w a ∧ consistent_sizes (candidate_size w a) b := by
  induction a generalizing w with
  | nil => simp [consistent_sizes, candidate_size]
  | cons s t ih =>
    show consistent_sizes w (s :: (t ++ b)) ↔ _
    simp only [consistent_sizes, candidate_size]
    rw [ih]
    simp only [and_assoc]

/-- Exact form of the verdict of `check_loop_vectorizable`. -/
theorem check_loop_vectorizable_true (li : loop_info_struct) (avx_info verbosity : Int)
    (S : Nat) (fields : List field_info) (vars : List var_info) :
    (∃ r, check_loop_vectorizable li avx_info verbosity S fields vars = some r ∧
        r.ret = true) ↔
      (li.has_site_dependent_conditional = false ∧
        (∀ fi ∈ fields, fi.vecinfo.is_vectorizable = true) ∧
        (∀ vi ∈ vars, vi.is_site_dependent = true → vi.vecinfo.is_vectorizable = true) ∧
        consistent_sizes 0
          (fields.map (fun fi => fi.vecinfo.vector_size) ++
            (vars.filter (fun vi => vi.is_site_dependent)).map
              (fun vi => vi.vecinfo.vector_size))) := by
  have hfin : ∀ st, (vec_finish avx_info verbosity S st).ret = st.is_vectorizable := by
    intro st
    unfold vec_finish
    cases st.is_vectorizable <;> simp
  have hinit_v : (vec_init li).is_vectorizable = !li.has_site_dependent_conditional := by
    unfold vec_init
    cases li.has_site_dependent_conditional <;> simp
  have hinit_s : (vec_init li).vector_size = 0 := by
    unfold vec_init
    cases li.has_site_dependent_conditional <;> simp
  rw [consistent_sizes_append]
  unfold check_loop_vectorizable
  simp only
  constructor
  · rintro ⟨r, hr, hret⟩
    cases h1 : fields.foldlM (check_field (fields.head?.map fun fi => fi.old_name))
        (vec_init li) with
    | none => rw [h1] at hr; cases hr
    | some st1 =>
      rw [h1] at hr
      simp only at hr
      cases h2 : vars.foldlM (check_var (fields.head?.map fun fi => fi.old_name)) st1 with
      | none => rw [h2] at hr; cases hr
      | some st2 =>
        rw [h2] at hr
        simp only [Option.some.injEq] at hr
        rw [← hr, hfin] at hret
        obtain ⟨hv1, hallv, hcv, _⟩ := (vars_fold_true _ vars st1 st2).mp ⟨h2, hret⟩
        obtain ⟨hv0, hallf, hcf, hst1⟩ := (fields_fold_true _ fields _ st1).mp ⟨h1, hv1⟩
        rw [hinit_v] at hv0
        rw [hinit_s] at hcf hst1
        rw [hst1] at hcv
        exact ⟨by simpa using hv0, hallf, hallv, hcf, hcv⟩
  · rintro ⟨hflag, hallf, hallv, hcf, hcv⟩
    have hv0 : (vec_init li).is_vectorizable = true := by rw [hinit_v, hflag]; rfl
    obtain ⟨h1, hv1⟩ := (fields_fold_true (fields.head?.map fun fi => fi.old_name) fields
      (vec_init li) _).mpr ⟨hv0, hallf, by rw [hinit_s]; exact hcf, rfl⟩
    obtain ⟨h2, hv2⟩ := (vars_fold_true (fields.head?.map fun fi => fi.old_name) vars
      _ _).mpr ⟨hv1, hallv, by simp only [hinit_s]; exact hcv, rfl⟩
    rw [h1]
    simp only
    rw [h2]
    exact ⟨_, rfl, by rw [hfin]; exact hv2⟩

theorem consistent_sizes_nonzero (ws : List Int) (hnz : ∀ s ∈ ws, s ≠ 0) (w : Int) :
    consistent_sizes w ws ↔
      (if w = 0 then ∀ s ∈ ws, ∀ s' ∈ ws, s = s' else ∀ s ∈ ws, s = w) := by
  induction ws generalizing w with
  | nil => simp [consistent_sizes]
  | cons s t ih =>
    have hs : s ≠ 0 := hnz s (List.mem_cons_self _ _)
    have ht : ∀ x ∈ t, x ≠ 0 := fun x hx => hnz x (List.mem_cons_of_mem _ hx)
    simp only [consistent_sizes]
    rw [ih ht]
    by_cases hw : w = 0
    · simp only [hw, if_true, true_or, true_and, if_neg hs]
      constructor
      · intro h a ha b hb
        rcases List.mem_cons.mp ha with ha | ha <;> rcases List.mem_cons.mp hb with hb | hb
        · rw [ha, hb]
        · rw [ha, h b hb]
        · rw [hb, h a ha]
        · rw [h a ha, h b hb]
      · intro h x hx
        exact h x (List.mem_cons_of_mem _ hx) s (List.mem_cons_self _ _)
    · simp only [hw, if_false, false_or, List.mem_cons, forall_eq_or_imp]

theorem lane_widths_of_all_vectorizable (fields : List field_info) (vars : List var_info)
    (hallf : ∀ fi ∈ fields, fi.vecinfo.is_vectorizable = true)
    (hallv : ∀ vi ∈ vars, vi.is_site_dependent = true → vi.vecinfo.is_vectorizable = true) :
    lane_widths fields vars =
      fields.map (fun fi => fi.vecinfo.vector_size) ++
        (vars.filter (fun vi => vi.is_site_dependent)).map
          (fun vi => vi.vecinfo.vector_size) := by
  unfold lane_widths
  have h1 : fields.filter (fun fi => fi.vecinfo.is_vectorizable) = fields :=
    List.filter_eq_self.mpr hallf
  have h2 : vars.filter (fun vi => vi.is_site_dependent && vi.vecinfo.is_vectorizable) =
      vars.filter (fun vi => vi.is_site_dependent) := by
    apply List.filter_congr
    intro vi hvi
    cases hsd : vi.is_site_dependent with
    | false => rfl
    | true => simp [hallv vi hvi hsd]
  rw [h1, h2]

/-- C5, refuted as stated: (1) a loop without fields and with one site dependent
variable that is not vectorizable satisfies (a), (b) and (c), and
`check_loop_vectorizable` returns false; (2) two vectorizable fields of vector
sizes 0 and 4 do not agree on one size, and it returns true. -/
theorem loop_vectorizable_counterexample :
    ((check_loop_vectorizable ⟨Parity.all, "ALL", false, "", false⟩ 0 0 0 []
        [ex_scalar_var]).map (fun r => r.ret) = some false ∧
      (∀ fi ∈ ([] : List field_info), fi.vecinfo.is_vectorizable = true) ∧
      (∀ s ∈ lane_widths [] [ex_scalar_var], ∀ s' ∈ lane_widths [] [ex_scalar_var], s = s')) ∧
    ((check_loop_vectorizable ⟨Parity.all, "ALL", false, "", false⟩ 0 0 0
        [ex_field "a" true 0, ex_field "b" true 4] []).map (fun r => r.ret) = some true ∧
      ¬ (∀ s ∈ lane_widths [ex_field "a" true 0, ex_field "b" true 4] [],
          ∀ s' ∈ lane_widths [ex_field "a" true 0, ex_field "b" true 4] [], s = s')) := by
  refine ⟨⟨by decide, by simp, by decide⟩, by decide, by decide⟩

/-- C5, amended: with every reported vector size different from zero,
`check_loop_vectorizable` returns true iff (a) the loop has no site dependent
conditional, (b) every field is vectorizable, (d) every site dependent variable
is vectorizable, and (c) all fields and site dependent variables that report a
vector size report the same one. -/
theorem loop_vectorizable_iff (li : loop_info_struct) (avx_info verbosity : Int) (S : Nat)
    (fields : List field_info) (vars : List var_info)
    (hnzf : ∀ fi ∈ fields, fi.vecinfo.is_vectorizable = true → fi.vecinfo.vector_size ≠ 0)
    (hnzv : ∀ vi ∈ vars, vi.is_site_dependent = true → vi.vecinfo.is_vectorizable = true →
      vi.vecinfo.vector_size ≠ 0) :
    (∃ r, check_loop_vectorizable li avx_info verbosity S fields vars = some r ∧
        r.ret = true) ↔
      (li.has_site_dependent_conditional = false ∧
        (∀ fi ∈ fields, fi.vecinfo.is_vectorizable = true) ∧
        (∀ vi ∈ vars, vi.is_site_dependent = true → vi.vecinfo.is_vectorizable = true) ∧
        (∀ s ∈ lane_widths fields vars, ∀ s' ∈ lane_widths fields vars, s = s')) := by
  rw [check_loop_vectorizable_true]
  have key : (∀ fi ∈ fields, fi.vecinfo.is_vectorizable = true) →
      (∀ vi ∈ vars, vi.is_site_dependent = true → vi.vecinfo.is_vectorizable = true) →
      (consistent_sizes 0 (fields.map (fun fi => fi.vecinfo.vector_size) ++
          (vars.filter (fun vi => vi.is_site_dependent)).map
            (fun vi => vi.vecinfo.vector_size)) ↔
        (∀ s ∈ lane_widths fields vars, ∀ s' ∈ lane_widths fields vars, s = s')) := by
    intro hallf hallv
    rw [lane_widths_of_all_vectorizable fields vars hallf hallv, consistent_sizes_nonzero]
    · simp only [if_true]
    · intro s hs
      rcases List.mem_append.mp hs with hs | hs
      · obtain ⟨fi, hfi, rfl⟩ := List.mem_map.mp hs
        exact hnzf fi hfi (hallf fi hfi)
      · obtain ⟨vi, hvi, rfl⟩ := List.mem_map.mp hs
        obtain ⟨hmem, hsd⟩ := List.mem_filter.mp hvi
        exact hnzv vi hmem hsd (hallv vi hmem hsd)
  constructor
  · rintro ⟨h1, h2, h3, h4⟩
    exact ⟨h1, h2, h3, (key h2 h3).mp h4⟩
  · rintro ⟨h1, h2, h3, h4⟩
    exact ⟨h1, h2, h3, (key h2 h3).mpr h4⟩

/-- Witness for C5: two fields of vector size 4 and no variables. -/
theorem loop_vectorizable_iff_witness :
    (∃ r, check_loop_vectorizable ⟨Parity.all, "ALL", false, "", false⟩ 0 0 0
        [ex_field "a" true 4, ex_field "b" true 4] [] = some r ∧ r.ret = true) ↔
      ((⟨Parity.all, "ALL", false, "", false⟩ :
          loop_info_struct).has_site_dependent_conditional = false ∧
        (∀ fi ∈ [ex_field "a" true 4, ex_field "b" true 4],
          fi.vecinfo.is_vectorizable = true) ∧
        (∀ vi ∈ ([] : List var_info), vi.is_site_dependent = true →
          vi.vecinfo.is_vectorizable = true) ∧
        (∀ s ∈ lane_widths [ex_field "a" true 4, ex_field "b" true 4] [],
          ∀ s' ∈ lane_widths [ex_field "a" true 4, ex_field "b" true 4] [], s = s')) :=
  loop_vectorizable_iff ⟨Parity.all, "ALL", false, "", false⟩ 0 0 0
    [ex_field "a" true 4, ex_field "b" true 4] [] (by decide) (by simp)

/-! ### The justification string -/

theorem contains_name_self (n : String) : contains_name n n :=
  List.infix_refl _

theorem contains_name_append_right {s n : String} (t : String) (h : contains_name s n) :
    contains_name (s ++ t) n := by
  unfold contains_name at h ⊢
  rw [String.data_append]
  exact h.trans (List.prefix_append _ _).isInfix

theorem contains_name_append_left {t n : String} (s : String) (h : contains_name t n) :
    contains_name (s ++ t) n := by
  unfold contains_name at h ⊢
  rw [String.data_append]
  exact h.trans (List.suffix_append _ _).isInfix

theorem vec_extends_refl (st : vec_state) : vec_extends st st :=
  ⟨fun h => h, ⟨"", by simp⟩, fun _ => rfl⟩

theorem vec_extends_trans {a b c : vec_state} (hab : vec_extends a b) (hbc : vec_extends b c) :
    vec_extends a c := by
  obtain ⟨h1, ⟨s1, hs1⟩, h3⟩ := hab
  obtain ⟨k1, ⟨s2, hs2⟩, k3⟩ := hbc
  refine ⟨fun h => k1 (h1 h), ⟨s1 ++ s2, ?_⟩, fun h => ?_⟩
  · rw [hs2, hs1, String.append_assoc]
  · have := h3 h
    rw [k3 (by rw [this]; exact h), this]

theorem add_reason_extends (st : vec_state) (text : String) :
    vec_extends st (add_reason st text) := by
  refine ⟨fun _ => rfl, ?_, fun _ => rfl⟩
  unfold add_reason
  by_cases h : st.diag_count > 0
  · exact ⟨"\n" ++ text, by simp only [if_pos h, String.append_assoc]⟩
  · exact ⟨text, by simp only [if_neg h]⟩

theorem add_reason_contains (st : vec_state) (text n : String) (h : contains_name text n) :
    contains_name (add_reason st text).reason n := by
  unfold add_reason
  exact contains_name_append_left _ h

theorem size_mismatch_extends (first : Option String) (st st' : vec_state) (name : String)
    (size : Int) (h : size_mismatch first st name size = some st') : vec_extends st st' := by
  unfold size_mismatch at h
  split at h
  · cases h
  · cases h
    exact add_reason_extends _ _

theorem check_field_extends (first : Option String) (st st' : vec_state) (fi : field_info)
    (h : check_field first st fi = some st') : vec_extends st st' := by
  unfold check_field at h
  split at h
  · cases h
    exact add_reason_extends _ _
  · split at h
    · next h0 =>
      cases h
      exact ⟨fun hv => hv, ⟨"", by simp⟩, fun hne => absurd h0 hne⟩
    · split at h
      · exact size_mismatch_extends _ _ _ _ _ h
      · cases h
        exact vec_extends_refl _

theorem check_var_extends (first : Option String) (st st' : vec_state) (vi : var_info)
    (h : check_var first st vi = some st') : vec_extends st st' := by
  unfold check_var at h
  split at h
  · split at h
    · split at h
      · next h0 =>
        cases h
        exact ⟨fun hv => hv, ⟨"", by simp⟩, fun hne => absurd h0 hne⟩
      · split at h
        · exact size_mismatch_extends _ _ _ _ _ h
        · cases h
          exact vec_extends_refl _
    · cases h
      exact add_reason_extends _ _
  · cases h
    exact vec_extends_refl _

theorem foldlM_extends {α : Type} (step : vec_state → α → Option vec_state)
    (hstep : ∀ st x st', step st x = some st' → vec_extends st st') :
    ∀ (xs : List α) (st st' : vec_state), xs.foldlM step st = some st' →
      vec_extends st st' := by
  intro xs
  induction xs with
  | nil =>
    intro st st' h
    simp only [List.foldlM_nil] at h
    cases h
    exact vec_extends_refl _
  | cons x t ih =>
    intro st st' h
    rw [List.foldlM_cons] at h
    cases hmid : step st x with
    | none => rw [hmid] at h; cases h
    | some mid =>
      rw [hmid] at h
      exact vec_extends_trans (hstep st x mid hmid) (ih mid st' h)

theorem foldlM_total {α : Type} (step : vec_state → α → Option vec_state)
    (hstep : ∀ st x, ∃ st', step st x = some st') :
    ∀ (xs : List α) (st : vec_state), ∃ st', xs.foldlM step st = some st' := by
  intro xs
  induction xs with
  | nil => intro st; exact ⟨st, rfl⟩
  | cons x t ih =>
    intro st
    obtain ⟨mid, hmid⟩ := hstep st x
    obtain ⟨st', hst'⟩ := ih mid
    exact ⟨st', by rw [List.foldlM_cons, hmid]; exact hst'⟩

theorem check_field_total (n : String) (st : vec_state) (fi : field_info) :
    ∃ st', check_field (some n) st fi = some st' := by
  unfold check_field size_mismatch
  split
  · exact ⟨_, rfl⟩
  · split
    · exact ⟨_, rfl⟩
    · split <;> exact ⟨_, rfl⟩

theorem check_var_total (n : String) (st : vec_state) (vi : var_info) :
    ∃ st', check_var (some n) st vi = some st' := by
  unfold check_var size_mismatch
  split
  · split
    · split
      · exact ⟨_, rfl⟩
      · split <;> exact ⟨_, rfl⟩
    · exact ⟨_, rfl⟩
  · exact ⟨_, rfl⟩

theorem check_field_mismatch (n : String) (st : vec_state) (fi : field_info)
    (hv : fi.vecinfo.is_vectorizable = true) (h0 : st.vector_size ≠ 0)
    (hne : fi.vecinfo.vector_size ≠ st.vector_size) :
    check_field (some n) st fi = some (add_reason st
      ("vector size of variables '" ++ fi.old_name ++ "' is " ++
        toString fi.vecinfo.vector_size ++ " and '" ++ n ++ "' is " ++
        toString st.vector_size)) := by
  unfold check_field size_mismatch
  simp [hv, h0, hne]

theorem check_field_candidate (n : String) (st st' : vec_state) (fi : field_info)
    (hv : fi.vecinfo.is_vectorizable = true)
    (hok : st.vector_size = 0 ∨ fi.vecinfo.vector_size = st.vector_size)
    (h : check_field (some n) st fi = some st') :
    st'.vector_size = fi.vecinfo.vector_size := by
  unfold check_field at h
  simp only [hv, Bool.not_true, Bool.false_eq_true, if_false] at h
  by_cases h0 : st.vector_size = 0
  · simp only [h0, if_true, Option.some.injEq] at h
    rw [← h]
  · rcases hok with hok | hok
    · exact absurd hok h0
    · simp only [h0, if_false, hok, ne_eq, not_true_eq_false, Option.some.injEq] at h
      rw [← h, hok]

theorem foldlM_append_some {α : Type} (step : vec_state → α → Option vec_state)
    (xs ys : List α) (st mid st' : vec_state) (h1 : xs.foldlM step st = some mid)
    (h2 : ys.foldlM step mid = some st') : (xs ++ ys).foldlM step st = some st' := by
  rw [List.foldlM_append, h1]
  exact h2

theorem foldlM_cons_some {α : Type} (step : vec_state → α → Option vec_state)
    (x : α) (t : List α) (st mid st' : vec_state) (h1 : step st x = some mid)
    (h2 : t.foldlM step mid = some st') : (x :: t).foldlM step st = some st' := by
  rw [List.foldlM_cons, h1]
  exact h2

theorem mismatch_text_contains_name (name first : String) (size w : Int) :
    contains_name ("vector size of variables '" ++ name ++ "' is " ++ toString size ++
      " and '" ++ first ++ "' is " ++ toString w) name := by
  iterate 6 apply contains_name_append_right
  exact contains_name_append_left _ (contains_name_self _)

theorem mismatch_text_contains_first (name first : String) (size w : Int) :
    contains_name ("vector size of variables '" ++ name ++ "' is " ++ toString size ++
      " and '" ++ first ++ "' is " ++ toString w) first := by
  apply contains_name_append_right
  apply contains_name_append_right
  exact contains_name_append_left _ (contains_name_self _)

theorem reported_after_mismatch (avx_info verbosity : Int) (S : Nat) (st sV : vec_state)
    (text n : String) (hn : contains_name text n)
    (hext : vec_extends (add_reason st text) sV) :
    contains_name (vec_finish avx_info verbosity S sV).diag_str n := by
  obtain ⟨hv, ⟨suffix, hs⟩, _⟩ := hext
  have hfalse : sV.is_vectorizable = false := hv rfl
  unfold vec_finish
  simp only [hfalse, Bool.not_false, if_true]
  rw [hs]
  exact contains_name_append_left _
    (contains_name_append_right _ (add_reason_contains st text n hn))

theorem vec_finish_ret (avx_info verbosity : Int) (S : Nat) (st : vec_state) :
    (vec_finish avx_info verbosity S st).ret = st.is_vectorizable := by
  unfold vec_finish
  cases st.is_vectorizable <;> simp

/-- C6, refuted as stated: (1) for the fields gauge, mom, plaq of vector sizes 4,
8, 4 the justification string names mom and gauge, and not plaq, whose size differs
from the size of mom; (2) for two vectorizable fields of vector sizes 0 and 4
`check_loop_vectorizable` returns true. -/
theorem size_conflict_counterexample :
    ((check_loop_vectorizable ⟨Parity.all, "ALL", false, "", false⟩ 0 0 0
        [ex_field "gauge" true 4, ex_field "mom" true 8, ex_field "plaq" true 4] []).map
          (fun r => (r.ret, r.diag_str)) =
        some (false, "Loop is not AVX vectorizable because vector size of variables 'mom' is 8 and 'gauge' is 4") ∧
      ¬ contains_name
        "Loop is not AVX vectorizable because vector size of variables 'mom' is 8 and 'gauge' is 4"
        "plaq") ∧
    (check_loop_vectorizable ⟨Parity.all, "ALL", false, "", false⟩ 0 0 0
        [ex_field "a" true 0, ex_field "b" true 4] []).map (fun r => r.ret) = some true := by
  refine ⟨⟨by decide, ?_⟩, by decide⟩
  unfold contains_name
  set_option maxRecDepth 100000 in decide

/-- C6, amended: for every loop whose `field_info_list` contains two vectorizable
fields with different vector sizes, the one that comes first with a size that is
not zero, `check_loop_vectorizable` returns false and `diag_str` contains the
`old_name` of at least one of the two; when the first of them is the first field
of the list, `diag_str` contains the names of both. -/
theorem size_conflict_reported (li : loop_info_struct) (avx_info verbosity : Int) (S : Nat)
    (A B C : List field_info) (f g : field_info) (vars : List var_info)
    (hf : f.vecinfo.is_vectorizable = true) (hg : g.vecinfo.is_vectorizable = true)
    (hfz : f.vecinfo.vector_size ≠ 0)
    (hdiff : g.vecinfo.vector_size ≠ f.vecinfo.vector_size) :
    ∃ r, check_loop_vectorizable li avx_info verbosity S (A ++ f :: (B ++ g :: C)) vars =
        some r ∧ r.ret = false ∧
      (contains_name r.diag_str f.old_name ∨ contains_name r.diag_str g.old_name) ∧
      (A = [] → contains_name r.diag_str f.old_name ∧ contains_name r.diag_str g.old_name) := by
  obtain ⟨n0, hfirst, hn0⟩ : ∃ n0,
      (A ++ f :: (B ++ g :: C)).head?.map (fun fi => fi.old_name) = some n0 ∧
        (A = [] → n0 = f.old_name) := by
    cases A with
    | nil => exact ⟨f.old_name, rfl, fun _ => rfl⟩
    | cons a t => exact ⟨a.old_name, rfl, fun h => by cases h⟩
  have hinit_s : (vec_init li).vector_size = 0 := by
    unfold vec_init
    cases li.has_site_dependent_conditional <;> simp
  obtain ⟨sA, hA⟩ := foldlM_total (check_field (some n0)) (check_field_total n0) A (vec_init li)
  obtain ⟨sf, hsf⟩ := check_field_total n0 sA f
  obtain ⟨sB, hB⟩ := foldlM_total (check_field (some n0)) (check_field_total n0) B sf
  obtain ⟨sg, hsg⟩ := check_field_total n0 sB g
  obtain ⟨sC, hC⟩ := foldlM_total (check_field (some n0)) (check_field_total n0) C sg
  obtain ⟨sV, hV⟩ := foldlM_total (check_var (some n0)) (check_var_total n0) vars sC
  have hfields : (A ++ f :: (B ++ g :: C)).foldlM (check_field (some n0)) (vec_init li) =
      some sC :=
    foldlM_append_some _ _ _ _ _ _ hA
      (foldlM_cons_some _ _ _ _ _ _ hsf
        (foldlM_append_some _ _ _ _ _ _ hB (foldlM_cons_some _ _ _ _ _ _ hsg hC)))
  have hres : check_loop_vectorizable li avx_info verbosity S (A ++ f :: (B ++ g :: C)) vars =
      some (vec_finish avx_info verbosity S sV) := by
    unfold check_loop_vectorizable
    simp only [hfirst, hfields, hV]
  have eB := foldlM_extends _ (fun st x st' h => check_field_extends (some n0) st st' x h) B sf sB hB
  have eC := foldlM_extends _ (fun st x st' h => check_field_extends (some n0) st st' x h) C sg sC hC
  have eV := foldlM_extends _ (fun st x st' h => check_var_extends (some n0) st st' x h) vars sC sV hV
  have eg := check_field_extends _ _ _ _ hsg
  refine ⟨_, hres, ?_⟩
  by_cases hcase : sA.vector_size = 0 ∨ f.vecinfo.vector_size = sA.vector_size
  · -- the first of the two sets or meets the candidate size, the second one differs
    have hsfv : sf.vector_size = f.vecinfo.vector_size :=
      check_field_candidate n0 sA sf f hf hcase hsf
    have hsBv : sB.vector_size = f.vecinfo.vector_size := by
      rw [eB.2.2 (by rw [hsfv]; exact hfz), hsfv]
    have hmis := check_field_mismatch n0 sB g hg (by rw [hsBv]; exact hfz)
      (by rw [hsBv]; exact hdiff)
    rw [hsg] at hmis
    have hsgeq := Option.some.inj hmis
    have hchain : vec_extends sg sV := vec_extends_trans eC eV
    rw [hsgeq] at hchain
    have hret : (vec_finish avx_info verbosity S sV).ret = false := by
      rw [vec_finish_ret]
      exact hchain.1 rfl
    have hgname := reported_after_mismatch avx_info verbosity S sB sV _ g.old_name
      (mismatch_text_contains_name _ _ _ _) hchain
    have hfirstname := reported_after_mismatch avx_info verbosity S sB sV _ n0
      (mismatch_text_contains_first _ _ _ _) hchain
    refine ⟨hret, Or.inr hgname, fun hAnil => ⟨?_, hgname⟩⟩
    rw [← hn0 hAnil]
    exact hfirstname
  · -- the first of the two already differs from the candidate size
    have h0 : sA.vector_size ≠ 0 := fun h => hcase (Or.inl h)
    have hne : f.vecinfo.vector_size ≠ sA.vector_size := fun h => hcase (Or.inr h)
    have hmis := check_field_mismatch n0 sA f hf h0 hne
    rw [hsf] at hmis
    have hsfeq := Option.some.inj hmis
    have hchain : vec_extends sf sV :=
      vec_extends_trans eB (vec_extends_trans eg (vec_extends_trans eC eV))
    rw [hsfeq] at hchain
    have hret : (vec_finish avx_info verbosity S sV).ret = false := by
      rw [vec_finish_ret]
      exact hchain.1 rfl
    have hfname := reported_after_mismatch avx_info verbosity S sA sV _ f.old_name
      (mismatch_text_contains_name _ _ _ _) hchain
    refine ⟨hret, Or.inl hfname, fun hAnil => ?_⟩
    subst hAnil
    simp only [List.foldlM_nil] at hA
    cases hA
    exact absurd hinit_s h0

/-- Witness for C6: the fields gauge, mom, plaq of vector sizes 4, 8, 4, with
gauge and mom as the two fields. -/
theorem size_conflict_reported_witness :
    ∃ r, check_loop_vectorizable ⟨Parity.all, "ALL", false, "", false⟩ 0 0 0
        ([] ++ ex_field "gauge" true 4 :: ([] ++ ex_field "mom" true 8 ::
          [ex_field "plaq" true 4])) [] = some r ∧ r.ret = false ∧
      (contains_name r.diag_str (ex_field "gauge" true 4).old_name ∨
        contains_name r.diag_str (ex_field "mom" true 8).old_name) ∧
      (([] : List field_info) = [] →
        contains_name r.diag_str (ex_field "gauge" true 4).old_name ∧
        contains_name r.diag_str (ex_field "mom" true 8).old_name) :=
  size_conflict_reported ⟨Parity.all, "ALL", false, "", false⟩ 0 0 0 [] []
    [ex_field "plaq" true 4] (ex_field "gauge" true 4) (ex_field "mom" true 8) [] rfl rfl
    (by decide) (by decide)

/-- With the flag of the site dependent conditional set, every result that
`check_loop_vectorizable` returns is false, with a justification string that
starts with the site dependent conditional; and it returns a result whenever
`field_info_list` is not empty. -/
theorem conditional_flag_blocks (li : loop_info_struct) (avx_info verbosity : Int) (S : Nat)
    (fields : List field_info) (vars : List var_info)
    (hflag : li.has_site_dependent_conditional = true) :
    (∀ r, check_loop_vectorizable li avx_info verbosity S fields vars = some r →
      r.ret = false ∧ ∃ suffix : String, r.diag_str =
        "Loop is not AVX vectorizable because it contains site dependent conditional" ++
          suffix) ∧
    (fields ≠ [] →
      ∃ r, check_loop_vectorizable li avx_info verbosity S fields vars = some r) := by
  constructor
  · intro r hr
    unfold check_loop_vectorizable at hr
    simp only at hr
    cases h1 : fields.foldlM (check_field (fields.head?.map fun fi => fi.old_name))
        (vec_init li) with
    | none => rw [h1] at hr; cases hr
    | some st1 =>
      rw [h1] at hr
      simp only at hr
      cases h2 : vars.foldlM (check_var (fields.head?.map fun fi => fi.old_name)) st1 with
      | none => rw [h2] at hr; cases hr
      | some st2 =>
        rw [h2] at hr
        simp only [Option.some.injEq] at hr
        have e1 := foldlM_extends _
          (fun st x st' h => check_field_extends _ st st' x h) fields _ st1 h1
        have e2 := foldlM_extends _
          (fun st x st' h => check_var_extends _ st st' x h) vars st1 st2 h2
        obtain ⟨hv, ⟨suffix, hs⟩, _⟩ := vec_extends_trans e1 e2
        have hinit : vec_init li =
            ⟨false, 0, 1, "it contains site dependent conditional"⟩ := by
          unfold vec_init
          simp [hflag]
        rw [hinit] at hv hs
        have hfalse : st2.is_vectorizable = false := hv rfl
        rw [← hr]
        refine ⟨by rw [vec_finish_ret]; exact hfalse, suffix, ?_⟩
        unfold vec_finish
        simp only [hfalse, Bool.not_false, if_true]
        rw [hs, ← String.append_assoc]
        rfl
  · intro hne
    obtain ⟨n0, hfirst⟩ : ∃ n0, fields.head?.map (fun fi => fi.old_name) = some n0 := by
      cases fields with
      | nil => exact absurd rfl hne
      | cons a t => exact ⟨a.old_name, rfl⟩
    obtain ⟨s1, h1⟩ := foldlM_total (check_field (some n0)) (check_field_total n0) fields
      (vec_init li)
    obtain ⟨s2, h2⟩ := foldlM_total (check_var (some n0)) (check_var_total n0) vars s1
    refine ⟨vec_finish avx_info verbosity S s2, ?_⟩
    unfold check_loop_vectorizable
    simp only [hfirst, h1, h2]

/-- C7, the input on which the code fails: a loop with a site dependent
conditional, no field, and two site dependent variables of vector sizes 4 and 8.
The message for the second variable reads `field_info_list.begin()->old_name` of
the empty list, and `check_loop_vectorizable` has no defined result. -/
theorem conditional_flag_failing_input :
    check_loop_vectorizable ⟨Parity.all, "ALL", false, "", true⟩ 0 0 0 []
      [ex_site_var "a" 4, ex_site_var "b" 8] = none := by
  decide

/-! ### Parity EVEN and ODD in `check_field_ref_list` -/

theorem culprit_report_even_odd (find_word : String → String → Option Nat)
    (li : loop_info_struct) (hall : li.parity_value ≠ Parity.all)
    (hnone : li.parity_value ≠ Parity.none) (l : field_info) (p : field_ref) :
    culprit_report find_word li l p = ([], false, false) := by
  unfold culprit_report
  split_ifs <;> rfl

theorem hazard_check_even_odd (find_word : String → String → Option Nat)
    (li : loop_info_struct) (hall : li.parity_value ≠ Parity.all)
    (hnone : li.parity_value ≠ Parity.none) (refs : List field_ref) (l : field_info) :
    hazard_check find_word li refs l = ([], false) := by
  unfold hazard_check
  split
  · have hmap : (deref refs l.ref_list).map (culprit_report find_word li l) =
        (deref refs l.ref_list).map (fun _ => (([] : List Diag), false, false)) :=
      List.map_congr_left (fun p _ => culprit_report_even_odd find_word li hall hnone l p)
    simp only [hmap]
    have hany1 : ((deref refs l.ref_list).map
        (fun _ => (([] : List Diag), false, false))).any (fun r => r.2.1) = false := by
      rw [Bool.eq_false_iff]
      intro h
      obtain ⟨r, hr, hr2⟩ := List.any_eq_true.mp h
      obtain ⟨q, _, rfl⟩ := List.mem_map.mp hr
      cases hr2
    have hany2 : ((deref refs l.ref_list).map
        (fun _ => (([] : List Diag), false, false))).any (fun r => r.2.2) = false := by
      rw [Bool.eq_false_iff]
      intro h
      obtain ⟨r, hr, hr2⟩ := List.any_eq_true.mp h
      obtain ⟨q, _, rfl⟩ := List.mem_map.mp hr
      cases hr2
    have hflat : ((deref refs l.ref_list).map
        (fun _ => (([] : List Diag), false, false))).flatMap (fun r => r.1) = [] := by
      induction deref refs l.ref_list with
      | nil => rfl
      | cons a t _ => simp [List.flatMap_cons]
    rw [hany1, hany2, hflat]
    rfl
  · rfl

/-- C11, refuted as stated: for the loop `f[X] = f[X+e_x]` with parity EVEN,
`check_field_ref_list` reports nothing and marks nothing: it returns true, without
a diagnostic, with `global.assert_loop_parity` false and a descriptor of `f` in
which no member records an assertion. -/
theorem even_parity_counterexample :
    check_field_ref_list ex_is_duplicate_expr ex_find_word ex_inspect_field_type
      ⟨Parity.even, "EVEN", false, "", false⟩ [ex_write_ref, ex_neighbour_ref] =
    { no_errors := true, diags := [], field_info_list := [ex_hazard_field],
      info := [0, 0], assert_loop_parity := false } := by
  decide

/-- C11, amended: for a loop of parity EVEN or ODD (all field types being
recognised Field types), also with a field that is written and read through a
nearest-neighbour direction, `check_field_ref_list` raises no Error and reports no
diagnostic, and it marks neither the field nor the loop for a runtime parity
assertion: `global.assert_loop_parity` is false after the call and the
descriptors in `field_info_list` are those built for any other parity. -/
theorem even_parity_no_error_no_mark (is_duplicate_expr : Expr → Expr → Bool)
    (find_word : String → String → Option Nat)
    (inspect_field_type : Expr → vectorization_info)
    (li : loop_info_struct) (refs : List field_ref)
    (htypes : ∀ q ∈ refs, starts_with_Field q.nameExpr.type = true)
    (hpar : li.parity_value = Parity.even ∨ li.parity_value = Parity.odd) :
    (check_field_ref_list is_duplicate_expr find_word inspect_field_type li
        refs).no_errors = true ∧
    (check_field_ref_list is_duplicate_expr find_word inspect_field_type li refs).diags = [] ∧
    (check_field_ref_list is_duplicate_expr find_word inspect_field_type li
        refs).assert_loop_parity = false ∧
    ∀ li', (check_field_ref_list is_duplicate_expr find_word inspect_field_type li'
        refs).field_info_list =
      (check_field_ref_list is_duplicate_expr find_word inspect_field_type li
        refs).field_info_list := by
  have hall : li.parity_value ≠ Parity.all := by
    rcases hpar with h | h <;> rw [h] <;> decide
  have hnone : li.parity_value ≠ Parity.none := by
    rcases hpar with h | h <;> rw [h] <;> decide
  obtain ⟨hne, hnd⟩ := collect_fields_no_errors is_duplicate_expr refs htypes
  have hmap : (collect_fields is_duplicate_expr refs).field_info_list.map
      (hazard_check find_word li refs) =
      (collect_fields is_duplicate_expr refs).field_info_list.map
        (fun _ => (([] : List Diag), false)) :=
    List.map_congr_left (fun l _ => hazard_check_even_odd find_word li hall hnone refs l)
  refine ⟨?_, ?_, rfl, fun li' => rfl⟩
  · unfold check_field_ref_list
    simp only [hmap, hne, Bool.true_and, Bool.not_eq_true']
    rw [Bool.eq_false_iff]
    intro h
    obtain ⟨c, hc, hc2⟩ := List.any_eq_true.mp h
    obtain ⟨q, _, rfl⟩ := List.mem_map.mp hc
    cases hc2
  · unfold check_field_ref_list
    simp only [hmap, hnd, List.nil_append]
    induction (collect_fields is_duplicate_expr refs).field_info_list with
    | nil => rfl
    | cons a t _ => simp [List.flatMap_cons]

/-- Witness for C11: the loop `f[X] = f[X+e_x]` with parity EVEN. -/
theorem even_parity_no_error_no_mark_witness :
    (check_field_ref_list ex_is_duplicate_expr ex_find_word ex_inspect_field_type
        ⟨Parity.even, "EVEN", false, "", false⟩ [ex_write_ref, ex_neighbour_ref]).no_errors =
          true ∧
    (check_field_ref_list ex_is_duplicate_expr ex_find_word ex_inspect_field_type
        ⟨Parity.even, "EVEN", false, "", false⟩ [ex_write_ref, ex_neighbour_ref]).diags = [] ∧
    (check_field_ref_list ex_is_duplicate_expr ex_find_word ex_inspect_field_type
        ⟨Parity.even, "EVEN", false, "", false⟩
        [ex_write_ref, ex_neighbour_ref]).assert_loop_parity = false ∧
    ∀ li', (check_field_ref_list ex_is_duplicate_expr ex_find_word ex_inspect_field_type li'
        [ex_write_ref, ex_neighbour_ref]).field_info_list =
      (check_field_ref_list ex_is_duplicate_expr ex_find_word ex_inspect_field_type
        ⟨Parity.even, "EVEN", false, "", false⟩
        [ex_write_ref, ex_neighbour_ref]).field_info_list :=
  even_parity_no_error_no_mark ex_is_duplicate_expr ex_find_word ex_inspect_field_type
    ⟨Parity.even, "EVEN", false, "", false⟩ [ex_write_ref, ex_neighbour_ref] (by decide)
    (Or.inl rfl)

/-! ### `remove_vars_out_of_scope` -/

theorem back_out_of_scope_concat (level : Nat) (l : List var_decl) (d : var_decl) :
    back_out_of_scope level (l ++ [d]) = decide (d.scope > level) := by
  unfold back_out_of_scope
  rw [List.getLast?_concat]

theorem remove_vars_loop_eq (level : Nat) :
    ∀ (fuel : Nat) (l : List var_decl), l.length ≤ fuel →
      remove_vars_loop fuel level l =
        some (l.rdropWhile (fun d => decide (d.scope > level))) := by
  intro fuel
  induction fuel with
  | zero =>
    intro l hl
    have hnil : l = [] := List.length_eq_zero.mp (Nat.le_zero.mp hl)
    subst hnil
    rfl
  | succ fuel ih =>
    intro l hl
    rcases List.eq_nil_or_concat l with rfl | ⟨init, d, rfl⟩
    · rfl
    · rw [List.concat_eq_append] at hl ⊢
      unfold remove_vars_loop
      rw [back_out_of_scope_concat]
      by_cases hd : d.scope > level
      · rw [if_pos (by simpa using hd), List.dropLast_concat,
          List.rdropWhile_concat_pos _ _ _ (by simpa using hd)]
        apply ih
        simp only [List.length_append, List.length_singleton] at hl
        omega
      · rw [if_neg (by simpa using hd), List.rdropWhile_concat_neg _ _ _ (by simpa using hd)]

/-- The loop of `remove_vars_out_of_scope` ends: the routine returns a list. -/
theorem remove_vars_loop_total (level : Nat) (l : List var_decl) :
    remove_vars_out_of_scope level l =
      some (l.rdropWhile (fun d => decide (d.scope > level))) :=
  remove_vars_loop_eq level l.length l (le_refl _)

theorem rdropWhile_split {α : Type} (p : α → Bool) (l : List α) :
    ∃ removed, l = l.rdropWhile p ++ removed ∧ ∀ x ∈ removed, p x = true := by
  induction l using List.reverseRecOn with
  | nil => exact ⟨[], by simp [List.rdropWhile_nil], fun x hx => by cases hx⟩
  | append_singleton init d ih =>
    by_cases hd : p d = true
    · obtain ⟨removed, hsplit, hall⟩ := ih
      refine ⟨removed ++ [d], ?_, ?_⟩
      · rw [List.rdropWhile_concat_pos _ _ _ hd, ← List.append_assoc, ← hsplit]
      · intro x hx
        rcases List.mem_append.mp hx with hx | hx
        · exact hall x hx
        · rw [List.mem_singleton] at hx
          rw [hx]
          exact hd
    · exact ⟨[], by rw [List.rdropWhile_concat_neg _ _ _ hd, List.append_nil],
        fun x hx => by cases hx⟩

theorem sorted_prefix_le (level : Nat) (kept removed : List var_decl)
    (hs : (kept ++ removed).Pairwise (fun a b => a.scope ≤ b.scope))
    (hlast : ∀ d, kept.getLast? = some d → d.scope ≤ level) :
    ∀ d ∈ kept, d.scope ≤ level := by
  intro d hd
  rcases List.eq_nil_or_concat kept with hnil | ⟨init, b, hk⟩
  · rw [hnil] at hd
    cases hd
  · rw [List.concat_eq_append] at hk
    have hb : b.scope ≤ level := hlast b (by rw [hk, List.getLast?_concat])
    rw [hk] at hd hs
    rcases List.mem_append.mp hd with hd | hd
    · have hpw := (List.pairwise_append.mp (List.pairwise_append.mp hs).1).2.2
      exact le_trans (hpw d hd b (List.mem_singleton.mpr rfl)) hb
    · rw [List.mem_singleton] at hd
      rw [hd]
      exact hb

/-- C19: `remove_vars_out_of_scope(level)` returns, and it removes exactly the
maximal trailing run of entries of `var_decl_list` whose scope is greater than
`level`, keeping all other entries in order; given that the scopes are
non-decreasing from front to back, no declaration with scope greater than `level`
remains and every declaration with scope at most `level` is still present. -/
theorem remove_vars_out_of_scope_spec (level : Nat) (l : List var_decl) :
    ∃ kept removed, remove_vars_out_of_scope level l = some kept ∧
      l = kept ++ removed ∧ (∀ d ∈ removed, d.scope > level) ∧
      (∀ d, kept.getLast? = some d → d.scope ≤ level) ∧
      (l.Pairwise (fun a b => a.scope ≤ b.scope) →
        (∀ d ∈ kept, d.scope ≤ level) ∧ (∀ d ∈ l, d.scope ≤ level → d ∈ kept) ∧
        kept = l.filter (fun d => decide (d.scope ≤ level))) := by
  obtain ⟨removed, hsplit, hrem⟩ := rdropWhile_split (fun d => decide (d.scope > level)) l
  have hremoved : ∀ d ∈ removed, d.scope > level := fun d hd => by simpa using hrem d hd
  have hlast : ∀ d, (l.rdropWhile (fun d => decide (d.scope > level))).getLast? = some d →
      d.scope ≤ level := by
    intro d hd
    have hne : l.rdropWhile (fun d => decide (d.scope > level)) ≠ [] := by
      intro h
      rw [h] at hd
      cases hd
    have hnot := List.rdropWhile_last_not (fun d => decide (d.scope > level)) l hne
    rw [List.getLast?_eq_getLast _ hne] at hd
    cases hd
    simpa using hnot
  refine ⟨_, removed, remove_vars_loop_total level l, hsplit, hremoved, hlast, fun hs => ?_⟩
  have hkept := sorted_prefix_le level _ removed (hsplit ▸ hs) hlast
  have hfilter : l.filter (fun d => decide (d.scope ≤ level)) =
      l.rdropWhile (fun d => decide (d.scope > level)) := by
    conv_lhs => rw [hsplit]
    rw [List.filter_append, List.filter_eq_self.mpr (fun d hd => by simpa using hkept d hd),
      List.filter_eq_nil_iff.mpr (fun d hd => by simpa using hremoved d hd), List.append_nil]
  refine ⟨hkept, fun d hd hle => ?_, hfilter.symm⟩
  rw [← hfilter]
  exact List.mem_filter.mpr ⟨hd, by simpa using hle⟩

/-- Witness for C19: leaving the inner block of declarations at levels 0, 1, 1, 2
removes the declaration of level 2. -/
theorem remove_vars_out_of_scope_spec_witness :
    remove_vars_out_of_scope 1 ex_var_decl_list =
      some [⟨1, "a", "double", 0⟩, ⟨2, "b", "int", 1⟩, ⟨3, "c", "int", 1⟩] ∧
    ex_var_decl_list.Pairwise (fun a b => a.scope ≤ b.scope) ∧
    ∀ d ∈ ex_var_decl_list, d.scope ≤ 1 →
      d ∈ [(⟨1, "a", "double", 0⟩ : var_decl), ⟨2, "b", "int", 1⟩, ⟨3, "c", "int", 1⟩] := by
  obtain ⟨kept, removed, hk, _, _, _, hsorted⟩ := remove_vars_out_of_scope_spec 1 ex_var_decl_list
  have hpw : ex_var_decl_list.Pairwise (fun a b => a.scope ≤ b.scope) := by decide
  have hval : remove_vars_out_of_scope 1 ex_var_decl_list =
      some [⟨1, "a", "double", 0⟩, ⟨2, "b", "int", 1⟩, ⟨3, "c", "int", 1⟩] := by decide
  rw [hval] at hk
  cases hk
  exact ⟨hval, hpw, (hsorted hpw).2.1⟩

/-! ### `find_OP_bin_index` -/

theorem lower_bound_spec {α : Type} [LinearOrder α] (v : List α) (OP : α)
    (front back : α) (hfront : v.head? = some front)
    (hback : v.getLast? = some back) (h1 : front < OP) (h2 : OP < back) :
    ∃ i, lower_bound v OP = i + 1 ∧ i + 1 < v.length ∧
      (∀ a, v[i]? = some a → a < OP) ∧ (∀ b, v[i + 1]? = some b → OP ≤ b) := by
  have hne : v ≠ [] := by
    intro h
    rw [h] at hfront
    cases hfront
  have hlen : 0 < v.length := List.length_pos.mpr hne
  have hfront' : v[0] = front := by
    rw [List.head?_eq_getElem?, List.getElem?_eq_getElem hlen] at hfront
    exact Option.some.inj hfront
  have hback' : v[v.length - 1] = back := by
    rw [List.getLast?_eq_getElem?, List.getElem?_eq_getElem (by omega)] at hback
    exact Option.some.inj hback
  have hexists : ∃ x ∈ v, (fun e => !decide (e < OP)) x = true :=
    ⟨back, hback' ▸ List.getElem_mem _, by simpa using le_of_lt h2⟩
  have hlt : lower_bound v OP < v.length := List.findIdx_lt_length_of_exists hexists
  have hat : ¬ v[lower_bound v OP] < OP := by
    have := @List.findIdx_getElem _ (fun e => !decide (e < OP)) v hlt
    simpa using this
  have hpos : lower_bound v OP ≠ 0 := by
    intro h0
    apply hat
    have : v[lower_bound v OP] = v[0] := by congr
    rw [this, hfront']
    exact h1
  obtain ⟨i, hi⟩ : ∃ i, lower_bound v OP = i + 1 := ⟨lower_bound v OP - 1, by omega⟩
  refine ⟨i, hi, by omega, fun a ha => ?_, fun b hb => ?_⟩
  · have hil : i < lower_bound v OP := by omega
    have hnot := List.not_of_lt_findIdx hil
    rw [List.getElem?_eq_getElem (by omega)] at ha
    cases ha
    simpa using hnot
  · rw [List.getElem?_eq_getElem (by omega)] at hb
    cases hb
    have : v[i + 1] = v[lower_bound v OP] := by congr 1; exact hi.symm
    rw [this]
    exact not_lt.mp hat

theorem sorted_bin_unique {α : Type} [LinearOrder α] (v : List α) (OP : α)
    (hsorted : v.Pairwise (· < ·)) (i j : Nat) (a b c d : α)
    (hi : v[i]? = some a) (hi1 : v[i + 1]? = some b) (hj : v[j]? = some c)
    (hj1 : v[j + 1]? = some d) (ha : a < OP) (hb : OP ≤ b) (hc : c < OP) (hd : OP ≤ d) :
    j = i := by
  have hmono : ∀ (m n : Nat) (x y : α), m < n → v[m]? = some x → v[n]? = some y → x < y := by
    intro m n x y hmn hx hy
    obtain ⟨hm, rfl⟩ := List.getElem?_eq_some.mp hx
    obtain ⟨hn, rfl⟩ := List.getElem?_eq_some.mp hy
    exact List.pairwise_iff_getElem.mp hsorted m n hm hn hmn
  rcases Nat.lt_trichotomy j i with h | h | h
  · exfalso
    have hda : d ≤ a := by
      rcases Nat.lt_or_ge (j + 1) i with h' | h'
      · exact le_of_lt (hmono _ _ _ _ h' hj1 hi)
      · have : j + 1 = i := by omega
        rw [this, hi] at hj1
        cases hj1
        exact le_refl _
    exact absurd (lt_of_le_of_lt (le_trans hd hda) ha) (lt_irrefl _)
  · exact h
  · exfalso
    have hbc : b ≤ c := by
      rcases Nat.lt_or_ge (i + 1) j with h' | h'
      · exact le_of_lt (hmono _ _ _ _ h' hi1 hj)
      · have : i + 1 = j := by omega
        rw [this, hj] at hi1
        cases hi1
        exact le_refl _
    exact absurd (lt_of_le_of_lt (le_trans hb hbc) hc) (lt_irrefl _)

/-- For edges and an order parameter from a linear order, with the edges
strictly increasing, `find_OP_bin_index(OP, ci)` returns -1 iff `OP ≤ e_0` or
`OP ≥ e_n`, and otherwise the unique index `i` with `e_i < OP ≤ e_(i+1)`, for which
`0 ≤ i < n`. -/
theorem find_OP_bin_index_ordered {α : Type} [LinearOrder α] (g_OPBinLimits : List (List α))
    (OP : α) (ci n : Nat) (e : List α) (e0 en : α)
    (hci : g_OPBinLimits[ci]? = some e) (hlen : e.length = n + 1)
    (hsorted : e.Pairwise (· < ·)) (h0 : e[0]? = some e0) (hend : e[n]? = some en) :
    ∃ r : Int, find_OP_bin_index g_OPBinLimits OP ci = some r ∧
      (r = -1 ↔ (OP ≤ e0 ∨ OP ≥ en)) ∧
      (r ≠ -1 → ∃ i : Nat, r = (i : Int) ∧ i < n ∧
        (∃ a b, e[i]? = some a ∧ e[i + 1]? = some b ∧ a < OP ∧ OP ≤ b) ∧
        ∀ (j : Nat) (c d : α), e[j]? = some c → e[j + 1]? = some d → c < OP → OP ≤ d →
          j = i) := by
  have hhead : e.head? = some e0 := by rw [List.head?_eq_getElem?]; exact h0
  have hlast : e.getLast? = some en := by
    rw [List.getLast?_eq_getElem?, hlen]
    exact hend
  unfold find_OP_bin_index
  simp only [hci, hhead, hlast]
  by_cases h1 : OP ≤ e0
  · refine ⟨-1, by rw [if_pos h1], ⟨fun _ => Or.inl h1, fun _ => rfl⟩, fun h => absurd rfl h⟩
  · by_cases h2 : OP ≥ en
    · refine ⟨-1, by rw [if_neg h1, if_pos h2], ⟨fun _ => Or.inr h2, fun _ => rfl⟩,
        fun h => absurd rfl h⟩
    · obtain ⟨i, hi, hilt, hlow, hup⟩ := lower_bound_spec e OP e0 en hhead hlast
        (not_le.mp h1) (not_le.mp h2)
      have hval : ((lower_bound e OP : Nat) : Int) - 1 = (i : Int) := by
        rw [hi]
        push_cast
        ring
      refine ⟨(i : Int), by rw [if_neg h1, if_neg h2, hval], ⟨fun h => ?_, fun h => ?_⟩,
        fun _ => ⟨i, rfl, by omega, ?_, ?_⟩⟩
      · omega
      · rcases h with h | h
        · exact absurd h h1
        · exact absurd h h2
      · have hia : i < e.length := by omega
        exact ⟨e[i], e[i + 1], List.getElem?_eq_getElem hia, List.getElem?_eq_getElem hilt,
          hlow _ (List.getElem?_eq_getElem hia), hup _ (List.getElem?_eq_getElem hilt)⟩
      · intro j c d hj hj1 hc hd
        have hia : i < e.length := by omega
        exact sorted_bin_unique e OP hsorted i j e[i] e[i + 1] c d
          (List.getElem?_eq_getElem hia) (List.getElem?_eq_getElem hilt) hj hj1
          (hlow _ (List.getElem?_eq_getElem hia)) (hup _ (List.getElem?_eq_getElem hilt)) hc hd

/-! ### `TraverseStmt` and `skip_children` -/

theorem leave_skip_visited (t : traversal) : (leave_skip t).visited = t.visited := by
  unfold leave_skip
  split <;> rfl

theorem leave_depth_visited (t : traversal) : (leave_depth t).visited = t.visited := by
  unfold leave_depth
  split <;> rfl

theorem leave_depth_skip (t : traversal) :
    (leave_depth t).parsing_state.skip_children = t.parsing_state.skip_children := by
  unfold leave_depth
  split <;> rfl

theorem enter_skip_of_zero (ps : parsing_state_t) (h : ps.skip_children = 0) :
    enter_skip ps = ps := by
  unfold enter_skip
  rw [if_neg (by omega)]

theorem TraverseStmt_skipping (VisitStmt : Stmt → parsing_state_t → visit_plan)
    (s : Stmt) (t : traversal) (h : t.parsing_state.skip_children = 1) :
    TraverseStmt VisitStmt s t = t := by
  obtain ⟨⟨sk, a, b, c, d, e, f⟩, vis⟩ := t
  simp only at h
  subst h
  cases s with
  | node id children =>
    unfold TraverseStmt
    simp [enter_skip, leave_skip]

theorem traverse_children_skipping (VisitStmt : Stmt → parsing_state_t → visit_plan)
    (children : List Stmt) (t : traversal) (h : t.parsing_state.skip_children = 1) :
    traverse_children VisitStmt children t = t := by
  induction children with
  | nil => rfl
  | cons c rest ih =>
    unfold traverse_children
    rw [TraverseStmt_skipping VisitStmt c t h]
    exact ih

theorem run_visit_extends (f : List Nat → traversal → traversal)
    (hf : ∀ p u, ∃ suffix, (f p u).visited = u.visited ++ suffix) (plan : visit_plan)
    (t : traversal) : ∃ suffix, (run_visit f plan t).2.visited = t.visited ++ suffix := by
  unfold run_visit
  simp only
  generalize plan.nested = steps
  induction steps generalizing t with
  | nil => exact ⟨[], by simp⟩
  | cons step rest ih =>
    rw [List.foldl_cons]
    obtain ⟨s1, h1⟩ := hf step.2 ⟨step.1 t.parsing_state, t.visited⟩
    obtain ⟨s2, h2⟩ := ih (f step.2 ⟨step.1 t.parsing_state, t.visited⟩)
    exact ⟨s1 ++ s2, by rw [h2, h1, List.append_assoc]⟩

theorem run_visit_no_nested (f : List Nat → traversal → traversal) (plan : visit_plan)
    (t : traversal) (h : plan.nested = []) : (run_visit f plan t).2.visited = t.visited := by
  unfold run_visit
  rw [h]
  rfl

/-- A traversal only adds to `visited`, whether it starts at a node, or at a
descendant of one of the children of a node. -/
theorem visited_extends_all (VisitStmt : Stmt → parsing_state_t → visit_plan) (s : Stmt) :
    (∀ t, ∃ suffix, (TraverseStmt VisitStmt s t).visited = t.visited ++ suffix) ∧
    (∀ id cs, s = Stmt.node id cs → ∀ path t, ∃ suffix,
      (traverse_at VisitStmt cs path t).visited = t.visited ++ suffix) := by
  refine Stmt.rec
    (motive_1 := fun s =>
      (∀ t, ∃ suffix, (TraverseStmt VisitStmt s t).visited = t.visited ++ suffix) ∧
      (∀ id cs, s = Stmt.node id cs → ∀ path t, ∃ suffix,
        (traverse_at VisitStmt cs path t).visited = t.visited ++ suffix))
    (motive_2 := fun cs =>
      (∀ t, ∃ suffix, (traverse_children VisitStmt cs t).visited = t.visited ++ suffix) ∧
      (∀ path t, ∃ suffix, (traverse_at VisitStmt cs path t).visited = t.visited ++ suffix))
    ?_ ?_ ?_ s
  · intro id children ih
    refine ⟨?_, ?_⟩
    · intro t
      unfold TraverseStmt
      rw [leave_skip_visited]
      split
      · rw [leave_depth_visited]
        obtain ⟨s1, h1⟩ := run_visit_extends (traverse_at VisitStmt children) ih.2
          (VisitStmt (Stmt.node id children) (enter_depth (enter_skip t.parsing_state)))
          ⟨enter_depth (enter_skip t.parsing_state), t.visited ++ [id]⟩
        split
        · obtain ⟨s2, h2⟩ := ih.1 (run_visit (traverse_at VisitStmt children)
            (VisitStmt (Stmt.node id children) (enter_depth (enter_skip t.parsing_state)))
            ⟨enter_depth (enter_skip t.parsing_state), t.visited ++ [id]⟩).2
          exact ⟨[id] ++ s1 ++ s2, by rw [h2, h1]; simp only [List.append_assoc]⟩
        · exact ⟨[id] ++ s1, by rw [h1]; simp only [List.append_assoc]⟩
      · exact ⟨[], by simp⟩
    · intro id' cs heq
      cases heq
      exact ih.2
  · refine ⟨fun t => ⟨[], by simp [traverse_children]⟩, fun path t => ⟨[], ?_⟩⟩
    unfold traverse_at
    simp
  · intro c rest ihc ihrest
    refine ⟨?_, ?_⟩
    · intro t
      unfold traverse_children
      obtain ⟨s1, h1⟩ := ihc.1 t
      obtain ⟨s2, h2⟩ := ihrest.1 (TraverseStmt VisitStmt c t)
      exact ⟨s1 ++ s2, by rw [h2, h1, List.append_assoc]⟩
    · intro path t
      cases path with
      | nil =>
        unfold traverse_at
        exact ⟨[], by simp⟩
      | cons i more =>
        cases i with
        | zero =>
          cases more with
          | nil =>
            simp only [traverse_at]
            exact ihc.1 t
          | cons j more' =>
            cases c with
            | node cid cs =>
              simp only [traverse_at]
              exact ihc.2 cid cs rfl (j :: more') t
        | succ i' =>
          simp only [traverse_at]
          exact ihrest.2 (i' :: more) t

theorem visited_extends (VisitStmt : Stmt → parsing_state_t → visit_plan)
    (s : Stmt) : ∀ t, ∃ suffix, (TraverseStmt VisitStmt s t).visited = t.visited ++ suffix :=
  (visited_extends_all VisitStmt s).1

theorem traverse_at_extends (VisitStmt : Stmt → parsing_state_t → visit_plan)
    (cs : List Stmt) (path : List Nat) (t : traversal) :
    ∃ suffix, (traverse_at VisitStmt cs path t).visited = t.visited ++ suffix :=
  (visited_extends_all VisitStmt (Stmt.node 0 cs)).2 0 cs rfl path t

theorem traverse_children_extends (VisitStmt : Stmt → parsing_state_t → visit_plan)
    (cs : List Stmt) : ∀ (u : traversal), ∃ suffix,
      (traverse_children VisitStmt cs u).visited = u.visited ++ suffix := by
  induction cs with
  | nil => intro u; exact ⟨[], by simp [traverse_children]⟩
  | cons c rest ih =>
    intro u
    unfold traverse_children
    obtain ⟨s1, h1⟩ := visited_extends VisitStmt c u
    obtain ⟨s2, h2⟩ := ih (TraverseStmt VisitStmt c u)
    exact ⟨s1 ++ s2, by rw [h2, h1, List.append_assoc]⟩

theorem visit_of_extends (VisitStmt : Stmt → parsing_state_t → visit_plan) (id : Nat)
    (children : List Stmt) (t : traversal) :
    ∃ own, (visit_of VisitStmt id children t).2.visited = t.visited ++ [id] ++ own := by
  unfold visit_of
  exact run_visit_extends (traverse_at VisitStmt children)
    (traverse_at_extends VisitStmt children) _ _

theorem TraverseStmt_of_zero (VisitStmt : Stmt → parsing_state_t → visit_plan)
    (id : Nat) (children : List Stmt) (t : traversal)
    (h0 : t.parsing_state.skip_children = 0) :
    TraverseStmt VisitStmt (Stmt.node id children) t =
      leave_skip (leave_depth
        (if (visit_of VisitStmt id children t).1 then
          traverse_children VisitStmt children (visit_of VisitStmt id children t).2
        else (visit_of VisitStmt id children t).2)) := by
  unfold TraverseStmt visit_of
  rw [enter_skip_of_zero _ h0, if_pos h0]

theorem TraverseStmt_visits (VisitStmt : Stmt → parsing_state_t → visit_plan)
    (id : Nat) (children : List Stmt) (t : traversal)
    (h0 : t.parsing_state.skip_children = 0) :
    ∃ rest, (TraverseStmt VisitStmt (Stmt.node id children) t).visited =
      t.visited ++ [id] ++ rest := by
  rw [TraverseStmt_of_zero VisitStmt id children t h0, leave_skip_visited, leave_depth_visited]
  obtain ⟨own, hown⟩ := visit_of_extends VisitStmt id children t
  split
  · obtain ⟨suf, hs⟩ := traverse_children_extends VisitStmt children
      (visit_of VisitStmt id children t).2
    exact ⟨own ++ suf, by rw [hs, hown, List.append_assoc]⟩
  · exact ⟨own, hown⟩

/-- C18, the original claim fails when the handler of the visit traverses parts of
the node itself before it sets `skip_children` to 1, as `handle_loop_body_stmt`
does for the two sides of an assignment: the visit of the assignment 2 leaves
`skip_children` at 1, and its children 3 and 4 and the descendant 5 are traversed
and visited all the same, by the calls of `TraverseStmt` in the handler. -/
theorem skip_children_counterexample :
    ex_parsing_state.skip_children = 0 ∧
    (visit_of ex_VisitStmt 2 [Stmt.node 3 [], Stmt.node 4 [Stmt.node 5 []]]
      ⟨ex_parsing_state, [1]⟩).2.parsing_state.skip_children = 1 ∧
    (TraverseStmt ex_VisitStmt (Stmt.node 2 [Stmt.node 3 [], Stmt.node 4 [Stmt.node 5 []]])
      ⟨ex_parsing_state, [1]⟩).visited = [1, 2, 3, 4, 5] := by
  decide

/-- C18, amended: in `TraverseStmt`, when the visit of a node leaves
`parsing_state.skip_children` at 1, the traversal of the children that follows the
visit visits no child and no deeper descendant of the node: the nodes visited are
the node itself and those that the handlers of the visit traversed through their
own calls of `TraverseStmt`, and only the node itself when the handlers made no such
call; `skip_children` is 0 again when the traversal of the node returns, and the
following sibling is visited. -/
theorem skip_children_blocks_base_traversal
    (VisitStmt : Stmt → parsing_state_t → visit_plan)
    (id : Nat) (children : List Stmt) (t : traversal) (sibling_id : Nat)
    (sibling_children : List Stmt)
    (h0 : t.parsing_state.skip_children = 0)
    (hvisit : (visit_of VisitStmt id children t).2.parsing_state.skip_children = 1) :
    (TraverseStmt VisitStmt (Stmt.node id children) t).visited =
      (visit_of VisitStmt id children t).2.visited ∧
    (∃ own, (visit_of VisitStmt id children t).2.visited = t.visited ++ [id] ++ own) ∧
    ((VisitStmt (Stmt.node id children) (enter_depth t.parsing_state)).nested = [] →
      (TraverseStmt VisitStmt (Stmt.node id children) t).visited = t.visited ++ [id]) ∧
    (TraverseStmt VisitStmt (Stmt.node id children) t).parsing_state.skip_children = 0 ∧
    ∃ rest, (TraverseStmt VisitStmt (Stmt.node sibling_id sibling_children)
        (TraverseStmt VisitStmt (Stmt.node id children) t)).visited =
      (visit_of VisitStmt id children t).2.visited ++ [sibling_id] ++ rest := by
  have hres : TraverseStmt VisitStmt (Stmt.node id children) t =
      leave_skip (leave_depth (visit_of VisitStmt id children t).2) := by
    rw [TraverseStmt_of_zero VisitStmt id children t h0]
    split
    · rw [traverse_children_skipping VisitStmt children _ hvisit]
    · rfl
  have hvis : (TraverseStmt VisitStmt (Stmt.node id children) t).visited =
      (visit_of VisitStmt id children t).2.visited := by
    rw [hres, leave_skip_visited, leave_depth_visited]
  have hskip : (TraverseStmt VisitStmt (Stmt.node id children) t).parsing_state.skip_children
      = 0 := by
    rw [hres]
    unfold leave_skip
    simp [leave_depth_skip, hvisit]
  refine ⟨hvis, visit_of_extends VisitStmt id children t, ?_, hskip, ?_⟩
  · intro hnone
    rw [hvis]
    unfold visit_of
    rw [run_visit_no_nested _ _ _ hnone]
  · obtain ⟨rest, hrest⟩ := TraverseStmt_visits VisitStmt sibling_id sibling_children _ hskip
    exact ⟨rest, by rw [hrest, hvis]⟩

/-- Witness for C18: the node 2, with the descendants 3, 4 and 5, is classified by
a visit that traverses nothing itself; its sibling is the node 6. -/
theorem skip_children_blocks_base_traversal_witness :
    (TraverseStmt ex_VisitStmt_plain
        (Stmt.node 2 [Stmt.node 3 [], Stmt.node 4 [Stmt.node 5 []]])
        ⟨ex_parsing_state, [1]⟩).visited = [1, 2] ∧
    (TraverseStmt ex_VisitStmt_plain
        (Stmt.node 2 [Stmt.node 3 [], Stmt.node 4 [Stmt.node 5 []]])
        ⟨ex_parsing_state, [1]⟩).parsing_state.skip_children = 0 ∧
    ∃ rest, (TraverseStmt ex_VisitStmt_plain (Stmt.node 6 [Stmt.node 7 []])
        (TraverseStmt ex_VisitStmt_plain
          (Stmt.node 2 [Stmt.node 3 [], Stmt.node 4 [Stmt.node 5 []]])
          ⟨ex_parsing_state, [1]⟩)).visited = [1, 2] ++ [6] ++ rest :=
  ⟨(skip_children_blocks_base_traversal ex_VisitStmt_plain 2
      [Stmt.node 3 [], Stmt.node 4 [Stmt.node 5 []]] ⟨ex_parsing_state, [1]⟩ 6
      [Stmt.node 7 []] rfl rfl).2.2.1 rfl,
    (skip_children_blocks_base_traversal ex_VisitStmt_plain 2
      [Stmt.node 3 [], Stmt.node 4 [Stmt.node 5 []]] ⟨ex_parsing_state, [1]⟩ 6
      [Stmt.node 7 []] rfl rfl).2.2.2.1,
    (skip_children_blocks_base_traversal ex_VisitStmt_plain 2
      [Stmt.node 3 [], Stmt.node 4 [Stmt.node 5 []]] ⟨ex_parsing_state, [1]⟩ 6
      [Stmt.node 7 []] rfl rfl).2.2.2.2⟩

/-! ### `generate_code_avx` -/

theorem string_foldl_append (init : String) (l : List String) :
    l.foldl (fun r s => r ++ s) init = init ++ String.join l := by
  induction l generalizing init with
  | nil => simp [String.join]
  | cons a t ih =>
    rw [List.foldl_cons, ih]
    unfold String.join
    rw [List.foldl_cons, ih (("" : String) ++ a), String.empty_append, String.append_assoc]
    rfl

theorem string_join_cons (a : String) (l : List String) :
    String.join (a :: l) = a ++ String.join l := by
  unfold String.join
  rw [List.foldl_cons, string_foldl_append, String.empty_append]
  rfl

theorem string_join_nil : String.join ([] : List String) = "" := rfl

/-- A loop that appends a text for every element emits the texts in list order. -/
theorem foldl_emit {α : Type} (f : α → String) (step : String → α → String)
    (h : ∀ code x, step code x = code ++ f x) (l : List α) (code : String) :
    l.foldl step code = code ++ String.join (l.map f) := by
  induction l generalizing code with
  | nil => simp [string_join_nil]
  | cons a t ih =>
    rw [List.foldl_cons, h, ih, List.map_cons, string_join_cons, String.append_assoc]

theorem avx_declare_reduction_code (st : String × List var_info) (v : var_info) :
    (avx_declare_reduction st v).1 = st.1 ++ accumulator_declaration v := by
  unfold avx_declare_reduction accumulator_declaration
  cases h : v.reduction_type <;> simp [String.append_assoc]

theorem avx_declare_reductions_code (vars : List var_info) (st : String × List var_info) :
    (vars.foldl avx_declare_reduction st).1 =
      st.1 ++ String.join (vars.map accumulator_declaration) := by
  induction vars generalizing st with
  | nil => simp [string_join_nil]
  | cons v t ih =>
    rw [List.foldl_cons, ih, avx_declare_reduction_code, List.map_cons, string_join_cons,
      String.append_assoc]

theorem avx_declare_vector_reduction_code (code : String) (vrf : vector_reduction_ref) :
    avx_declare_vector_reduction code vrf = code ++ vector_accumulator_declaration vrf := by
  unfold avx_declare_vector_reduction vector_accumulator_declaration
  cases h : vrf.reduction_type <;> simp [String.append_assoc]

theorem avx_store_back_code (env : avx_environment) (fields : List field_info)
    (code : String) :
    fields.foldl (avx_store_back env) code =
      code ++ String.join ((fields.filter (fun l => l.is_written)).map (store_back_call env)) := by
  induction fields generalizing code with
  | nil => simp [string_join_nil]
  | cons l t ih =>
    rw [List.foldl_cons, ih]
    unfold avx_store_back
    cases hw : l.is_written with
    | false => simp [List.filter_cons, hw]
    | true =>
      simp only [if_true, List.filter_cons, hw, List.map_cons, string_join_cons]
      unfold store_back_call
      simp only [String.append_assoc]

theorem avx_fetch_direction_code (env : avx_environment) (l : field_info) (code : String)
    (d : dir_ptr) :
    avx_fetch_direction env l code d = code ++ neighbour_fetch env l d := by
  unfold avx_fetch_direction neighbour_fetch
  split
  · simp only [String.append_assoc]
  · simp

theorem avx_field_temporaries_code (env : avx_environment) (code : String)
    (l : field_info) :
    avx_field_temporaries env code l = code ++ field_temporaries env l := by
  unfold avx_field_temporaries field_temporaries
  have hfetch := foldl_emit (neighbour_fetch env l) (avx_fetch_direction env l)
    (fun c d => avx_fetch_direction_code env l c d) l.dir_list code
  cases l.is_read_nb <;> cases l.is_read_atX <;> cases l.is_written <;>
    simp [hfetch, String.append_assoc]

theorem avx_vector_reduction_code (code : String) (vrf : vector_reduction_ref) :
    avx_vector_reduction code vrf = code ++ lane_collapse vrf := by
  have h0 : toString (0 : Int) = "0" := by decide
  unfold avx_vector_reduction lane_collapse
  simp only [h0]
  cases vrf.reduction_type <;> simp [String.append_assoc]

theorem avx_wait_gets_code (env : avx_environment) (code : String) (l : field_info) :
    avx_wait_gets env code l = code ++ wait_get_calls env l := by
  unfold avx_wait_gets wait_get_calls
  apply foldl_emit (fun d => wait_get_call env l d)
  intro c d
  unfold wait_get_call
  split
  · simp only [String.append_assoc]
  · simp

/-- The variables after the loop that declares the accumulators: `new_name` is set
to `v_<reduction name>` for the reductions, and the other variables are as they
were. -/
theorem avx_declare_reductions_vars (vars : List var_info) (st : String × List var_info) :
    (vars.foldl avx_declare_reduction st).2 =
      st.2 ++ vars.map (fun v =>
        if v.reduction_type ≠ reduction.NONE then
          { v with new_name := "v_" ++ v.reduction_name }
        else v) := by
  induction vars generalizing st with
  | nil => simp
  | cons v t ih =>
    rw [List.foldl_cons, ih, List.map_cons]
    unfold avx_declare_reduction
    split <;> simp

theorem avx_final_reduction_code (code : String) (v : var_info) :
    avx_final_reduction code
        (if v.reduction_type ≠ reduction.NONE then
          { v with new_name := "v_" ++ v.reduction_name }
        else v) =
      code ++ final_reduction v := by
  unfold avx_final_reduction final_reduction
  cases h : v.reduction_type <;> simp [h, String.append_assoc]

theorem avx_final_reductions_code (vars : List var_info) (code : String) :
    (vars.map (fun v =>
        if v.reduction_type ≠ reduction.NONE then
          { v with new_name := "v_" ++ v.reduction_name }
        else v)).foldl avx_final_reduction code =
      code ++ String.join (vars.map final_reduction) := by
  induction vars generalizing code with
  | nil => simp [string_join_nil]
  | cons v t ih =>
    rw [List.map_cons, List.foldl_cons, ih, avx_final_reduction_code, List.map_cons,
      string_join_cons, String.append_assoc]

theorem avx_loop_header_text (env : avx_environment) (generate_wait_loops : Bool)
    (fieldname : String) :
    avx_loop_header env generate_wait_loops fieldname =
      vectorized_loop_header env generate_wait_loops fieldname := by
  unfold avx_loop_header vectorized_loop_header
  cases generate_wait_loops <;>
    simp only [↓reduceIte, Bool.false_eq_true, String.append_assoc, String.append_empty,
      String.empty_append]

/-- The code of the vectorized path, segment by segment: the text emitted so far,
the accumulator declarations, the loop header, the declarations of the vector
reductions, the temporaries of the fields, the loop body, the collapse of the
vector reductions, the store-back calls of the written fields, and the end of the
loops with the final reductions. -/
theorem generate_code_avx_vectorized_code (env : avx_environment) (semicolon_at_end : Bool)
    (generate_wait_loops : Bool) (fields : List field_info) (vars : List var_info)
    (vrfs : List vector_reduction_ref) (code : String) (front : field_info)
    (hfront : fields.head? = some front) :
    generate_code_avx_vectorized env semicolon_at_end generate_wait_loops fields
        vars vrfs code =
      some (code ++ (String.join (vars.map accumulator_declaration) ++
        (vectorized_loop_header env generate_wait_loops front.new_name ++
        (String.join (vrfs.map vector_accumulator_declaration) ++
        (loop_body_code env semicolon_at_end fields vrfs ++
        (String.join ((fields.filter (fun l => l.is_written)).map (store_back_call env)) ++
        code_after_store_back env generate_wait_loops fields vars)))))) := by
  have hvdecl := foldl_emit vector_accumulator_declaration avx_declare_vector_reduction
    avx_declare_vector_reduction_code vrfs
  have htemp := foldl_emit (field_temporaries env) (avx_field_temporaries env)
    (avx_field_temporaries_code env) fields
  have hvred := foldl_emit lane_collapse avx_vector_reduction avx_vector_reduction_code vrfs
  have hwait := foldl_emit (wait_get_calls env) (avx_wait_gets env) (avx_wait_gets_code env)
    fields
  unfold generate_code_avx_vectorized
  simp only [hfront]
  rw [avx_declare_reductions_vars, List.nil_append, avx_final_reductions_code,
    avx_declare_reductions_code, avx_loop_header_text]
  unfold loop_body_code code_after_store_back
  cases generate_wait_loops with
  | false =>
    simp only [Bool.false_eq_true, if_false]
    rw [avx_store_back_code, hvred, htemp, hvdecl]
    cases semicolon_at_end <;>
      simp only [↓reduceIte, Bool.not_true, Bool.not_false, Bool.false_eq_true,
        String.append_assoc, String.append_empty, String.empty_append]
  | true =>
    simp only [if_true]
    rw [hwait, avx_store_back_code, hvred, htemp, hvdecl]
    cases semicolon_at_end <;>
      simp only [↓reduceIte, Bool.not_true, Bool.not_false, Bool.false_eq_true,
        String.append_assoc, String.append_empty, String.empty_append]

/-- C12: the code that `generate_code_avx` returns in the vectorized path is the
comment, then one accumulator declaration per variable in list order
(`accumulator_declaration`: `<vectorized type> v_<reduction name>(0);` for kind
SUM, `(1);` for kind PRODUCT and nothing for kind NONE), then the loop header,
then one accumulator declaration per entry of `vector_reduction_ref_list`, seeded
in the same way, and then the rest of the code, which is the temporaries of the
fields, the loop body, the collapse of the vector reductions, the store-back
calls, the end of the loops and the final reductions: no other accumulator
declaration is emitted. -/
theorem avx_accumulators_seeded (li : loop_info_struct) (avx_info verbosity : Int) (S : Nat)
    (env : avx_environment) (semicolon_at_end generate_wait_loops : Bool)
    (fields : List field_info) (vars : List var_info) (vrfs : List vector_reduction_ref)
    (verdict : vectorizable_result) (front : field_info)
    (hcheck : check_loop_vectorizable li avx_info verbosity S fields vars = some verdict)
    (hret : verdict.ret = true) (hfront : fields.head? = some front) :
    generate_code_avx li avx_info verbosity S env semicolon_at_end
        generate_wait_loops fields vars vrfs =
      some (env.comment_string verdict.diag_str ++ "\n" ++
        String.join (vars.map accumulator_declaration) ++
        vectorized_loop_header env generate_wait_loops front.new_name ++
        String.join (vrfs.map vector_accumulator_declaration) ++
        code_after_accumulators env semicolon_at_end generate_wait_loops fields vars vrfs) := by
  unfold generate_code_avx
  simp only [hcheck, hret, Bool.not_true, Bool.false_eq_true, if_false]
  rw [generate_code_avx_vectorized_code env semicolon_at_end generate_wait_loops fields vars
    vrfs _ front hfront]
  unfold code_after_accumulators
  simp only [String.append_assoc]

/-- C13: the code that `generate_code_avx` returns in the vectorized path is the
code before the store-back calls (comment, accumulator declarations, loop header,
temporaries, loop body and collapse of the vector reductions), then the call
`<new name>.set_vector_at<<vectorized type>>(<loop ref name>, <looping var>);` once
for every field of `field_info_list` that is marked `is_written`, in list order,
and nothing for the other fields, then the end of the loops, the `wait_get` calls
and the final reductions: no other store-back call is emitted. For the loop
`a[X] = b[X] + c[X+e_x]` the code has the one call for `a`. -/
theorem avx_store_back_written (li : loop_info_struct) (avx_info verbosity : Int) (S : Nat)
    (env : avx_environment) (semicolon_at_end generate_wait_loops : Bool)
    (fields : List field_info) (vars : List var_info) (vrfs : List vector_reduction_ref)
    (verdict : vectorizable_result) (front : field_info)
    (hcheck : check_loop_vectorizable li avx_info verbosity S fields vars = some verdict)
    (hret : verdict.ret = true) (hfront : fields.head? = some front) :
    generate_code_avx li avx_info verbosity S env semicolon_at_end
        generate_wait_loops fields vars vrfs =
      some (code_before_store_back env semicolon_at_end generate_wait_loops fields vars vrfs
          verdict.diag_str front.new_name ++
        String.join ((fields.filter (fun l => l.is_written)).map (store_back_call env)) ++
        code_after_store_back env generate_wait_loops fields vars) ∧
    generate_code_avx ⟨Parity.all, "ALL", false, "", false⟩ 0 0 0 ex_avx_environment false
        false ex_abc_named [] [] =
      some ("// Loop is AVX vectorizable\n" ++
        "const auto * RESTRICT loop_lattice = a.fs->vector_lattice;\n" ++
        "const int loop_begin = loop_lattice->loop_begin(ALL);\n" ++
        "const int loop_end   = loop_lattice->loop_end(ALL);\n" ++
        "for(int _HILA_index = loop_begin; _HILA_index < loop_end; ++_HILA_index) \x7b\n" ++
        "Vec4d a_at_X;\n" ++
        "Vec4d b_at_X = b.get_vector_at<Vec4d>(_HILA_index);\n" ++
        "Vec4d c_dir = c.get_vector_at<Vec4d>(loop_lattice->neighbours[e_x][_HILA_index]);\n" ++
        "\x7b a_at_X = b_at_X + c_dir; \x7d\n" ++
        "\x7d\n" ++
        "a.set_vector_at<Vec4d>(a_at_X, _HILA_index);\n" ++
        "\x7d\n") := by
  refine ⟨?_, by set_option maxRecDepth 100000 in decide⟩
  unfold generate_code_avx
  simp only [hcheck, hret, Bool.not_true, Bool.false_eq_true, if_false]
  rw [generate_code_avx_vectorized_code env semicolon_at_end generate_wait_loops fields vars
    vrfs _ front hfront]
  unfold code_before_store_back
  simp only [String.append_assoc]

/-- Witness for C12: the loop `a[X] = b[X] + c[X+e_x]` with a sum reduction, a
product reduction, a plain variable and a vector reduction, with wait loops. -/
theorem avx_accumulators_seeded_witness :
    generate_code_avx ⟨Parity.all, "ALL", false, "", false⟩ 0 0 0
        ex_avx_environment false true ex_abc_named ex_reduction_vars ex_vector_reductions =
      some (ex_avx_environment.comment_string "Loop is AVX vectorizable" ++ "\n" ++
        String.join (ex_reduction_vars.map accumulator_declaration) ++
        vectorized_loop_header ex_avx_environment true ex_field_a.new_name ++
        String.join (ex_vector_reductions.map vector_accumulator_declaration) ++
        code_after_accumulators ex_avx_environment false true ex_abc_named ex_reduction_vars
          ex_vector_reductions) ∧
    String.join (ex_reduction_vars.map accumulator_declaration) =
      "Vec4d v_r_s(0);\nVec4d v_r_p(1);\n" ∧
    String.join (ex_vector_reductions.map vector_accumulator_declaration) =
      "vectorize_struct<double, vector_size>::type v_hist(0);\n" ∧
    code_after_accumulators ex_avx_environment false true ex_abc_named ex_reduction_vars
        ex_vector_reductions =
      "Vec4d a_at_X;\n" ++
      "Vec4d b_at_X = b.get_vector_at<Vec4d>(_HILA_index);\n" ++
      "Vec4d c_dir = c.get_vector_at<Vec4d>(loop_lattice->neighbours[e_x][_HILA_index]);\n" ++
      "\x7b a_at_X = b_at_X + c_dir; \x7d\n" ++
      "int v_index_0[vector_size];\n" ++
      "idx.store(&v_index_0[0]);\n" ++
      "double a_hist[vector_size];\n" ++
      "v_hist.store(&a_hist[0]);\n" ++
      "for( int i=0; i<vector_size; i++)\x7b\n" ++
      "hist[v_index_0[i]] += a_hist[i];\n" ++
      "\x7d\n" ++
      "\x7d\n" ++
      "a.set_vector_at<Vec4d>(a_at_X, _HILA_index);\n" ++
      "\x7d\n" ++
      "\x7d\nif (_dir_mask_ == 0) break;    // No need for another round\n" ++
      "c.wait_get(e_x, ALL);\n" ++
      "\x7d\n" ++
      "r_s = reduce_sum(v_r_s);\n" ++
      "r_p = reduce_prod(v_r_p);\n" :=
  ⟨avx_accumulators_seeded ⟨Parity.all, "ALL", false, "", false⟩ 0 0 0 ex_avx_environment
      false true ex_abc_named ex_reduction_vars ex_vector_reductions
      ⟨true, 4, "Loop is AVX vectorizable", []⟩ ex_field_a (by decide) rfl (by decide),
    by decide, by decide, by set_option maxRecDepth 100000 in decide⟩

/-- Witness for C13: the loop `a[X] = b[X] + c[X+e_x]` with reductions and wait
loops; the store-back calls are the one call for `a`. -/
theorem avx_store_back_written_witness :
    generate_code_avx ⟨Parity.all, "ALL", false, "", false⟩ 0 0 0
        ex_avx_environment false true ex_abc_named ex_reduction_vars ex_vector_reductions =
      some (code_before_store_back ex_avx_environment false true ex_abc_named
          ex_reduction_vars ex_vector_reductions "Loop is AVX vectorizable"
          ex_field_a.new_name ++
        String.join ((ex_abc_named.filter (fun l => l.is_written)).map
          (store_back_call ex_avx_environment)) ++
        code_after_store_back ex_avx_environment true ex_abc_named ex_reduction_vars) ∧
    String.join ((ex_abc_named.filter (fun l => l.is_written)).map
        (store_back_call ex_avx_environment)) =
      "a.set_vector_at<Vec4d>(a_at_X, _HILA_index);\n" ∧
    ex_abc_named.map (fun l => (l.old_name, l.is_written)) =
      [("a", true), ("b", false), ("c", false)] :=
  ⟨(avx_store_back_written ⟨Parity.all, "ALL", false, "", false⟩ 0 0 0 ex_avx_environment
      false true ex_abc_named ex_reduction_vars ex_vector_reductions
      ⟨true, 4, "Loop is AVX vectorizable", []⟩ ex_field_a (by decide) rfl (by decide)).1,
    by decide, by decide⟩

/-! ### The descriptors built by `check_field_ref_list` -/

theorem foldl_visit_indexed (is_duplicate_expr : Expr → Expr → Bool) (refs : List field_ref)
    (P : Nat → field_state → Prop)
    (hstep : ∀ st k p, refs[k]? = some p → P k st →
      P (k + 1) (visit_field_ref is_duplicate_expr st (k, p))) :
    ∀ (xs : List field_ref) (n : Nat) (st : field_state),
      (∀ i p, xs[i]? = some p → refs[n + i]? = some p) → P n st →
      P (n + xs.length) ((xs.enumFrom n).foldl (visit_field_ref is_duplicate_expr) st) := by
  intro xs
  induction xs with
  | nil => intro n st _ h; exact h
  | cons a t ih =>
    intro n st hxs h
    rw [List.enumFrom_cons, List.foldl_cons]
    have ha : refs[n]? = some a := hxs 0 a (by simp)
    have hnext := ih (n + 1) (visit_field_ref is_duplicate_expr st (n, a))
      (fun i p hi => by
        have := hxs (i + 1) p (by simpa using hi)
        rw [← this]
        congr 1
        omega)
      (hstep st n a ha h)
    have hlen : n + (a :: t).length = n + 1 + t.length := by
      simp only [List.length_cons]
      omega
    rw [hlen]
    exact hnext

/-- Induction principle for the first loop of `check_field_ref_list` that keeps
track of the position of the reference. -/
theorem collect_fields_invariant_indexed (is_duplicate_expr : Expr → Expr → Bool)
    (refs : List field_ref) (P : Nat → field_state → Prop) (h0 : P 0 ⟨[], [], [], true⟩)
    (hstep : ∀ st k p, refs[k]? = some p → P k st →
      P (k + 1) (visit_field_ref is_duplicate_expr st (k, p))) :
    P refs.length (collect_fields is_duplicate_expr refs) := by
  have := foldl_visit_indexed is_duplicate_expr refs P hstep refs 0 ⟨[], [], [], true⟩
    (fun i p hi => by simpa using hi) h0
  simpa [collect_fields, List.enum] using this

theorem record_ref_nameExpr (is_duplicate_expr : Expr → Expr → Bool) (p : field_ref) (k : Nat)
    (fi : field_info) :
    (record_ref is_duplicate_expr p k fi).nameExpr = fi.nameExpr := by
  unfold record_ref
  simp only
  repeat' split
  all_goals rfl

theorem getElem?_concat_cases {α : Type} (l : List α) (a x : α) (j : Nat)
    (h : (l ++ [a])[j]? = some x) :
    (j < l.length ∧ l[j]? = some x) ∨ (j = l.length ∧ x = a) := by
  rcases Nat.lt_trichotomy j l.length with hj | hj | hj
  · left
    rw [List.getElem?_append_left hj] at h
    exact ⟨hj, h⟩
  · right
    subst hj
    rw [List.getElem?_append_right (le_refl _)] at h
    simp at h
    exact ⟨rfl, h.symm⟩
  · exfalso
    rw [List.getElem?_eq_none (by simp; omega)] at h
    cases h

theorem getElem?_concat_of_lt {α : Type} (l : List α) (a x : α) (j : Nat)
    (h : l[j]? = some x) : (l ++ [a])[j]? = some x := by
  have hj : j < l.length := (List.getElem?_eq_some.mp h).1
  rw [List.getElem?_append_left hj]
  exact h

theorem getElem?_concat_length {α : Type} (l : List α) (a : α) :
    (l ++ [a])[l.length]? = some a := by
  rw [List.getElem?_append_right (le_refl _)]
  simp

theorem getElem?_modify_cases {α : Type} (f : α → α) (l : List α) (i j : Nat) (x : α)
    (h : (l.modify f i)[j]? = some x) :
    ∃ y, l[j]? = some y ∧ ((j = i ∧ x = f y) ∨ (j ≠ i ∧ x = y)) := by
  rw [List.getElem?_modify] at h
  cases hy : l[j]? with
  | none => rw [hy] at h; cases h
  | some y =>
    rw [hy] at h
    refine ⟨y, rfl, ?_⟩
    by_cases hij : i = j
    · left
      simp only [hij, if_true, Option.map_eq_map, Option.map_some', Option.some.injEq] at h
      exact ⟨hij.symm, h.symm⟩
    · right
      simp only [hij, if_false, Option.map_eq_map, Option.map_some', Option.some.injEq] at h
      exact ⟨fun h' => hij h'.symm, h.symm⟩

theorem map_modify_of_eq {α β : Type} (g : α → β) (f : α → α) (l : List α) (i : Nat)
    (h : ∀ x, g (f x) = g x) : (l.modify f i).map g = l.map g := by
  apply List.ext_getElem?
  intro j
  rw [List.getElem?_map, List.getElem?_map, List.getElem?_modify]
  cases l[j]? with
  | none => rfl
  | some y =>
    by_cases hij : i = j
    · simp [hij, h]
    · simp [hij]

theorem fields_inv_init (is_duplicate_expr : Expr → Expr → Bool) (refs : List field_ref) :
    fields_inv is_duplicate_expr refs 0 ⟨[], [], [], true⟩ := by
  refine ⟨rfl, ?_, ?_, ?_, ?_, ?_, ?_⟩
  · intro k idx h
    simp at h
  · intro idx l h
    simp at h
  · intro l hl
    cases hl
  · exact List.Pairwise.nil
  · intro idx l h
    simp at h
  · intro i j li lj _ h
    simp at h

theorem head?_concat_of_head? {α : Type} (l : List α) (a x : α) (h : l.head? = some x) :
    (l ++ [a]).head? = some x := by
  cases l with
  | nil => cases h
  | cons b t => exact h

theorem fields_inv_found (is_duplicate_expr : Expr → Expr → Bool) (refs : List field_ref)
    (st : field_state) (k idx0 : Nat) (p : field_ref) (hp : refs[k]? = some p)
    (h : fields_inv is_duplicate_expr refs k st)
    (hfind : st.field_info_list.findIdx?
      (fun li => is_duplicate_expr li.nameExpr p.nameExpr) = some idx0) :
    fields_inv is_duplicate_expr refs (k + 1)
      { st with
        field_info_list := st.field_info_list.modify (record_ref is_duplicate_expr p k) idx0
        info := st.info ++ [idx0] } := by
  obtain ⟨hA, hB, hC, hD, hE, hF, hG⟩ := h
  have hlt : ∀ (idx : Nat) (l : field_info), st.field_info_list[idx]? = some l →
      ∀ j ∈ l.ref_list, j < k := by
    intro idx l hl j hj
    have h1 := (List.getElem?_eq_some.mp (hC idx l hl j hj)).1
    omega
  obtain ⟨hidx0, hdup0, _⟩ := List.findIdx?_eq_some_iff_getElem.mp hfind
  have hl0 : st.field_info_list[idx0]? = some (st.field_info_list[idx0]) :=
    List.getElem?_eq_getElem hidx0
  have hmod : ∀ (j : Nat) (l' : field_info),
      (st.field_info_list.modify (record_ref is_duplicate_expr p k) idx0)[j]? = some l' →
      ∃ l, st.field_info_list[j]? = some l ∧ l'.nameExpr = l.nameExpr ∧
        (l'.ref_list = l.ref_list ∨ (j = idx0 ∧ l'.ref_list = l.ref_list ++ [k])) := by
    intro j l' hj
    obtain ⟨y, hy, hcase⟩ := getElem?_modify_cases _ _ _ _ _ hj
    refine ⟨y, hy, ?_⟩
    rcases hcase with ⟨hji, rfl⟩ | ⟨_, rfl⟩
    · exact ⟨record_ref_nameExpr _ _ _ _, Or.inr ⟨hji, record_ref_ref_list _ _ _ _⟩⟩
    · exact ⟨rfl, Or.inl rfl⟩
  have hmod2 : ∀ (j : Nat) (l : field_info), st.field_info_list[j]? = some l →
      ∃ l', (st.field_info_list.modify (record_ref is_duplicate_expr p k) idx0)[j]? = some l' ∧
        l'.nameExpr = l.nameExpr ∧ (∀ x ∈ l.ref_list, x ∈ l'.ref_list) ∧
        (j = idx0 → k ∈ l'.ref_list) := by
    intro j l hj
    by_cases hji : idx0 = j
    · refine ⟨record_ref is_duplicate_expr p k l, ?_, record_ref_nameExpr _ _ _ _, ?_, ?_⟩
      · rw [List.getElem?_modify, hj]
        simp [hji]
      · intro x hx
        rw [record_ref_ref_list]
        exact List.mem_append_left _ hx
      · intro _
        rw [record_ref_ref_list]
        simp
    · refine ⟨l, ?_, rfl, fun x hx => hx, fun h' => absurd h'.symm hji⟩
      rw [List.getElem?_modify, hj]
      simp [hji]
  refine ⟨?_, ?_, ?_, ?_, ?_, ?_, ?_⟩
  · simp [hA]
  · intro j idx hj
    simp only at hj ⊢
    rcases getElem?_concat_cases _ _ _ _ hj with ⟨_, hj'⟩ | ⟨hjk, hidx⟩
    · obtain ⟨l, q, hl, hq, hmem, hname⟩ := hB j idx hj'
      obtain ⟨l', hl', hn', hsub, _⟩ := hmod2 idx l hl
      exact ⟨l', q, hl', hq, hsub j hmem, by rw [hn']; exact hname⟩
    · rw [hA] at hjk
      subst hjk
      subst hidx
      obtain ⟨l', hl', hn', _, hk⟩ := hmod2 idx _ hl0
      exact ⟨l', p, hl', hp, hk rfl, Or.inr (by rw [hn']; exact hdup0)⟩
  · intro idx l' hl' j hj
    simp only at hl' ⊢
    obtain ⟨l, hl, _, hcase⟩ := hmod idx l' hl'
    rcases hcase with hsame | ⟨hidx, happ⟩
    · rw [hsame] at hj
      exact getElem?_concat_of_lt _ _ _ _ (hC idx l hl j hj)
    · rw [happ] at hj
      rcases List.mem_append.mp hj with hj | hj
      · exact getElem?_concat_of_lt _ _ _ _ (hC idx l hl j hj)
      · rw [List.mem_singleton] at hj
        rw [hj, hidx, ← hA]
        exact getElem?_concat_length _ _
  · intro l' hl'
    simp only at hl'
    obtain ⟨j, hj⟩ := List.mem_iff_getElem?.mp hl'
    obtain ⟨l, hl, _, hcase⟩ := hmod j l' hj
    have hlmem : l ∈ st.field_info_list := List.mem_iff_getElem?.mpr ⟨j, hl⟩
    rcases hcase with hsame | ⟨_, happ⟩
    · rw [hsame]
      exact hD l hlmem
    · rw [happ, List.pairwise_append]
      refine ⟨hD l hlmem, List.pairwise_singleton _ _, ?_⟩
      intro a ha b hb
      rw [List.mem_singleton] at hb
      rw [hb]
      exact hlt j l hl a ha
  · simp only
    rw [map_modify_of_eq _ _ _ _ (fun x => record_ref_nameExpr is_duplicate_expr p k x)]
    exact hE
  · intro idx l' hl'
    simp only at hl'
    obtain ⟨l, hl, hn, hcase⟩ := hmod idx l' hl'
    obtain ⟨k0, p0, hhead, hp0, hname⟩ := hF idx l hl
    refine ⟨k0, p0, ?_, hp0, by rw [hn]; exact hname⟩
    rcases hcase with hsame | ⟨_, happ⟩
    · rw [hsame]
      exact hhead
    · rw [happ]
      exact head?_concat_of_head? _ _ _ hhead
  · intro i j li' lj' hij hli' hlj' ki kj hki hkj
    simp only at hli' hlj'
    obtain ⟨li, hli, _, hci⟩ := hmod i li' hli'
    obtain ⟨lj, hlj, _, hcj⟩ := hmod j lj' hlj'
    obtain ⟨ki0, _, hhi, _, _⟩ := hF i li hli
    obtain ⟨kj0, _, hhj, _, _⟩ := hF j lj hlj
    have hi' : li'.ref_list.head? = some ki0 := by
      rcases hci with hsame | ⟨_, happ⟩
      · rw [hsame]
        exact hhi
      · rw [happ]
        exact head?_concat_of_head? _ _ _ hhi
    have hj' : lj'.ref_list.head? = some kj0 := by
      rcases hcj with hsame | ⟨_, happ⟩
      · rw [hsame]
        exact hhj
      · rw [happ]
        exact head?_concat_of_head? _ _ _ hhj
    rw [hi'] at hki
    rw [hj'] at hkj
    cases hki
    cases hkj
    exact hG i j li lj hij hli hlj ki kj hhi hhj

theorem new_field_info_nameExpr (p : field_ref) : (new_field_info p).nameExpr = p.nameExpr :=
  rfl

theorem new_field_info_ref_list (p : field_ref) : (new_field_info p).ref_list = [] :=
  rfl

theorem fields_inv_new (is_duplicate_expr : Expr → Expr → Bool) (refs : List field_ref)
    (st : field_state) (k : Nat) (p : field_ref) (ds : List Diag) (ne : Bool)
    (hp : refs[k]? = some p)
    (h : fields_inv is_duplicate_expr refs k st)
    (hfind : st.field_info_list.findIdx?
      (fun li => is_duplicate_expr li.nameExpr p.nameExpr) = none) :
    fields_inv is_duplicate_expr refs (k + 1)
      { field_info_list :=
          st.field_info_list ++ [record_ref is_duplicate_expr p k (new_field_info p)]
        info := st.info ++ [st.field_info_list.length]
        diags := ds
        no_errors := ne } := by
  obtain ⟨hA, hB, hC, hD, hE, hF, hG⟩ := h
  have hlt : ∀ (idx : Nat) (l : field_info), st.field_info_list[idx]? = some l →
      ∀ j ∈ l.ref_list, j < k := by
    intro idx l hl j hj
    have h1 := (List.getElem?_eq_some.mp (hC idx l hl j hj)).1
    omega
  have hnone : ∀ x ∈ st.field_info_list, is_duplicate_expr x.nameExpr p.nameExpr = false := by
    intro x hx
    have := List.findIdx?_eq_none_iff.mp hfind x hx
    simpa using this
  have hname0 : (record_ref is_duplicate_expr p k (new_field_info p)).nameExpr = p.nameExpr := by
    rw [record_ref_nameExpr, new_field_info_nameExpr]
  have hrefs0 : (record_ref is_duplicate_expr p k (new_field_info p)).ref_list = [k] := by
    rw [record_ref_ref_list, new_field_info_ref_list]
    rfl
  refine ⟨?_, ?_, ?_, ?_, ?_, ?_, ?_⟩
  · simp [hA]
  · intro j idx hj
    simp only at hj ⊢
    rcases getElem?_concat_cases _ _ _ _ hj with ⟨_, hj'⟩ | ⟨hjk, hidx⟩
    · obtain ⟨l, q, hl, hq, hmem, hname⟩ := hB j idx hj'
      exact ⟨l, q, getElem?_concat_of_lt _ _ _ _ hl, hq, hmem, hname⟩
    · rw [hA] at hjk
      subst hjk
      subst hidx
      refine ⟨_, p, getElem?_concat_length _ _, hp, ?_, Or.inl hname0⟩
      rw [hrefs0]
      simp
  · intro idx l' hl' j hj
    simp only at hl' ⊢
    rcases getElem?_concat_cases _ _ _ _ hl' with ⟨_, hl⟩ | ⟨hidx, hnew⟩
    · exact getElem?_concat_of_lt _ _ _ _ (hC idx l' hl j hj)
    · rw [hnew, hrefs0, List.mem_singleton] at hj
      rw [hj, hidx, ← hA]
      exact getElem?_concat_length _ _
  · intro l' hl'
    simp only at hl'
    rcases List.mem_append.mp hl' with hl | hl
    · exact hD l' hl
    · rw [List.mem_singleton] at hl
      rw [hl, hrefs0]
      exact List.pairwise_singleton _ _
  · simp only
    rw [List.map_append, List.pairwise_append]
    refine ⟨hE, by simp, ?_⟩
    intro a ha b hb
    simp only [List.map_cons, List.map_nil, List.mem_singleton] at hb
    obtain ⟨x, hx, rfl⟩ := List.mem_map.mp ha
    rw [hb, hname0]
    exact hnone x hx
  · intro idx l' hl'
    simp only at hl'
    rcases getElem?_concat_cases _ _ _ _ hl' with ⟨_, hl⟩ | ⟨_, hnew⟩
    · exact hF idx l' hl
    · refine ⟨k, p, ?_, hp, by rw [hnew]; exact hname0⟩
      rw [hnew, hrefs0]
      rfl
  · intro i j li lj hij hli hlj ki kj hki hkj
    simp only at hli hlj
    rcases getElem?_concat_cases _ _ _ _ hlj with ⟨_, hlj'⟩ | ⟨hjlen, hnew⟩
    · rcases getElem?_concat_cases _ _ _ _ hli with ⟨_, hli'⟩ | ⟨hilen, _⟩
      · exact hG i j li lj hij hli' hlj' ki kj hki hkj
      · have := (List.getElem?_eq_some.mp hlj').1
        omega
    · rcases getElem?_concat_cases _ _ _ _ hli with ⟨_, hli'⟩ | ⟨hilen, _⟩
      · rw [hnew, hrefs0] at hkj
        cases hkj
        exact hlt i li hli' ki (List.mem_of_mem_head? hki)
      · omega

theorem fields_inv_step (is_duplicate_expr : Expr → Expr → Bool) (refs : List field_ref)
    (st : field_state) (k : Nat) (p : field_ref) (hp : refs[k]? = some p)
    (h : fields_inv is_duplicate_expr refs k st) :
    fields_inv is_duplicate_expr refs (k + 1) (visit_field_ref is_duplicate_expr st (k, p)) := by
  unfold visit_field_ref
  simp only
  cases hfind : st.field_info_list.findIdx?
      (fun li => is_duplicate_expr li.nameExpr p.nameExpr) with
  | some idx0 => exact fields_inv_found is_duplicate_expr refs st k idx0 p hp h hfind
  | none => exact fields_inv_new is_duplicate_expr refs st k p _ _ hp h hfind

/-- The invariant `fields_inv` holds after the first loop of
`check_field_ref_list`. -/
theorem collect_fields_inv (is_duplicate_expr : Expr → Expr → Bool) (refs : List field_ref) :
    fields_inv is_duplicate_expr refs refs.length (collect_fields is_duplicate_expr refs) :=
  collect_fields_invariant_indexed is_duplicate_expr refs (fields_inv is_duplicate_expr refs)
    (fields_inv_init is_duplicate_expr refs)
    (fun st k p hp h => fields_inv_step is_duplicate_expr refs st k p hp h)

theorem pairwise_map_getElem? {α β : Type} (R : β → β → Prop) (g : α → β) (l : List α)
    (h : (l.map g).Pairwise R) (i j : Nat) (a b : α) (hij : i < j) (ha : l[i]? = some a)
    (hb : l[j]? = some b) : R (g a) (g b) := by
  obtain ⟨hi, rfl⟩ := List.getElem?_eq_some.mp ha
  obtain ⟨hj, rfl⟩ := List.getElem?_eq_some.mp hb
  have := List.pairwise_iff_getElem.mp h i j (by simpa using hi) (by simpa using hj) hij
  simpa using this

/-- A descriptor returned by `check_field_ref_list` is the descriptor built by the
first loop at the same position, up to `vecinfo`. -/
theorem check_field_ref_list_descriptor (is_duplicate_expr : Expr → Expr → Bool)
    (find_word : String → String → Option Nat) (inspect_field_type : Expr → vectorization_info)
    (li : loop_info_struct) (refs : List field_ref) (i : Nat) (l : field_info)
    (h : (check_field_ref_list is_duplicate_expr find_word inspect_field_type li
      refs).field_info_list[i]? = some l) :
    ∃ l0, (collect_fields is_duplicate_expr refs).field_info_list[i]? = some l0 ∧
      l.nameExpr = l0.nameExpr ∧ l.ref_list = l0.ref_list ∧ l.dir_list = l0.dir_list := by
  unfold check_field_ref_list at h
  simp only [List.getElem?_map] at h
  cases hl0 : (collect_fields is_duplicate_expr refs).field_info_list[i]? with
  | none => rw [hl0] at h; cases h
  | some l0 =>
    rw [hl0] at h
    simp only [Option.map_some', Option.some.injEq] at h
    subst h
    exact ⟨l0, rfl, rfl, rfl, rfl⟩

theorem check_field_ref_list_descriptor_of (is_duplicate_expr : Expr → Expr → Bool)
    (find_word : String → String → Option Nat) (inspect_field_type : Expr → vectorization_info)
    (li : loop_info_struct) (refs : List field_ref) (i : Nat) (l0 : field_info)
    (h : (collect_fields is_duplicate_expr refs).field_info_list[i]? = some l0) :
    ∃ l, (check_field_ref_list is_duplicate_expr find_word inspect_field_type li
      refs).field_info_list[i]? = some l ∧
      l.nameExpr = l0.nameExpr ∧ l.ref_list = l0.ref_list ∧ l.dir_list = l0.dir_list := by
  unfold check_field_ref_list
  simp only [List.getElem?_map, h, Option.map_some']
  exact ⟨_, rfl, rfl, rfl, rfl⟩

theorem check_field_ref_list_info (is_duplicate_expr : Expr → Expr → Bool)
    (find_word : String → String → Option Nat) (inspect_field_type : Expr → vectorization_info)
    (li : loop_info_struct) (refs : List field_ref) :
    (check_field_ref_list is_duplicate_expr find_word inspect_field_type li refs).info =
      (collect_fields is_duplicate_expr refs).info :=
  rfl

theorem fields_inv_name_mem (is_duplicate_expr : Expr → Expr → Bool) (refs : List field_ref)
    (n : Nat) (st : field_state) (h : fields_inv is_duplicate_expr refs n st) (idx : Nat)
    (l : field_info) (hl : st.field_info_list[idx]? = some l) :
    l.nameExpr ∈ refs.map (fun p => p.nameExpr) := by
  obtain ⟨k0, p0, _, hp0, hname⟩ := h.2.2.2.2.2.1 idx l hl
  rw [hname]
  exact List.mem_map.mpr ⟨p0, List.mem_iff_getElem?.mpr ⟨k0, hp0⟩, rfl⟩

theorem fields_inv_classes_distinct (is_duplicate_expr : Expr → Expr → Bool)
    (refs : List field_ref) (n : Nat) (st : field_state)
    (hsymm : ∀ a ∈ refs.map (fun p => p.nameExpr), ∀ b ∈ refs.map (fun p => p.nameExpr),
      is_duplicate_expr a b = true → is_duplicate_expr b a = true)
    (h : fields_inv is_duplicate_expr refs n st) (i j : Nat) (li lj : field_info)
    (hli : st.field_info_list[i]? = some li) (hlj : st.field_info_list[j]? = some lj)
    (hdup : is_duplicate_expr li.nameExpr lj.nameExpr = true) : i = j := by
  have hE := h.2.2.2.2.1
  have hmi := fields_inv_name_mem is_duplicate_expr refs n st h i li hli
  have hmj := fields_inv_name_mem is_duplicate_expr refs n st h j lj hlj
  rcases Nat.lt_trichotomy i j with hij | hij | hij
  · have := pairwise_map_getElem? _ _ _ hE i j li lj hij hli hlj
    simp only at this
    rw [this] at hdup
    cases hdup
  · exact hij
  · have := pairwise_map_getElem? _ _ _ hE j i lj li hij hlj hli
    simp only at this
    rw [hsymm _ hmi _ hmj hdup] at this
    cases this

theorem collect_fields_one_per_class (is_duplicate_expr : Expr → Expr → Bool)
    (refs : List field_ref)
    (hrefl : ∀ a ∈ refs.map (fun p => p.nameExpr), is_duplicate_expr a a = true)
    (hsymm : ∀ a ∈ refs.map (fun p => p.nameExpr), ∀ b ∈ refs.map (fun p => p.nameExpr),
      is_duplicate_expr a b = true → is_duplicate_expr b a = true)
    (htrans : ∀ a ∈ refs.map (fun p => p.nameExpr), ∀ b ∈ refs.map (fun p => p.nameExpr),
      ∀ c ∈ refs.map (fun p => p.nameExpr),
      is_duplicate_expr a b = true → is_duplicate_expr b c = true →
        is_duplicate_expr a c = true) :
    one_descriptor_per_class is_duplicate_expr refs
      (collect_fields is_duplicate_expr refs).field_info_list
      (collect_fields is_duplicate_expr refs).info := by
  have hinv := collect_fields_inv is_duplicate_expr refs
  have hdistinct := fields_inv_classes_distinct is_duplicate_expr refs _ _ hsymm hinv
  have hnames := fields_inv_name_mem is_duplicate_expr refs _ _ hinv
  obtain ⟨hA, hB, hC, hD, hE, hF, hG⟩ := hinv
  have hmemref : ∀ (k : Nat) (p : field_ref), refs[k]? = some p →
      p.nameExpr ∈ refs.map (fun p => p.nameExpr) :=
    fun k p hp => List.mem_map.mpr ⟨p, List.mem_iff_getElem?.mpr ⟨k, hp⟩, rfl⟩
  have hinfo : ∀ (k : Nat) (p : field_ref), refs[k]? = some p →
      ∃ idx l, (collect_fields is_duplicate_expr refs).info[k]? = some idx ∧
        (collect_fields is_duplicate_expr refs).field_info_list[idx]? = some l ∧
        k ∈ l.ref_list ∧ is_duplicate_expr l.nameExpr p.nameExpr = true := by
    intro k p hp
    have hk : k < (collect_fields is_duplicate_expr refs).info.length := by
      rw [hA]
      exact (List.getElem?_eq_some.mp hp).1
    obtain ⟨l, q, hl, hq, hmem, hname⟩ := hB k _ (List.getElem?_eq_getElem hk)
    rw [hp] at hq
    cases hq
    refine ⟨_, l, List.getElem?_eq_getElem hk, hl, hmem, ?_⟩
    rcases hname with heq | hdup
    · rw [heq]
      exact hrefl _ (hmemref k p hp)
    · exact hdup
  refine ⟨?_, ?_, ?_, hG⟩
  · intro k p hp
    obtain ⟨idx, l, hidx, hl, hmem, hdup⟩ := hinfo k p hp
    refine ⟨idx, l, hidx, hl, hdup, ?_, ?_⟩
    · exact List.count_eq_one_of_mem
        ((hD l (List.mem_iff_getElem?.mpr ⟨idx, hl⟩)).imp (fun h => Nat.ne_of_lt h)) hmem
    · intro j l' hl' hk
      have := hC j l' hl' k hk
      rw [hidx] at this
      cases this
      rfl
  · intro idx l hl
    refine ⟨hD l (List.mem_iff_getElem?.mpr ⟨idx, hl⟩), ?_, hF idx l hl⟩
    intro k
    constructor
    · intro hk
      obtain ⟨l1, p, hl1, hp, _, hname⟩ := hB k idx (hC idx l hl k hk)
      rw [hl] at hl1
      cases hl1
      refine ⟨p, hp, ?_⟩
      rcases hname with heq | hdup
      · rw [heq]
        exact hrefl _ (hmemref k p hp)
      · exact hdup
    · rintro ⟨p, hp, hdup⟩
      obtain ⟨idx1, l1, _, hl1, hmem1, hdup1⟩ := hinfo k p hp
      have h1 : is_duplicate_expr l.nameExpr l1.nameExpr = true :=
        htrans _ (hnames idx l hl) _ (hmemref k p hp) _ (hnames idx1 l1 hl1) hdup
          (hsymm _ (hnames idx1 l1 hl1) _ (hmemref k p hp) hdup1)
      have := hdistinct idx idx1 l l1 hl hl1 h1
      subst this
      rw [hl] at hl1
      cases hl1
      exact hmem1
  · exact hdistinct

theorem one_descriptor_per_class_map (is_duplicate_expr : Expr → Expr → Bool)
    (refs : List field_ref) (fil : List field_info) (info : List Nat)
    (g : field_info → field_info) (hn : ∀ l, (g l).nameExpr = l.nameExpr)
    (hr : ∀ l, (g l).ref_list = l.ref_list)
    (h : one_descriptor_per_class is_duplicate_expr refs fil info) :
    one_descriptor_per_class is_duplicate_expr refs (fil.map g) info := by
  have hback : ∀ (i : Nat) (l' : field_info), (fil.map g)[i]? = some l' →
      ∃ l, fil[i]? = some l ∧ l'.nameExpr = l.nameExpr ∧ l'.ref_list = l.ref_list := by
    intro i l' hl'
    rw [List.getElem?_map] at hl'
    cases hl : fil[i]? with
    | none => rw [hl] at hl'; cases hl'
    | some l =>
      rw [hl] at hl'
      simp only [Option.map_some', Option.some.injEq] at hl'
      subst hl'
      exact ⟨l, rfl, hn l, hr l⟩
  have hforth : ∀ (i : Nat) (l : field_info), fil[i]? = some l →
      (fil.map g)[i]? = some (g l) := by
    intro i l hl
    rw [List.getElem?_map, hl]
    rfl
  obtain ⟨h1, h2, h3, h4⟩ := h
  refine ⟨?_, ?_, ?_, ?_⟩
  · intro k p hp
    obtain ⟨idx, l, hidx, hl, hdup, hcount, huniq⟩ := h1 k p hp
    refine ⟨idx, g l, hidx, hforth idx l hl, by rw [hn]; exact hdup, by rw [hr]; exact hcount, ?_⟩
    intro j l' hl' hk
    obtain ⟨l0, hl0, _, hr0⟩ := hback j l' hl'
    rw [hr0] at hk
    exact huniq j l0 hl0 hk
  · intro idx l' hl'
    obtain ⟨l0, hl0, hn0, hr0⟩ := hback idx l' hl'
    rw [hn0, hr0]
    exact h2 idx l0 hl0
  · intro i j li' lj' hli' hlj' hdup
    obtain ⟨li, hli, hni, _⟩ := hback i li' hli'
    obtain ⟨lj, hlj, hnj, _⟩ := hback j lj' hlj'
    rw [hni, hnj] at hdup
    exact h3 i j li lj hli hlj hdup
  · intro i j li' lj' hij hli' hlj' ki kj hki hkj
    obtain ⟨li, hli, _, hri⟩ := hback i li' hli'
    obtain ⟨lj, hlj, _, hrj⟩ := hback j lj' hlj'
    rw [hri] at hki
    rw [hrj] at hkj
    exact h4 i j li lj hij hli hlj ki kj hki hkj

/-- C15: if `is_duplicate_expr` is reflexive, symmetric and transitive on the name
expressions of `field_ref_list`, then after `check_field_ref_list` the list
`field_info_list` holds exactly one descriptor for every class of name
expressions that occurs, in the order of the first occurrences; the `info` pointer
of every reference is the descriptor of its class; and every reference is listed,
once, in the `ref_list` of that descriptor and of no other. -/
theorem field_info_list_one_per_class (is_duplicate_expr : Expr → Expr → Bool)
    (find_word : String → String → Option Nat) (inspect_field_type : Expr → vectorization_info)
    (li : loop_info_struct) (refs : List field_ref)
    (hrefl : ∀ a ∈ refs.map (fun p => p.nameExpr), is_duplicate_expr a a = true)
    (hsymm : ∀ a ∈ refs.map (fun p => p.nameExpr), ∀ b ∈ refs.map (fun p => p.nameExpr),
      is_duplicate_expr a b = true → is_duplicate_expr b a = true)
    (htrans : ∀ a ∈ refs.map (fun p => p.nameExpr), ∀ b ∈ refs.map (fun p => p.nameExpr),
      ∀ c ∈ refs.map (fun p => p.nameExpr),
      is_duplicate_expr a b = true → is_duplicate_expr b c = true →
        is_duplicate_expr a c = true) :
    one_descriptor_per_class is_duplicate_expr refs
      (check_field_ref_list is_duplicate_expr find_word inspect_field_type li
        refs).field_info_list
      (check_field_ref_list is_duplicate_expr find_word inspect_field_type li refs).info := by
  unfold check_field_ref_list
  exact one_descriptor_per_class_map is_duplicate_expr refs _ _ _ (fun _ => rfl) (fun _ => rfl)
    (collect_fields_one_per_class is_duplicate_expr refs hrefl hsymm htrans)

/-- Witness for C15: the loop `f[X] = f[X+e_x]`, whose two references name the
same field through two expressions. -/
theorem field_info_list_one_per_class_witness :
    one_descriptor_per_class ex_is_duplicate_expr [ex_write_ref, ex_neighbour_ref]
      (check_field_ref_list ex_is_duplicate_expr ex_find_word ex_inspect_field_type
        ⟨Parity.all, "ALL", false, "", false⟩ [ex_write_ref, ex_neighbour_ref]).field_info_list
      (check_field_ref_list ex_is_duplicate_expr ex_find_word ex_inspect_field_type
        ⟨Parity.all, "ALL", false, "", false⟩ [ex_write_ref, ex_neighbour_ref]).info :=
  field_info_list_one_per_class ex_is_duplicate_expr ex_find_word ex_inspect_field_type
    ⟨Parity.all, "ALL", false, "", false⟩ [ex_write_ref, ex_neighbour_ref]
    (fun a _ => by simp [ex_is_duplicate_expr])
    (fun a _ b _ h => by
      simp only [ex_is_duplicate_expr, beq_iff_eq] at h ⊢
      exact h.symm)
    (fun a _ b _ c _ h1 h2 => by
      simp only [ex_is_duplicate_expr, beq_iff_eq] at h1 h2 ⊢
      exact h1.trans h2)

/-! ### The direction entries built by `check_field_ref_list` -/

theorem update_dir_list_mem (is_duplicate_expr : Expr → Expr → Bool) (p : field_ref) (k : Nat)
    (ds : List dir_ptr) (x : dir_ptr) (h : x ∈ update_dir_list is_duplicate_expr p k ds) :
    x ∈ ds ∨
    (∃ y ∈ ds, same_direction is_duplicate_expr p y = true ∧
      x = { y with count := y.count + (if p.is_offset = false then 1 else 0),
                   ref_list := y.ref_list ++ [k] }) ∨
    (x = new_dir_ptr p k ∧ ∀ y ∈ ds, same_direction is_duplicate_expr p y = false) := by
  induction ds with
  | nil =>
    simp only [update_dir_list, List.mem_singleton] at h
    exact Or.inr (Or.inr ⟨h, fun y hy => by cases hy⟩)
  | cons d t ih =>
    unfold update_dir_list at h
    by_cases hsame : same_direction is_duplicate_expr p d = true
    · rw [if_pos hsame] at h
      rcases List.mem_cons.mp h with h | h
      · exact Or.inr (Or.inl ⟨d, List.mem_cons_self _ _, hsame, h⟩)
      · exact Or.inl (List.mem_cons_of_mem _ h)
    · rw [if_neg hsame] at h
      rcases List.mem_cons.mp h with h | h
      · exact Or.inl (by rw [h]; exact List.mem_cons_self _ _)
      · rcases ih h with h1 | ⟨y, hy, hs, hx⟩ | ⟨hx, hall⟩
        · exact Or.inl (List.mem_cons_of_mem _ h1)
        · exact Or.inr (Or.inl ⟨y, List.mem_cons_of_mem _ hy, hs, hx⟩)
        · refine Or.inr (Or.inr ⟨hx, ?_⟩)
          intro y hy
          rcases List.mem_cons.mp hy with hy | hy
          · rw [hy]
            simpa using hsame
          · exact hall y hy

theorem update_dir_list_perm (is_duplicate_expr : Expr → Expr → Bool) (p : field_ref) (k : Nat)
    (ds : List dir_ptr) :
    ((update_dir_list is_duplicate_expr p k ds).flatMap (fun dp => dp.ref_list)).Perm
      (ds.flatMap (fun dp => dp.ref_list) ++ [k]) := by
  induction ds with
  | nil => simp [update_dir_list, new_dir_ptr]
  | cons d t ih =>
    unfold update_dir_list
    by_cases hsame : same_direction is_duplicate_expr p d = true
    · rw [if_pos hsame]
      simp only [List.flatMap_cons, List.append_assoc]
      exact List.Perm.append_left _ List.perm_append_comm
    · rw [if_neg hsame]
      simp only [List.flatMap_cons, List.append_assoc]
      exact List.Perm.append_left _ ih

theorem update_dir_list_pairwise (is_duplicate_expr : Expr → Expr → Bool) (p : field_ref)
    (k : Nat) (ds : List dir_ptr) (h : ds.Pairwise (fun a b => ¬ same_constant_label a b)) :
    (update_dir_list is_duplicate_expr p k ds).Pairwise
      (fun a b => ¬ same_constant_label a b) := by
  induction ds with
  | nil => simp [update_dir_list]
  | cons d t ih =>
    rw [List.pairwise_cons] at h
    obtain ⟨hd, ht⟩ := h
    unfold update_dir_list
    by_cases hsame : same_direction is_duplicate_expr p d = true
    · rw [if_pos hsame, List.pairwise_cons]
      exact ⟨fun x hx => hd x hx, ht⟩
    · rw [if_neg hsame, List.pairwise_cons]
      refine ⟨?_, ih ht⟩
      intro x hx
      rcases update_dir_list_mem _ _ _ _ _ hx with h1 | ⟨y, hy, _, rfl⟩ | ⟨rfl, _⟩
      · exact hd x h1
      · exact hd y hy
      · rintro ⟨hdc, hpc, hcv⟩
        apply hsame
        simp only [new_dir_ptr] at hpc hcv
        simp [same_direction, hpc, hdc, hcv]

theorem deref_concat (refs : List field_ref) (rl : List Nat) (k : Nat) (p : field_ref)
    (hp : refs[k]? = some p) : deref refs (rl ++ [k]) = deref refs rl ++ [p] := by
  simp [deref, List.filterMap_append, hp]

theorem dir_entries_inv_new (refs : List field_ref) (p : field_ref) :
    dir_entries_inv refs (new_field_info p) := by
  refine ⟨?_, ?_, ?_, ?_, ?_⟩
  · exact List.Perm.refl _
  · intro dp hdp
    cases hdp
  · intro dp hdp
    cases hdp
  · intro dp hdp
    cases hdp
  · exact List.Pairwise.nil

theorem dir_entries_inv_record (is_duplicate_expr : Expr → Expr → Bool) (refs : List field_ref)
    (k : Nat) (p : field_ref) (fi : field_info) (hp : refs[k]? = some p)
    (h : dir_entries_inv refs fi) :
    dir_entries_inv refs (record_ref is_duplicate_expr p k fi) := by
  obtain ⟨h1, h2, h3, h4, h5⟩ := h
  have hdirk : is_direction_at refs k = p.is_direction := by
    simp [is_direction_at, hp]
  unfold dir_entries_inv
  rw [record_ref_ref_list, record_ref_dir_list, List.filter_append]
  by_cases hdir : p.is_direction = true
  · rw [if_pos hdir]
    have hfk : List.filter (fun k => is_direction_at refs k) [k] = [k] := by
      simp [List.filter, hdirk, hdir]
    rw [hfk]
    refine ⟨?_, ?_, ?_, ?_, ?_⟩
    · exact (update_dir_list_perm is_duplicate_expr p k fi.dir_list).trans
        (List.Perm.append_right _ h1)
    · intro dp hdp
      rcases update_dir_list_mem _ _ _ _ _ hdp with hm | ⟨y, _, _, rfl⟩ | ⟨rfl, _⟩
      · exact h2 dp hm
      · simp
      · simp [new_dir_ptr]
    · intro dp hdp
      rcases update_dir_list_mem _ _ _ _ _ hdp with hm | ⟨y, hy, _, rfl⟩ | ⟨rfl, _⟩
      · exact h3 dp hm
      · simp only
        rw [deref_concat refs _ k p hp, List.countP_append, ← h3 y hy]
        cases hoff : p.is_offset <;> simp [List.countP_cons, hoff]
      · simp only [new_dir_ptr]
        have : deref refs [k] = [p] := by simp [deref, hp]
        rw [this]
        cases hoff : p.is_offset <;> simp [List.countP_cons, hoff]
    · intro dp hdp j hj q hq hqc
      rcases update_dir_list_mem _ _ _ _ _ hdp with hm | ⟨y, hy, hs, rfl⟩ | ⟨rfl, _⟩
      · exact h4 dp hm j hj q hq hqc
      · simp only at hj ⊢
        rcases List.mem_append.mp hj with hj | hj
        · exact h4 y hy j hj q hq hqc
        · rw [List.mem_singleton] at hj
          subst hj
          rw [hp] at hq
          cases hq
          simp only [same_direction, hqc, if_true, Bool.and_eq_true, beq_iff_eq] at hs
          exact hs
      · simp only [new_dir_ptr, List.mem_singleton] at hj ⊢
        subst hj
        rw [hp] at hq
        cases hq
        exact ⟨hqc, rfl⟩
    · exact update_dir_list_pairwise is_duplicate_expr p k fi.dir_list h5
  · rw [if_neg hdir]
    have hfk : List.filter (fun k => is_direction_at refs k) [k] = [] := by
      simp [List.filter, hdirk, hdir]
    rw [hfk, List.append_nil]
    exact ⟨h1, h2, h3, h4, h5⟩

/-- The invariant `dir_entries_inv` holds for every descriptor after the first
loop of `check_field_ref_list`. -/
theorem collect_fields_dir_entries (is_duplicate_expr : Expr → Expr → Bool)
    (refs : List field_ref) :
    ∀ l ∈ (collect_fields is_duplicate_expr refs).field_info_list, dir_entries_inv refs l :=
  collect_fields_forall is_duplicate_expr refs (dir_entries_inv refs)
    (fun k p hp => dir_entries_inv_record is_duplicate_expr refs k p _ hp
      (dir_entries_inv_new refs p))
    (fun k p fi hp h => dir_entries_inv_record is_duplicate_expr refs k p fi hp h)

theorem flatMap_nodup_unique {α β : Type} (f : α → List β) (l : List α)
    (h : (l.flatMap f).Nodup) (i j : Nat) (a b : α) (x : β) (ha : l[i]? = some a)
    (hb : l[j]? = some b) (hxa : x ∈ f a) (hxb : x ∈ f b) : i = j := by
  have hpw := (List.nodup_flatMap.mp h).2
  obtain ⟨hi, rfl⟩ := List.getElem?_eq_some.mp ha
  obtain ⟨hj, rfl⟩ := List.getElem?_eq_some.mp hb
  rcases Nat.lt_trichotomy i j with hij | hij | hij
  · exact absurd hxb (fun hx => (List.pairwise_iff_getElem.mp hpw i j hi hj hij) hxa hx)
  · exact hij
  · exact absurd hxa (fun hx => (List.pairwise_iff_getElem.mp hpw j i hj hi hij) hxb hx)

theorem flatMap_eq_singleton {α β : Type} (f : α → List β) (l : List α) (x : β)
    (hne : ∀ a ∈ l, f a ≠ []) (h : l.flatMap f = [x]) : ∃ a, l = [a] ∧ f a = [x] := by
  cases l with
  | nil => simp at h
  | cons a t =>
    rw [List.flatMap_cons] at h
    have ha := hne a (List.mem_cons_self _ _)
    cases hfa : f a with
    | nil => exact absurd hfa ha
    | cons y ys =>
      rw [hfa] at h
      simp only [List.cons_append, List.cons.injEq, List.append_eq_nil] at h
      obtain ⟨hy, hys, ht⟩ := h
      cases t with
      | nil => exact ⟨a, rfl, by rw [hfa, hy, hys]⟩
      | cons b t' =>
        exfalso
        rw [List.flatMap_cons, List.append_eq_nil] at ht
        exact hne b (List.mem_cons_of_mem _ (List.mem_cons_self _ _)) ht.1

/-- A descriptor returned by `check_field_ref_list` has the `ref_list` and the
`dir_list` of a descriptor built by the first loop, which is at some position of
the list built there. -/
theorem check_field_ref_list_mem (is_duplicate_expr : Expr → Expr → Bool)
    (find_word : String → String → Option Nat) (inspect_field_type : Expr → vectorization_info)
    (li : loop_info_struct) (refs : List field_ref) (l : field_info)
    (h : l ∈ (check_field_ref_list is_duplicate_expr find_word inspect_field_type li
      refs).field_info_list) :
    ∃ l0 ∈ (collect_fields is_duplicate_expr refs).field_info_list,
      l.ref_list = l0.ref_list ∧ l.dir_list = l0.dir_list := by
  unfold check_field_ref_list at h
  simp only [List.mem_map] at h
  obtain ⟨l0, hl0, rfl⟩ := h
  exact ⟨l0, hl0, rfl, rfl⟩

theorem dir_entries_exactly_one (refs : List field_ref) (l : field_info)
    (hinv : dir_entries_inv refs l) (hnodup : l.ref_list.Nodup) (k : Nat) (p : field_ref)
    (hk : k ∈ l.ref_list) (hp : refs[k]? = some p) (hdir : p.is_direction = true) :
    in_exactly_one_entry l.dir_list k := by
  obtain ⟨h1, _, _, _, _⟩ := hinv
  have hnd : (l.dir_list.flatMap (fun dp => dp.ref_list)).Nodup :=
    h1.nodup_iff.mpr (hnodup.filter _)
  have hmem : k ∈ l.dir_list.flatMap (fun dp => dp.ref_list) := by
    rw [h1.mem_iff, List.mem_filter]
    exact ⟨hk, by simp [is_direction_at, hp, hdir]⟩
  obtain ⟨dp, hdp, hkdp⟩ := List.mem_flatMap.mp hmem
  obtain ⟨i, hi⟩ := List.mem_iff_getElem?.mp hdp
  refine ⟨i, dp, hi, ?_, ?_⟩
  · exact List.count_eq_one_of_mem ((List.nodup_flatMap.mp hnd).1 dp hdp) hkdp
  · intro j dp' hj hk'
    exact flatMap_nodup_unique (fun dp => dp.ref_list) l.dir_list hnd j i dp' dp k hj hi hk' hkdp

theorem dir_entries_single (refs : List field_ref) (l : field_info)
    (hinv : dir_entries_inv refs l) (k : Nat) (p : field_ref)
    (hl : l.ref_list = [k]) (hp : refs[k]? = some p) (hdir : p.is_direction = true)
    (hoff : p.is_offset = false) :
    ∃ dp, l.dir_list = [dp] ∧ dp.ref_list = [k] ∧ dp.count = 1 := by
  obtain ⟨h1, h2, h3, _, _⟩ := hinv
  have hfilter : l.ref_list.filter (fun k => is_direction_at refs k) = [k] := by
    rw [hl]
    simp [List.filter, is_direction_at, hp, hdir]
  rw [hfilter] at h1
  obtain ⟨dp, hds, hrl⟩ := flatMap_eq_singleton (fun dp => dp.ref_list) l.dir_list k h2
    (List.perm_singleton.mp h1)
  refine ⟨dp, hds, hrl, ?_⟩
  rw [h3 dp (by rw [hds]; exact List.mem_singleton_self _), hrl]
  simp [deref, hp, hoff]

/-- C16: after `check_field_ref_list`, for every field, every direction reference
of the field is in the `ref_list` of exactly one entry of the `dir_list` of the
field, the `count` of every entry is the number of its references that are not
offsets, and a field whose single reference is a neighbour reference, not an
offset, has exactly one direction entry, with that reference and count 1. -/
theorem dir_list_partitions_direction_refs (is_duplicate_expr : Expr → Expr → Bool)
    (find_word : String → String → Option Nat) (inspect_field_type : Expr → vectorization_info)
    (li : loop_info_struct) (refs : List field_ref) :
    ∀ l ∈ (check_field_ref_list is_duplicate_expr find_word inspect_field_type li
        refs).field_info_list,
      (∀ k ∈ l.ref_list, ∀ p, refs[k]? = some p → p.is_direction = true →
        in_exactly_one_entry l.dir_list k) ∧
      (∀ dp ∈ l.dir_list,
        dp.count = (deref refs dp.ref_list).countP (fun p => !p.is_offset)) ∧
      (∀ k p, l.ref_list = [k] → refs[k]? = some p → p.is_direction = true →
        p.is_offset = false → ∃ dp, l.dir_list = [dp] ∧ dp.ref_list = [k] ∧ dp.count = 1) := by
  intro l hl
  obtain ⟨l0, hl0, hrl, hdl⟩ :=
    check_field_ref_list_mem is_duplicate_expr find_word inspect_field_type li refs l hl
  have hinv0 := collect_fields_dir_entries is_duplicate_expr refs l0 hl0
  have hinv : dir_entries_inv refs l := by
    unfold dir_entries_inv
    rw [hrl, hdl]
    exact hinv0
  have hnodup : l.ref_list.Nodup := by
    rw [hrl]
    exact ((collect_fields_inv is_duplicate_expr refs).2.2.2.1 l0 hl0).imp
      (fun h => Nat.ne_of_lt h)
  exact ⟨fun k hk p hp hdir => dir_entries_exactly_one refs l hinv hnodup k p hk hp hdir,
    hinv.2.2.1, fun k p hk hp hdir hoff => dir_entries_single refs l hinv k p hk hp hdir hoff⟩

/-- Witness for C16: the descriptor of `c` for the loop `a[X] = b[X] + c[X+e_x]`. -/
theorem dir_list_partitions_direction_refs_witness :
    ex_field_c ∈ (check_field_ref_list ex_is_duplicate_expr ex_find_word
      ex_inspect_field_type ⟨Parity.all, "ALL", false, "", false⟩
      [ex_ref_a, ex_ref_b, ex_ref_c]).field_info_list ∧
    (∀ k ∈ ex_field_c.ref_list, ∀ p, [ex_ref_a, ex_ref_b, ex_ref_c][k]? = some p →
      p.is_direction = true → in_exactly_one_entry ex_field_c.dir_list k) ∧
    (∀ dp ∈ ex_field_c.dir_list,
      dp.count = (deref [ex_ref_a, ex_ref_b, ex_ref_c] dp.ref_list).countP
        (fun p => !p.is_offset)) ∧
    (∀ k p, ex_field_c.ref_list = [k] → [ex_ref_a, ex_ref_b, ex_ref_c][k]? = some p →
      p.is_direction = true → p.is_offset = false →
      ∃ dp, ex_field_c.dir_list = [dp] ∧ dp.ref_list = [k] ∧ dp.count = 1) :=
  ⟨by decide,
    dir_list_partitions_direction_refs ex_is_duplicate_expr ex_find_word ex_inspect_field_type
      ⟨Parity.all, "ALL", false, "", false⟩ [ex_ref_a, ex_ref_b, ex_ref_c] ex_field_c
      (by decide)⟩

/-! ### The labels of constant directions -/

theorem direction_label_injective (ops1 ops2 : String) (d1 d2 v1 v2 : Int)
    (hops1 : ops1 = "+" ∨ ops1 = "-") (hops2 : ops2 = "+" ∨ ops2 = "-")
    (hr1 : 0 ≤ d1 ∧ d1 < 50) (hr2 : 0 ≤ d2 ∧ d2 < 50)
    (hl1 : direction_label ops1 d1 = some v1) (hl2 : direction_label ops2 d2 = some v2) :
    v1 = v2 ↔ ops1 = ops2 ∧ d1 = d2 := by
  have hne : ("-" : String) ≠ "+" := by decide
  have hne2 : ("+" : String) ≠ "-" := by decide
  rcases hops1 with rfl | rfl <;> rcases hops2 with rfl | rfl <;>
    simp only [direction_label, if_true, if_neg hne, Option.some.injEq] at hl1 hl2 <;>
    subst hl1 <;> subst hl2
  · constructor
    · intro h
      exact ⟨rfl, by omega⟩
    · rintro ⟨_, h⟩
      omega
  · constructor
    · intro h
      omega
    · rintro ⟨h, _⟩
      exact absurd h hne2
  · constructor
    · intro h
      omega
    · rintro ⟨h, _⟩
      exact absurd h hne
  · constructor
    · intro h
      exact ⟨rfl, by omega⟩
    · rintro ⟨_, h⟩
      omega

theorem dir_entries_mem_entry (refs : List field_ref) (l : field_info)
    (hinv : dir_entries_inv refs l) (k : Nat) (p : field_ref)
    (hk : k ∈ l.ref_list) (hp : refs[k]? = some p) (hdir : p.is_direction = true) :
    ∃ (i : Nat) (dp : dir_ptr), l.dir_list[i]? = some dp ∧ k ∈ dp.ref_list := by
  have hmem : k ∈ l.dir_list.flatMap (fun dp => dp.ref_list) := by
    rw [hinv.1.mem_iff, List.mem_filter]
    exact ⟨hk, by simp [is_direction_at, hp, hdir]⟩
  obtain ⟨dp, hdp, hkdp⟩ := List.mem_flatMap.mp hmem
  obtain ⟨i, hi⟩ := List.mem_iff_getElem?.mp hdp
  exact ⟨i, dp, hi, hkdp⟩

/-- Two constant-direction references of a field are in the same direction entry
exactly when their labels are equal. -/
theorem dir_entries_same_entry_iff (refs : List field_ref) (l : field_info)
    (hinv : dir_entries_inv refs l) (k1 k2 : Nat) (p1 p2 : field_ref)
    (hk1 : k1 ∈ l.ref_list) (hk2 : k2 ∈ l.ref_list)
    (hp1 : refs[k1]? = some p1) (hp2 : refs[k2]? = some p2)
    (hd1 : p1.is_direction = true) (hd2 : p2.is_direction = true)
    (hc1 : p1.is_constant_direction = true) (hc2 : p2.is_constant_direction = true) :
    (∃ (i : Nat) (dp : dir_ptr), l.dir_list[i]? = some dp ∧ k1 ∈ dp.ref_list ∧ k2 ∈ dp.ref_list) ↔
      p1.constant_value = p2.constant_value := by
  have h4 := hinv.2.2.2.1
  have h5 := hinv.2.2.2.2
  constructor
  · rintro ⟨i, dp, hi, hm1, hm2⟩
    have hdp : dp ∈ l.dir_list := List.mem_iff_getElem?.mpr ⟨i, hi⟩
    rw [← (h4 dp hdp k1 hm1 p1 hp1 hc1).2, ← (h4 dp hdp k2 hm2 p2 hp2 hc2).2]
  · intro heq
    obtain ⟨i, dpi, hi, hm1⟩ := dir_entries_mem_entry refs l hinv k1 p1 hk1 hp1 hd1
    obtain ⟨j, dpj, hj, hm2⟩ := dir_entries_mem_entry refs l hinv k2 p2 hk2 hp2 hd2
    have hci := h4 dpi (List.mem_iff_getElem?.mpr ⟨i, hi⟩) k1 hm1 p1 hp1 hc1
    have hcj := h4 dpj (List.mem_iff_getElem?.mpr ⟨j, hj⟩) k2 hm2 p2 hp2 hc2
    have hsame : same_constant_label dpi dpj := ⟨hci.1, hcj.1, by rw [hci.2, hcj.2, heq]⟩
    have hsame2 : same_constant_label dpj dpi := ⟨hcj.1, hci.1, hsame.2.2.symm⟩
    obtain ⟨hil, rfl⟩ := List.getElem?_eq_some.mp hi
    obtain ⟨hjl, rfl⟩ := List.getElem?_eq_some.mp hj
    rcases Nat.lt_trichotomy i j with hij | hij | hij
    · exact absurd hsame (List.pairwise_iff_getElem.mp h5 i j hil hjl hij)
    · subst hij
      exact ⟨i, _, hi, hm1, hm2⟩
    · exact absurd hsame2 (List.pairwise_iff_getElem.mp h5 j i hjl hil hij)

/-! ### `handle_field_X_expr` -/

theorem report_field_X_list (st : field_X_state) (d : Diag) :
    (report_field_X st d).field_ref_list = st.field_ref_list :=
  rfl

theorem parity_branch_list (env : field_X_environment) (is_X : Bool) (lfe : field_ref)
    (st st' : field_X_state) (h : parity_branch env is_X lfe st = some st') :
    st'.field_ref_list = st.field_ref_list := by
  unfold parity_branch at h
  split at h
  · split at h
    · cases h
    · split at h <;> cases h <;> rfl
  · cases h
    rfl

theorem direction_prelude_list (env : field_X_environment) (is_assign is_func_arg : Bool)
    (lfe lfe' : field_ref) (st st' : field_X_state)
    (h : direction_prelude env is_assign is_func_arg lfe st = some (lfe', st')) :
    st'.field_ref_list = st.field_ref_list ∧ lfe'.fullExpr = lfe.fullExpr := by
  unfold direction_prelude at h
  simp only at h
  split at h
  · cases h
    refine ⟨?_, rfl⟩
    split <;> split <;> rfl
  · cases h

theorem offset_branch_list (env : field_X_environment) (lfe : field_ref) (st : field_X_state) :
    (offset_branch env lfe st).2.field_ref_list = st.field_ref_list ∧
      (offset_branch env lfe st).1.fullExpr = lfe.fullExpr := by
  unfold offset_branch
  refine ⟨?_, rfl⟩
  simp only
  split <;> rfl

theorem field_X_prepare_list (env : field_X_environment) (e nameExpr parityExpr : Expr)
    (is_assign is_also_read is_X is_func_arg : Bool) (st st' : field_X_state)
    (lfe : field_ref) (b : Bool)
    (h : field_X_prepare env e nameExpr parityExpr is_assign is_also_read is_X is_func_arg st =
      some (lfe, st', b)) :
    st'.field_ref_list = st.field_ref_list ∧ lfe.fullExpr = e := by
  unfold field_X_prepare at h
  simp only at h
  split at h
  · cases h
  · rename_i st2 hpar
    have h2 : st2.field_ref_list = st.field_ref_list := by
      rw [parity_branch_list env _ _ _ _ hpar]
      split <;> rfl
    split at h
    · split at h
      · cases h
      · rename_i lfe1 st4 hpre
        obtain ⟨h4, hf⟩ := direction_prelude_list env _ _ _ _ _ _ hpre
        have h4' : st4.field_ref_list = st.field_ref_list := by rw [h4]; exact h2
        have hf' : lfe1.fullExpr = e := by rw [hf]; rfl
        split at h
        · cases h
          exact ⟨by rw [(offset_branch_list env lfe1 st4).1]; exact h4',
            by rw [(offset_branch_list env lfe1 st4).2]; exact hf'⟩
        · split at h
          · cases h
          · split at h
            · cases h
            · cases h
              exact ⟨h4', hf'⟩
          · cases h
            exact ⟨h4', hf'⟩
    · cases h
      exact ⟨h2, rfl⟩

/-- The label of a constant direction recorded by `handle_field_X_expr` is
`direction_label` of the operator and of the value of the direction. -/
theorem field_X_prepare_label (env : field_X_environment) (e nameExpr parityExpr : Expr)
    (is_assign is_also_read is_X is_func_arg : Bool) (st st' : field_X_state)
    (lfe : field_ref) (b : Bool)
    (h : field_X_prepare env e nameExpr parityExpr is_assign is_also_read is_X is_func_arg st =
      some (lfe, st', b))
    (hc : lfe.is_constant_direction = true) :
    ∃ ops value, env.direction_operator parityExpr = some (ops, some value) ∧
      direction_label ops value = some lfe.constant_value := by
  unfold field_X_prepare at h
  simp only at h
  split at h
  · cases h
  · split at h
    · split at h
      · cases h
      · rename_i lfe1 st4 hpre
        have hlfe1 : lfe1.is_constant_direction = false := by
          unfold direction_prelude at hpre
          simp only at hpre
          split at hpre
          · cases hpre
            rfl
          · cases hpre
        split at h
        · cases h
          simp only [offset_branch] at hc
          rw [hlfe1] at hc
          cases hc
        · split at h
          · cases h
          · rename_i ops value hop
            split at h
            · cases h
            · rename_i label hlab
              cases h
              exact ⟨ops, value, hop, hlab⟩
          · cases h
            cases hc
    · cases h
      cases hc

theorem push_field_ref_list (env : field_X_environment) (lfe : field_ref)
    (st : field_X_state) :
    (push_field_ref env lfe st).field_ref_list = st.field_ref_list ++ [lfe] := by
  unfold push_field_ref
  simp only
  split <;> split <;> rfl

theorem recorded_ids_push (env : field_X_environment) (lfe : field_ref) (st : field_X_state) :
    recorded_ids (push_field_ref env lfe st) = recorded_ids st ++ [lfe.fullExpr.id] := by
  unfold recorded_ids
  rw [push_field_ref_list, List.map_append]
  rfl

theorem any_recorded_iff (st : field_X_state) (e : Expr) :
    st.field_ref_list.any (fun r => r.fullExpr.id == e.id) = true ↔ e.id ∈ recorded_ids st := by
  unfold recorded_ids
  simp only [List.any_eq_true, beq_iff_eq, List.mem_map]

/-- What one call, and a sequence of calls, of `handle_field_X_expr` does to the
recorded identities: every identity recorded afterwards was recorded before or is
one of the call; and the identities stay without repetition when the calls are
`tree_like`. -/
theorem handle_field_X_expr_recorded (env : field_X_environment) (c : field_X_call) :
    ∀ (st : field_X_state) (res : field_X_state × Bool),
      handle_field_X_expr env c st = some res →
      (∀ x ∈ recorded_ids res.1, x ∈ recorded_ids st ∨ x ∈ call_ids c) ∧
      (tree_like c = true → (recorded_ids st).Nodup → (recorded_ids res.1).Nodup) := by
  refine field_X_call.rec
    (motive_1 := fun c => ∀ (st : field_X_state) (res : field_X_state × Bool),
      handle_field_X_expr env c st = some res →
      (∀ x ∈ recorded_ids res.1, x ∈ recorded_ids st ∨ x ∈ call_ids c) ∧
      (tree_like c = true → (recorded_ids st).Nodup → (recorded_ids res.1).Nodup))
    (motive_2 := fun cs => ∀ (st st' : field_X_state),
      handle_nested_calls env cs st = some st' →
      (∀ x ∈ recorded_ids st', x ∈ recorded_ids st ∨ x ∈ nested_call_ids cs) ∧
      (all_tree_like cs = true → (recorded_ids st).Nodup → (recorded_ids st').Nodup))
    ?_ ?_ ?_ c
  · intro e operands is_assign is_also_read is_X is_func_arg nested ih st res h
    unfold handle_field_X_expr at h
    cases operands with
    | none => cases h
    | some np =>
      obtain ⟨nameExpr, parityExpr⟩ := np
      simp only at h
      by_cases hrec : st.field_ref_list.any (fun r => r.fullExpr.id == e.id) = true
      · rw [if_pos hrec] at h
        cases h
        exact ⟨fun x hx => Or.inl hx, fun _ hn => hn⟩
      · rw [if_neg hrec] at h
        have hnew : e.id ∉ recorded_ids st := fun hm => hrec ((any_recorded_iff st e).mpr hm)
        cases hprep : field_X_prepare env e nameExpr parityExpr
            (is_assign && !env.isConstQualified nameExpr) is_also_read is_X is_func_arg st with
        | none =>
          rw [hprep] at h
          cases h
        | some r =>
          obtain ⟨lfe, st1, b⟩ := r
          obtain ⟨hlist, hfull⟩ := field_X_prepare_list env _ _ _ _ _ _ _ _ _ _ _ hprep
          have hids1 : recorded_ids st1 = recorded_ids st := by
            unfold recorded_ids
            rw [hlist]
          rw [hprep] at h
          cases b with
          | true =>
            simp only at h
            cases hnest : handle_nested_calls env nested st1 with
            | none =>
              rw [hnest] at h
              cases h
            | some st2 =>
              rw [hnest] at h
              cases h
              obtain ⟨hsub, hnd⟩ := ih st1 st2 hnest
              have hfull2 : (if (env.loop_local_var parityExpr).isSome = true then
                  { lfe with is_loop_local_dir := true } else lfe).fullExpr.id = e.id := by
                split <;> simp [hfull]
              simp only [recorded_ids_push, hfull2]
              constructor
              · intro x hx
                rcases List.mem_append.mp hx with hx | hx
                · rcases hsub x hx with h1 | h1
                  · exact Or.inl (hids1 ▸ h1)
                  · exact Or.inr (by simp [call_ids, h1])
                · rw [List.mem_singleton] at hx
                  exact Or.inr (by simp [call_ids, hx])
              · intro htree hnodup
                simp only [tree_like, Bool.and_eq_true, Bool.not_eq_true'] at htree
                have hnotin : e.id ∉ nested_call_ids nested := by simpa using htree.1
                have hnd2 := hnd htree.2 (hids1 ▸ hnodup)
                refine List.Nodup.append hnd2 (List.nodup_singleton _) ?_
                intro x hx1 hx2
                rw [List.mem_singleton] at hx2
                subst hx2
                rcases hsub _ hx1 with h1 | h1
                · exact hnew (hids1 ▸ h1)
                · exact hnotin h1
          | false =>
            simp only at h
            cases h
            simp only [recorded_ids_push, hfull, hids1]
            constructor
            · intro x hx
              rcases List.mem_append.mp hx with hx | hx
              · exact Or.inl hx
              · rw [List.mem_singleton] at hx
                exact Or.inr (by simp [call_ids, hx])
            · intro _ hnodup
              refine List.Nodup.append hnodup (List.nodup_singleton _) ?_
              intro x hx1 hx2
              rw [List.mem_singleton] at hx2
              subst hx2
              exact hnew hx1
  · intro st st' h
    simp only [handle_nested_calls, Option.some.injEq] at h
    subst h
    exact ⟨fun x hx => Or.inl hx, fun _ hn => hn⟩
  · intro c rest ihc ihrest st st' h
    unfold handle_nested_calls at h
    cases hc : handle_field_X_expr env c st with
    | none =>
      rw [hc] at h
      cases h
    | some r =>
      obtain ⟨st1, b⟩ := r
      rw [hc] at h
      simp only at h
      obtain ⟨hsub1, hnd1⟩ := ihc st (st1, b) hc
      obtain ⟨hsub2, hnd2⟩ := ihrest st1 st' h
      constructor
      · intro x hx
        rcases hsub2 x hx with h1 | h1
        · rcases hsub1 x h1 with h2 | h2
          · exact Or.inl h2
          · exact Or.inr (by simp [nested_call_ids, h2])
        · exact Or.inr (by simp [nested_call_ids, h1])
      · intro htree hnodup
        simp only [all_tree_like, Bool.and_eq_true] at htree
        exact hnd2 htree.2 (hnd1 htree.1 hnodup)

theorem recorded_ids_nodup_iff (st : field_X_state) :
    (recorded_ids st).Nodup ↔
      st.field_ref_list.Pairwise (fun r1 r2 => r1.fullExpr.id ≠ r2.fullExpr.id) := by
  unfold recorded_ids List.Nodup
  rw [List.pairwise_map]

/-- C17: `handle_field_X_expr` records an occurrence at most once. After a sequence
of calls that starts from the cleared `field_ref_list`, the expressions `fullExpr`
of the entries are pairwise distinct nodes; every single call keeps them pairwise
distinct, whatever happened to the rest of the state between the calls; and a call
for an expression that is already recorded returns with the state, and so
`field_ref_list`, unchanged. The calls are those for the nodes of a syntax tree:
the expression of a call is not inside its own direction expression. -/
theorem field_ref_recorded_once (env : field_X_environment) (calls : List field_X_call)
    (st0 st : field_X_state) (htree : all_tree_like calls = true)
    (hclear : st0.field_ref_list = [])
    (hrun : handle_nested_calls env calls st0 = some st) :
    st.field_ref_list.Pairwise (fun r1 r2 => r1.fullExpr.id ≠ r2.fullExpr.id) ∧
    (∀ (c : field_X_call) (st1 st2 : field_X_state) (b : Bool), tree_like c = true →
      st1.field_ref_list.Pairwise (fun r1 r2 => r1.fullExpr.id ≠ r2.fullExpr.id) →
      handle_field_X_expr env c st1 = some (st2, b) →
      st2.field_ref_list.Pairwise (fun r1 r2 => r1.fullExpr.id ≠ r2.fullExpr.id)) ∧
    (∀ (e nameExpr parityExpr : Expr) (is_assign is_also_read is_X is_func_arg : Bool)
      (nested : List field_X_call) (st1 : field_X_state),
      (∃ r ∈ st1.field_ref_list, r.fullExpr.id = e.id) →
      handle_field_X_expr env
        (field_X_call.mk e (some (nameExpr, parityExpr)) is_assign is_also_read is_X
          is_func_arg nested) st1 =
        some (st1, is_assign && !env.isConstQualified nameExpr)) := by
  have hseq : ∀ (cs : List field_X_call) (s s' : field_X_state),
      handle_nested_calls env cs s = some s' → all_tree_like cs = true →
      (recorded_ids s).Nodup → (recorded_ids s').Nodup := by
    intro cs
    induction cs with
    | nil =>
      intro s s' h _ hn
      simp only [handle_nested_calls, Option.some.injEq] at h
      subst h
      exact hn
    | cons c rest ih =>
      intro s s' h ht hn
      unfold handle_nested_calls at h
      simp only [all_tree_like, Bool.and_eq_true] at ht
      cases hc : handle_field_X_expr env c s with
      | none =>
        rw [hc] at h
        cases h
      | some r =>
        rw [hc] at h
        simp only at h
        exact ih r.1 s' h ht.2 ((handle_field_X_expr_recorded env c s r hc).2 ht.1 hn)
  refine ⟨?_, ?_, ?_⟩
  · rw [← recorded_ids_nodup_iff]
    apply hseq calls st0 st hrun htree
    unfold recorded_ids
    rw [hclear]
    exact List.nodup_nil
  · intro c st1 st2 b hc hpw hcall
    rw [← recorded_ids_nodup_iff] at hpw ⊢
    exact (handle_field_X_expr_recorded env c st1 (st2, b) hcall).2 hc hpw
  · intro e nameExpr parityExpr is_assign is_also_read is_X is_func_arg nested st1 hrec
    have hany : st1.field_ref_list.any (fun r => r.fullExpr.id == e.id) = true := by
      simp only [List.any_eq_true, beq_iff_eq]
      exact hrec
    unfold handle_field_X_expr
    simp only [hany, if_true]

/-- Witness for C17: the calls for `f[X]`, for `f[X+e_x]` and again for `f[X]`
record the two references of `f[X] = f[X+e_x]`. -/
theorem field_ref_recorded_once_witness :
    handle_nested_calls ex_field_X_environment
      [ex_call_write, ex_call_neighbour, ex_call_write] ex_field_X_start =
      some { ex_field_X_start with field_ref_list := [ex_write_ref, ex_neighbour_ref] } ∧
    [ex_write_ref, ex_neighbour_ref].Pairwise
      (fun r1 r2 => r1.fullExpr.id ≠ r2.fullExpr.id) :=
  ⟨by decide,
    (field_ref_recorded_once ex_field_X_environment
      [ex_call_write, ex_call_neighbour, ex_call_write] ex_field_X_start
      { ex_field_X_start with field_ref_list := [ex_write_ref, ex_neighbour_ref] }
      (by decide) rfl (by decide)).1⟩

/-! ### Directions and parities -/

/-- C21: `opp_parity` exchanges EVEN and ODD, leaves ALL unchanged and maps X and
none to none; applying it twice gives back each of EVEN, ODD, ALL and none. -/
theorem opp_parity_spec :
    opp_parity EVEN = ODD ∧ opp_parity ODD = EVEN ∧ opp_parity ALL = ALL ∧
    opp_parity parity.x = parity.none ∧ opp_parity parity.none = parity.none ∧
    opp_parity (opp_parity EVEN) = EVEN ∧ opp_parity (opp_parity ODD) = ODD ∧
    opp_parity (opp_parity ALL) = ALL ∧
    opp_parity (opp_parity parity.none) = parity.none := by
  decide

/-- C22: for the dimensions 1 to 4 and every direction value `d` below
`NDIRS - 1`, `next_direction(d)` is `d + 1`, the value of a direction; and for
`NDIM > 1`, `next_direction(XUP) = YUP` and `next_direction` of the direction with
the value `NDIRS - 2` is `XDOWN`. -/
theorem next_direction_spec (NDIM d : Nat) (hdim : 1 ≤ NDIM ∧ NDIM ≤ 4)
    (hd : d < NDIRS NDIM - 1) :
    next_direction d = d + 1 ∧
    (∃ name, (direction_names NDIM)[next_direction d]? = some name) ∧
    (NDIM > 1 →
      next_direction (direction_value NDIM "XUP") = direction_value NDIM "YUP" ∧
      next_direction (NDIRS NDIM - 2) = direction_value NDIM "XDOWN") := by
  obtain ⟨h1, h4⟩ := hdim
  have hN : NDIRS NDIM ≤ 8 := by
    interval_cases NDIM <;> decide
  have hnext : next_direction d = d + 1 := by
    unfold next_direction
    exact Nat.mod_eq_of_lt (by omega)
  refine ⟨hnext, ?_, ?_⟩
  · rw [hnext]
    have hlt : d + 1 < (direction_names NDIM).length := by
      unfold NDIRS at hd
      omega
    exact ⟨_, List.getElem?_eq_getElem hlt⟩
  · intro hgt
    interval_cases NDIM <;> decide

/-- Witness for C22: in four dimensions the direction after TUP is TDOWN. -/
theorem next_direction_spec_witness :
    next_direction 3 = 3 + 1 ∧
    (∃ name, (direction_names 4)[next_direction 3]? = some name) ∧
    (4 > 1 →
      next_direction (direction_value 4 "XUP") = direction_value 4 "YUP" ∧
      next_direction (NDIRS 4 - 2) = direction_value 4 "XDOWN") :=
  next_direction_spec 4 3 (by decide) (by decide)

/-! ### `matrix` -/

/-- C27, an input on which the code fails: `fill(7)` for a matrix with one row and
two columns sets `c[0][0]` only, since the inner loop runs to `n`, not to `m`; and
for a matrix with two rows and one column it writes to `c[0][1]`, outside the
row. -/
theorem matrix_fill_failing_input :
    ex_row_matrix.fill 7 = some { n := 1, m := 2, c := [[7, 2]] } ∧
    ex_column_matrix.fill 7 = none := by
  decide

/-- C29, an input on which the code fails: for the matrix with the row `1, 2`
(and for the one with the column `1, 2`) `norm_sq()` and `norm_squared` return the
square of `c[0][0]` alone, which is 1, and the sum of the squares of all elements
is 5: the condition `i>0&&j>0` leaves out the rest of the first row and of the
first column. -/
theorem matrix_norm_sq_failing_input :
    ex_row_matrix.norm_sq (fun x => x * x) = some 1 ∧
    norm_squared_matrix (fun x => x * x) ex_row_matrix = some 1 ∧
    sum_of_norm_squared (fun x => x * x) ex_row_matrix = 5 ∧
    ex_column_matrix.norm_sq (fun x => x * x) = some 1 ∧
    norm_squared_matrix (fun x => x * x) ex_column_matrix = some 1 ∧
    sum_of_norm_squared (fun x => x * x) ex_column_matrix = 5 := by
  decide

theorem matrix_over_scalar_single {α : Type} [Div α] (a s : α) :
    matrix_over_scalar { n := 1, m := 1, c := [[a]] } s =
      some { n := 1, m := 1, c := [[s / a]] } :=
  rfl

theorem matrix_times_scalar_single {α : Type} [Mul α] (a s : α) :
    matrix_times_scalar { n := 1, m := 1, c := [[a]] } s =
      some { n := 1, m := 1, c := [[s * a]] } :=
  rfl

/-- C30, an input on which the code fails: for the matrix with the single element
2 and the scalar 4, `operator/` returns the matrix with the element `4 / 2`, the
scalar divided by the element, where the element divided by the scalar is `2 / 4`;
and `(A * 4) / 4` has the element `4 / (4 * 2)`, not 2. -/
theorem matrix_over_scalar_failing_input :
    matrix_over_scalar ex_unit_matrix 4 = some { n := 1, m := 1, c := [[4 / 2]] } ∧
    (4 / 2 : Rat) ≠ 2 / 4 ∧
    (matrix_times_scalar ex_unit_matrix 4).bind (fun B => matrix_over_scalar B 4) =
      some { n := 1, m := 1, c := [[4 / (4 * 2)]] } ∧
    (4 / (4 * 2) : Rat) ≠ 2 := by
  refine ⟨matrix_over_scalar_single 2 4, by norm_num, ?_, by norm_num⟩
  unfold ex_unit_matrix
  rw [matrix_times_scalar_single, Option.bind, matrix_over_scalar_single]

/-! ### `check_loop_vectorizable` and the first field -/

/-- C28, an input on which the code fails: for a loop without a site dependent
conditional, without fields and without variables, `check_loop_vectorizable`
returns true with `vector_size` 0, and `generate_code_avx` goes on to read
`field_info_list.front()` of the empty list. -/
theorem vectorizable_without_fields_failing_input :
    check_loop_vectorizable ⟨Parity.all, "ALL", false, "", false⟩ 0 0 0 [] [] =
      some ⟨true, 0, "Loop is AVX vectorizable", []⟩ ∧
    generate_code_avx ⟨Parity.all, "ALL", false, "", false⟩ 0 0 0 ex_avx_environment false
      false [] [] [] = none := by
  decide

/-! ### The reads at the site recorded by `check_field_ref_list` -/

theorem record_ref_is_written (is_duplicate_expr : Expr → Expr → Bool) (p : field_ref) (k : Nat)
    (fi : field_info) :
    (record_ref is_duplicate_expr p k fi).is_written = (fi.is_written || p.is_written) := by
  unfold record_ref
  cases hw : p.is_written <;> cases hfw : fi.is_written <;> cases hr : p.is_read <;>
    cases hd : p.is_direction <;> cases ho : p.is_offset <;>
    cases hl : p.is_loop_local_dir <;> simp [hw, hfw, hr, hd, ho, hl]
  all_goals (split <;> simp [hfw])

theorem record_ref_first_assign_seq (is_duplicate_expr : Expr → Expr → Bool) (p : field_ref)
    (k : Nat) (fi : field_info) :
    (record_ref is_duplicate_expr p k fi).first_assign_seq =
      if p.is_written && !fi.is_written then p.sequence else fi.first_assign_seq := by
  unfold record_ref
  cases hw : p.is_written <;> cases hfw : fi.is_written <;> cases hr : p.is_read <;>
    cases hd : p.is_direction <;> cases ho : p.is_offset <;>
    cases hl : p.is_loop_local_dir <;> simp [hw, hfw, hr, hd, ho, hl]
  all_goals (split <;> simp [hfw])

theorem record_ref_is_read_atX (is_duplicate_expr : Expr → Expr → Bool) (p : field_ref)
    (k : Nat) (fi : field_info) :
    (record_ref is_duplicate_expr p k fi).is_read_atX =
      (fi.is_read_atX || (p.is_read && !p.is_direction &&
        (!(fi.is_written || p.is_written) ||
          decide ((if p.is_written && !fi.is_written then p.sequence
            else fi.first_assign_seq) ≥ p.sequence)))) := by
  unfold record_ref
  cases hw : p.is_written <;> cases hfw : fi.is_written <;> cases hr : p.is_read <;>
    cases hd : p.is_direction <;> cases ho : p.is_offset <;>
    cases hl : p.is_loop_local_dir <;> cases hx : fi.is_read_atX <;>
    simp [hw, hfw, hr, hd, ho, hl, hx]
  all_goals (split <;> simp_all)

theorem first_write_concat (ps : List field_ref) (p : field_ref) :
    first_write (ps ++ [p]) =
      match first_write ps with
      | some w => some w
      | none => if p.is_written then some p else none := by
  unfold first_write
  rw [List.find?_append]
  cases ps.find? (fun p => p.is_written) with
  | some w => rfl
  | none =>
    cases hp : p.is_written <;> simp [List.find?, hp]

theorem first_write_none_iff (ps : List field_ref) :
    first_write ps = none ↔ ps.any (fun p => p.is_written) = false := by
  unfold first_write
  rw [List.find?_eq_none]
  simp

theorem first_write_none_of_mem (ps : List field_ref) (h : first_write ps = none) (j : Nat)
    (q : field_ref) (hq : ps[j]? = some q) : q.is_written = false := by
  unfold first_write at h
  rw [List.find?_eq_none] at h
  have := h q (List.mem_iff_getElem?.mpr ⟨j, hq⟩)
  simpa using this

theorem read_at_X_spec_concat (ps : List field_ref) (p : field_ref) :
    read_at_X_spec (ps ++ [p]) ↔
      read_at_X_spec ps ∨
      (p.is_read = true ∧ p.is_direction = false ∧
        ((first_write ps = none ∧ p.is_written = false) ∨
          ∃ w, first_write (ps ++ [p]) = some w ∧ p.sequence ≤ w.sequence)) := by
  constructor
  · rintro ⟨i, q, hq, hread, hdir, hcase⟩
    rcases getElem?_concat_cases _ _ _ _ hq with ⟨_, hq'⟩ | ⟨hi, rfl⟩
    · left
      refine ⟨i, q, hq', hread, hdir, ?_⟩
      rcases hcase with h1 | ⟨w, hw, hle⟩
      · exact Or.inl (fun j q' hj hwr => h1 j q' (getElem?_concat_of_lt _ _ _ _ hj) hwr)
      · cases hfw : first_write ps with
        | none =>
          left
          intro j q' hj hwr
          rw [first_write_none_of_mem ps hfw j q' hj] at hwr
          cases hwr
        | some w0 =>
          rw [first_write_concat, hfw] at hw
          simp only [Option.some.injEq] at hw
          subst hw
          exact Or.inr ⟨w0, rfl, hle⟩
    · right
      refine ⟨hread, hdir, ?_⟩
      rcases hcase with h1 | h2
      · left
        constructor
        · cases hfw : first_write ps with
          | none => rfl
          | some w0 =>
            exfalso
            unfold first_write at hfw
            have hmem := List.mem_of_find?_eq_some hfw
            have hwr : w0.is_written = true := by
              simpa using List.find?_some hfw
            obtain ⟨j, hj⟩ := List.mem_iff_getElem?.mp hmem
            have hlt := h1 j w0 (getElem?_concat_of_lt _ _ _ _ hj) hwr
            have := (List.getElem?_eq_some.mp hj).1
            omega
        · cases hwr : q.is_written with
          | false => rfl
          | true =>
            exfalso
            have := h1 ps.length q (getElem?_concat_length _ _) hwr
            omega
      · exact Or.inr h2
  · rintro (⟨i, q, hq, hread, hdir, hcase⟩ | ⟨hread, hdir, hcase⟩)
    · refine ⟨i, q, getElem?_concat_of_lt _ _ _ _ hq, hread, hdir, ?_⟩
      have hi := (List.getElem?_eq_some.mp hq).1
      rcases hcase with h1 | ⟨w, hw, hle⟩
      · left
        intro j q' hj hwr
        rcases getElem?_concat_cases _ _ _ _ hj with ⟨_, hj'⟩ | ⟨hjl, _⟩
        · exact h1 j q' hj' hwr
        · omega
      · right
        refine ⟨w, ?_, hle⟩
        rw [first_write_concat, hw]
    · refine ⟨ps.length, p, getElem?_concat_length _ _, hread, hdir, ?_⟩
      rcases hcase with ⟨hnone, hnw⟩ | h2
      · left
        intro j q' hj hwr
        exfalso
        rcases getElem?_concat_cases _ _ _ _ hj with ⟨_, hj'⟩ | ⟨_, rfl⟩
        · rw [first_write_none_of_mem ps hnone j q' hj'] at hwr
          cases hwr
        · rw [hnw] at hwr
          cases hwr
      · exact Or.inr h2

theorem read_write_inv_new (refs : List field_ref) (p : field_ref) :
    read_write_inv refs (new_field_info p) := by
  refine ⟨rfl, ?_, ?_⟩
  · intro w hw
    cases hw
  · constructor
    · intro h
      cases h
    · rintro ⟨i, q, hq, _⟩
      simp [new_field_info, field_info_default, deref] at hq

theorem read_write_inv_record (is_duplicate_expr : Expr → Expr → Bool) (refs : List field_ref)
    (k : Nat) (p : field_ref) (fi : field_info) (hp : refs[k]? = some p)
    (h : read_write_inv refs fi) :
    read_write_inv refs (record_ref is_duplicate_expr p k fi) := by
  obtain ⟨ha, hb, hc⟩ := h
  unfold read_write_inv
  rw [record_ref_ref_list, deref_concat refs _ k p hp, record_ref_is_written,
    record_ref_first_assign_seq, record_ref_is_read_atX, read_at_X_spec_concat]
  have hwritten : fi.is_written = true ↔ ∃ w, first_write (deref refs fi.ref_list) = some w := by
    rw [ha]
    cases hfw : first_write (deref refs fi.ref_list) with
    | none =>
      rw [(first_write_none_iff _).mp hfw]
      simp
    | some w =>
      have hne : first_write (deref refs fi.ref_list) ≠ none := by
        rw [hfw]
        exact fun h => by cases h
      have : (deref refs fi.ref_list).any (fun p => p.is_written) ≠ false :=
        fun h => hne ((first_write_none_iff _).mpr h)
      simp only [Bool.not_eq_false] at this
      rw [this]
      simp
  have hb' : ∀ w, first_write (deref refs fi.ref_list ++ [p]) = some w →
      (if (p.is_written && !fi.is_written) = true then p.sequence else fi.first_assign_seq) =
        w.sequence := by
    intro w hw
    rw [first_write_concat] at hw
    cases hfw : first_write (deref refs fi.ref_list) with
    | some w0 =>
      rw [hfw] at hw
      simp only [Option.some.injEq] at hw
      subst hw
      have hfi : fi.is_written = true := hwritten.mpr ⟨w0, hfw⟩
      simp only [hfi, Bool.not_true, Bool.and_false, Bool.false_eq_true, if_false]
      exact hb w0 hfw
    | none =>
      rw [hfw] at hw
      have hfi : fi.is_written = false := by
        cases hfi : fi.is_written with
        | false => rfl
        | true =>
          obtain ⟨w1, hw1⟩ := hwritten.mp hfi
          rw [hfw] at hw1
          cases hw1
      cases hpw : p.is_written with
      | false =>
        rw [hpw] at hw
        simp at hw
      | true =>
        rw [hpw] at hw
        simp only [if_true, Option.some.injEq] at hw
        subst hw
        simp [hpw, hfi]
  have hb2 : ∀ w, first_write (deref refs fi.ref_list ++ [p]) = some w →
      (if p.is_written = true ∧ fi.is_written = false then p.sequence
        else fi.first_assign_seq) = w.sequence := by
    intro w hw
    have := hb' w hw
    simpa using this
  refine ⟨?_, hb', ?_⟩
  · rw [List.any_append, ha]
    simp
  · simp only [Bool.or_eq_true, Bool.and_eq_true, Bool.not_eq_true', decide_eq_true_eq,
      Bool.or_eq_false_iff]
    rw [hc]
    constructor
    · rintro (h | ⟨⟨hread, hdir⟩, hcond⟩)
      · exact Or.inl h
      · right
        refine ⟨hread, hdir, ?_⟩
        rcases hcond with ⟨hfw, hpw⟩ | hge
        · left
          refine ⟨?_, hpw⟩
          cases hfirst : first_write (deref refs fi.ref_list) with
          | none => rfl
          | some w0 =>
            rw [hwritten.mpr ⟨w0, hfirst⟩] at hfw
            cases hfw
        · cases hfirst : first_write (deref refs fi.ref_list ++ [p]) with
          | none =>
            left
            rw [first_write_concat] at hfirst
            cases hf0 : first_write (deref refs fi.ref_list) with
            | some w0 =>
              rw [hf0] at hfirst
              cases hfirst
            | none =>
              rw [hf0] at hfirst
              refine ⟨rfl, ?_⟩
              cases hpw : p.is_written with
              | false => rfl
              | true =>
                rw [hpw] at hfirst
                simp at hfirst
          | some w =>
            right
            refine ⟨w, rfl, ?_⟩
            rw [← hb2 w hfirst]
            exact hge
    · rintro (h | ⟨hread, hdir, hcond⟩)
      · exact Or.inl h
      · right
        refine ⟨⟨hread, hdir⟩, ?_⟩
        rcases hcond with ⟨hnone, hpw⟩ | ⟨w, hw, hle⟩
        · left
          refine ⟨?_, hpw⟩
          cases hfi : fi.is_written with
          | false => rfl
          | true =>
            obtain ⟨w1, hw1⟩ := hwritten.mp hfi
            rw [hnone] at hw1
            cases hw1
        · right
          rw [hb2 w hw]
          exact hle

/-- The invariant `read_write_inv` holds for every descriptor after the first loop
of `check_field_ref_list`. -/
theorem collect_fields_read_write (is_duplicate_expr : Expr → Expr → Bool)
    (refs : List field_ref) :
    ∀ l ∈ (collect_fields is_duplicate_expr refs).field_info_list, read_write_inv refs l :=
  collect_fields_forall is_duplicate_expr refs (read_write_inv refs)
    (fun k p hp => read_write_inv_record is_duplicate_expr refs k p _ hp
      (read_write_inv_new refs p))
    (fun k p fi hp h => read_write_inv_record is_duplicate_expr refs k p fi hp h)

theorem check_field_ref_list_mem_flags (is_duplicate_expr : Expr → Expr → Bool)
    (find_word : String → String → Option Nat) (inspect_field_type : Expr → vectorization_info)
    (li : loop_info_struct) (refs : List field_ref) (l : field_info)
    (h : l ∈ (check_field_ref_list is_duplicate_expr find_word inspect_field_type li
      refs).field_info_list) :
    ∃ l0 ∈ (collect_fields is_duplicate_expr refs).field_info_list,
      l.ref_list = l0.ref_list ∧ l.is_written = l0.is_written ∧
      l.is_read_atX = l0.is_read_atX ∧ l.first_assign_seq = l0.first_assign_seq := by
  unfold check_field_ref_list at h
  simp only [List.mem_map] at h
  obtain ⟨l0, hl0, rfl⟩ := h
  exact ⟨l0, hl0, rfl, rfl, rfl, rfl⟩

theorem first_write_getElem? (ps : List field_ref) (w : field_ref)
    (h : first_write ps = some w) : ∃ (j : Nat), ps[j]? = some w ∧ w.is_written = true := by
  unfold first_write at h
  obtain ⟨j, hj⟩ := List.mem_iff_getElem?.mp (List.mem_of_find?_eq_some h)
  exact ⟨j, hj, by simpa using List.find?_some h⟩

/-- C26: after `check_field_ref_list` a field is marked `is_read_atX` if and only
if some read reference `f[X]` of the field, not a neighbour reference, either
precedes every written reference of the field or has a sequence number not greater
than the first-write sequence number; `first_assign_seq` is the sequence number of
the first written reference in list order; the field is marked `is_written`
exactly when it has a written reference; and when the sequence numbers do not
decrease along the list, a field all of whose reads `f[X]` have a sequence number
greater than that of its first write is not marked `is_read_atX`. The references
of the field are taken in the order of `field_ref_list`. -/
theorem read_at_X_marked_iff (is_duplicate_expr : Expr → Expr → Bool)
    (find_word : String → String → Option Nat) (inspect_field_type : Expr → vectorization_info)
    (li : loop_info_struct) (refs : List field_ref) :
    ∀ l ∈ (check_field_ref_list is_duplicate_expr find_word inspect_field_type li
        refs).field_info_list,
      (l.is_read_atX = true ↔ read_at_X_spec (deref refs l.ref_list)) ∧
      (∀ w, first_write (deref refs l.ref_list) = some w →
        l.first_assign_seq = w.sequence) ∧
      (l.is_written = true ↔ ∃ q ∈ deref refs l.ref_list, q.is_written = true) ∧
      ((deref refs l.ref_list).Pairwise (fun a b => a.sequence ≤ b.sequence) →
        (∀ p ∈ deref refs l.ref_list, p.is_read = true → p.is_direction = false →
          ∃ w, first_write (deref refs l.ref_list) = some w ∧ w.sequence < p.sequence) →
        l.is_read_atX = false) := by
  intro l hl
  obtain ⟨l0, hl0, hrl, hw, hx, hs⟩ :=
    check_field_ref_list_mem_flags is_duplicate_expr find_word inspect_field_type li refs l hl
  obtain ⟨ha, hb, hc⟩ := collect_fields_read_write is_duplicate_expr refs l0 hl0
  rw [hrl, hw, hx, hs]
  refine ⟨hc, hb, ?_, ?_⟩
  · rw [ha]
    simp
  · intro hmono hall
    cases hmark : l0.is_read_atX with
    | false => rfl
    | true =>
      exfalso
      obtain ⟨i, p, hp, hread, hdir, hcase⟩ := hc.mp hmark
      obtain ⟨w, hfw, hlt⟩ := hall p (List.mem_iff_getElem?.mpr ⟨i, hp⟩) hread hdir
      rcases hcase with h1 | ⟨w', hw', hle⟩
      · obtain ⟨j, hj, hwr⟩ := first_write_getElem? _ w hfw
        have hij := h1 j w hj hwr
        obtain ⟨hil, rfl⟩ := List.getElem?_eq_some.mp hp
        obtain ⟨hjl, rfl⟩ := List.getElem?_eq_some.mp hj
        have := List.pairwise_iff_getElem.mp hmono i j hil hjl hij
        omega
      · rw [hfw] at hw'
        cases hw'
        omega

/-- Witness for C26: the field `f` of the loop `f[X] = f[X+e_x]`, which is written
and has no read at the site. -/
theorem read_at_X_marked_iff_witness :
    (ex_hazard_field.is_read_atX = true ↔
      read_at_X_spec (deref [ex_write_ref, ex_neighbour_ref] ex_hazard_field.ref_list)) ∧
    (∀ w, first_write (deref [ex_write_ref, ex_neighbour_ref] ex_hazard_field.ref_list) =
      some w → ex_hazard_field.first_assign_seq = w.sequence) ∧
    (ex_hazard_field.is_written = true ↔
      ∃ q ∈ deref [ex_write_ref, ex_neighbour_ref] ex_hazard_field.ref_list,
        q.is_written = true) ∧
    ((deref [ex_write_ref, ex_neighbour_ref] ex_hazard_field.ref_list).Pairwise
        (fun a b => a.sequence ≤ b.sequence) →
      (∀ p ∈ deref [ex_write_ref, ex_neighbour_ref] ex_hazard_field.ref_list,
        p.is_read = true → p.is_direction = false →
        ∃ w, first_write (deref [ex_write_ref, ex_neighbour_ref] ex_hazard_field.ref_list) =
          some w ∧ w.sequence < p.sequence) →
      ex_hazard_field.is_read_atX = false) :=
  read_at_X_marked_iff ex_is_duplicate_expr ex_find_word ex_inspect_field_type
    ⟨Parity.even, "EVEN", false, "", false⟩ [ex_write_ref, ex_neighbour_ref] ex_hazard_field
    (by decide)

/-! ### Direct weight iteration -/

theorem vector_index_neg_one : vector_index (-1) = 2 ^ 64 - 1 := by
  decide

/-- When the order parameter is outside the binned interval, the statement
`g_WValues[ci][bin_index] += C` of `iterate_weight_function_direct_single` is
reached with `bin_index = -1`, an index outside the vector. -/
theorem direct_single_outside_undefined {α : Type} [LinearOrderedField α]
    (finish_check : List Int → Bool) (st : muca_state α) (OP : α) (ci : Nat)
    (hout : find_OP_bin_index st.g_OPBinLimits OP ci = some (-1))
    (hsize : ∀ w, st.g_WValues[ci]? = some w → w.length < 2 ^ 64) :
    iterate_weight_function_direct_single finish_check st OP ci = none := by
  unfold iterate_weight_function_direct_single
  cases hw : st.g_WValues[ci]? with
  | none => rfl
  | some weights =>
    have hlen := hsize weights hw
    have hupd : update_at st.g_WValues ci (-1) (fun w => w + st.C) = none := by
      unfold update_at
      rw [hw]
      simp only
      have : weights[vector_index (-1)]? = none := by
        rw [vector_index_neg_one]
        exact List.getElem?_eq_none (by omega)
      rw [this]
    simp only [hout, hupd, ne_eq, not_true_eq_false, if_false]

/-- C23, an input on which the code fails: one chain with the bins from 0 to 1 and
from 1 to 2, and the order parameter 5, outside the bins, in the first of ten
iterations between two checks. `find_OP_bin_index` returns -1, and the routine
goes on to `g_WValues[ci][-1] += C`, an access outside the vector, so that it has
no defined result. -/
theorem direct_single_outside_failing_input :
    find_OP_bin_index ex_muca_state.g_OPBinLimits 5 0 = some (-1) ∧
    (ex_muca_state.g_WeightIterationCount + 1).tmod ex_muca_state.single_check_interval ≠ 0 ∧
    iterate_weight_function_direct_single all_visited ex_muca_state 5 0 = none := by
  decide

/-- C24, an input on which the code fails: one chain with two bins of the weights 0
and 1, the update size 3 and the sample size 1, and the order parameter 1/2 in the
first bin. The loops run to `N = g_WValues.size()`, the number of chains, so that
only the first weight is increased, to 3, and only from it the minimum 1 is
subtracted: the weights are 2 and 1 afterwards, and their minimum is 1. For two
chains of one bin the loops leave the vectors of the chain. -/
theorem direct_update_failing_input :
    (iterate_weight_function_direct all_visited ex_muca_one_chain (1 / 2) 0).map
      (fun r => (r.1.g_WValues, r.1.g_WeightIterationCount)) = some ([[2, 1]], 0) ∧
    min_element [(2 : Rat), 1] = some 1 ∧
    iterate_weight_function_direct all_visited ex_muca_two_chains (1 / 2) 0 = none := by
  decide!

/-! ### `handle_bracket_var_ref` -/

/-- The kind of reduction that `handle_bracket_var_ref` derives: SUM exactly for an
assignment with `+=`, PRODUCT exactly for an assignment with any other operator,
and NONE exactly when there is no assignment. -/
theorem bracket_reduction_type_spec (is_assign : Bool) (assignop : String) :
    (bracket_reduction_type is_assign assignop = reduction.SUM ↔
      is_assign = true ∧ assignop = "+=") ∧
    (bracket_reduction_type is_assign assignop = reduction.PRODUCT ↔
      is_assign = true ∧ assignop ≠ "+=") ∧
    (bracket_reduction_type is_assign assignop = reduction.NONE ↔ is_assign = false) := by
  unfold bracket_reduction_type
  cases is_assign <;> by_cases h : assignop = "+=" <;> simp [h]

/-- C25, an input on which the code fails: the assignment `rv[i] = ...` to an
element of a ReductionVector declared outside the loop, with the operator `=`.
`handle_bracket_var_ref` reports nothing and records the array in
`array_ref_list` with the reduction kind PRODUCT, as it does for `*=`, and also for
the operators `-=`, `/=` and `++`; for `+=` it records SUM. -/
theorem bracket_assignment_failing_input :
    (handle_bracket_var_ref ex_bracket_environment ex_bracket_ref reftype.REDUCTION true "="
      ex_bracket_state).map (fun r => (r.1.array_ref_list, r.1.diags)) =
        some ([ex_array_ref reduction.PRODUCT], []) ∧
    (handle_bracket_var_ref ex_bracket_environment ex_bracket_ref reftype.REDUCTION true "*="
      ex_bracket_state).map (fun r => (r.1.array_ref_list, r.1.diags)) =
        some ([ex_array_ref reduction.PRODUCT], []) ∧
    (handle_bracket_var_ref ex_bracket_environment ex_bracket_ref reftype.REDUCTION true "-="
      ex_bracket_state).map (fun r => (r.1.array_ref_list, r.1.diags)) =
        some ([ex_array_ref reduction.PRODUCT], []) ∧
    (handle_bracket_var_ref ex_bracket_environment ex_bracket_ref reftype.REDUCTION true "/="
      ex_bracket_state).map (fun r => (r.1.array_ref_list, r.1.diags)) =
        some ([ex_array_ref reduction.PRODUCT], []) ∧
    (handle_bracket_var_ref ex_bracket_environment ex_bracket_ref reftype.REDUCTION true "++"
      ex_bracket_state).map (fun r => (r.1.array_ref_list, r.1.diags)) =
        some ([ex_array_ref reduction.PRODUCT], []) ∧
    (handle_bracket_var_ref ex_bracket_environment ex_bracket_ref reftype.REDUCTION true "+="
      ex_bracket_state).map (fun r => (r.1.array_ref_list, r.1.diags)) =
        some ([ex_array_ref reduction.SUM], []) := by
  decide

theorem vector_index_of_nat (b : Nat) (hb : b < 2 ^ 64) : vector_index (b : Int) = b := by
  unfold vector_index
  have h : (b : Int) % 2 ^ 64 = b := Int.emod_eq_of_lt (by omega) (by omega)
  rw [h]
  rfl

theorem update_at_of_nat {β : Type} (v : List (List β)) (ci b : Nat) (f : β → β)
    (row : List β) (x : β) (hb : b < 2 ^ 64) (hrow : v[ci]? = some row)
    (hx : row[b]? = some x) :
    update_at v ci (b : Int) f = some (v.set ci (row.set b (f x))) := by
  unfold update_at
  rw [hrow]
  simp only [vector_index_of_nat b hb, hx]

/-- When the order parameter is inside the bin `b` of the chain and the iteration
count does not reach a multiple of `single_check_interval`,
`iterate_weight_function_direct_single` adds 1 to the total of the bin and `C` to
its weight, increases the iteration count, and changes nothing else. -/
theorem direct_single_inside {α : Type} [LinearOrderedField α]
    (finish_check : List Int → Bool) (st : muca_state α) (OP : α) (ci b : Nat)
    (weights : List α) (totals : List Int) (w : α) (t : Int)
    (hfind : find_OP_bin_index st.g_OPBinLimits OP ci = some (b : Int))
    (hw : st.g_WValues[ci]? = some weights) (ht : st.g_N_OP_BinTotal[ci]? = some totals)
    (hbw : weights[b]? = some w) (hbt : totals[b]? = some t) (hb : b < 2 ^ 64)
    (hint : st.single_check_interval ≠ 0)
    (hcheck : (st.g_WeightIterationCount + 1).tmod st.single_check_interval ≠ 0) :
    iterate_weight_function_direct_single finish_check st OP ci =
      some ({ st with
        g_N_OP_BinTotal := st.g_N_OP_BinTotal.set ci (totals.set b (t + 1))
        g_WeightIterationCount := st.g_WeightIterationCount + 1
        g_WValues := st.g_WValues.set ci (weights.set b (w + st.C)) }, true) := by
  unfold iterate_weight_function_direct_single
  have hne : (b : Int) ≠ -1 := by omega
  simp only [hw, hfind, hne, ne_eq, not_false_eq_true, if_true,
    update_at_of_nat _ ci b _ totals t hb ht hbt,
    update_at_of_nat _ ci b _ weights w hb hw hbw, hint, hcheck, if_false]

/-! ### `find_OP_bin_index` for values of type `double` -/

theorem double_value_le {α : Type} [LinearOrder α] (x y : α) :
    double.value x ≤ double.value y ↔ x ≤ y := by
  show double.le (double.value x) (double.value y) = true ↔ x ≤ y
  simp [double.le]

theorem double_value_lt {α : Type} [LinearOrder α] (x y : α) :
    double.value x < double.value y ↔ x < y := by
  show double.lt (double.value x) (double.value y) = true ↔ x < y
  simp [double.lt]

theorem double_lt_values {α : Type} [LinearOrder α] (a b : double α) (h : a < b) :
    ∃ x y, a = double.value x ∧ b = double.value y := by
  cases a with
  | NaN => exact absurd h (by show ¬ (double.lt double.NaN b = true); simp [double.lt])
  | value x =>
    cases b with
    | NaN =>
      exact absurd h (by show ¬ (double.lt (double.value x) double.NaN = true); simp [double.lt])
    | value y => exact ⟨x, y, rfl, rfl⟩

theorem double_not_le_NaN {α : Type} [LinearOrder α] (a : double α) :
    ¬ double.NaN ≤ a ∧ ¬ a ≤ double.NaN := by
  constructor
  · show ¬ (double.le double.NaN a = true)
    simp [double.le]
  · show ¬ (double.le a double.NaN = true)
    cases a <;> simp [double.le]

theorem double_not_lt_NaN {α : Type} [LinearOrder α] (a : double α) : ¬ a < double.NaN := by
  show ¬ (double.lt a double.NaN = true)
  cases a <;> simp [double.lt]

/-- Strictly increasing edges, at least two of them, are numbers: none is NaN. -/
theorem double_sorted_values {α : Type} [LinearOrder α] (e : List (double α))
    (hsorted : e.Pairwise (· < ·)) (hlen : 2 ≤ e.length) :
    ∃ e' : List α, e = e'.map double.value := by
  have hall : ∀ a ∈ e, ∃ x, a = double.value x := by
    intro a ha
    obtain ⟨i, hi, rfl⟩ := List.getElem_of_mem ha
    by_cases h0 : i = 0
    · subst h0
      obtain ⟨x, _, hx, _⟩ := double_lt_values _ _
        (List.pairwise_iff_getElem.mp hsorted 0 1 hi (by omega) (by omega))
      exact ⟨x, hx⟩
    · obtain ⟨_, y, _, hy⟩ := double_lt_values _ _
        (List.pairwise_iff_getElem.mp hsorted 0 i (by omega) hi (by omega))
      exact ⟨y, hy⟩
  clear hsorted hlen
  induction e with
  | nil => exact ⟨[], rfl⟩
  | cons a t ih =>
    obtain ⟨x, hx⟩ := hall a (List.mem_cons_self _ _)
    obtain ⟨t', ht'⟩ := ih (fun b hb => hall b (List.mem_cons_of_mem _ hb))
    exact ⟨x :: t', by rw [hx, ht', List.map_cons]⟩

theorem lower_bound_map_value {α : Type} [LinearOrder α] (e' : List α) (x : α) :
    lower_bound (e'.map double.value) (double.value x) = lower_bound e' x := by
  unfold lower_bound
  induction e' with
  | nil => rfl
  | cons a t ih =>
    rw [List.map_cons, List.findIdx_cons, List.findIdx_cons, ih]
    simp only [double_value_lt]

theorem find_OP_bin_index_value {α : Type} [LinearOrder α] (g : List (List (double α)))
    (ci : Nat) (e' : List α) (x : α) (hci : g[ci]? = some (e'.map double.value)) :
    find_OP_bin_index g (double.value x) ci = find_OP_bin_index [e'] x 0 := by
  unfold find_OP_bin_index
  simp only [hci, List.getElem?_cons_zero, List.head?_map, List.getLast?_map]
  cases e'.head? with
  | none => rfl
  | some front =>
    cases e'.getLast? with
    | none => rfl
    | some back =>
      simp only [Option.map_some', ge_iff_le, double_value_le, lower_bound_map_value]

theorem find_OP_bin_index_NaN {α : Type} [LinearOrder α] (g : List (List (double α)))
    (ci : Nat) (a : double α) (t : List (double α)) (hci : g[ci]? = some (a :: t)) :
    find_OP_bin_index g double.NaN ci = some (-1) := by
  unfold find_OP_bin_index
  simp only [hci, List.head?_cons]
  cases hlast : (a :: t).getLast? with
  | none => simp at hlast
  | some back =>
    simp only [ge_iff_le, (double_not_le_NaN a).1, (double_not_le_NaN back).2, if_false]
    have : lower_bound (a :: t) double.NaN = 0 := by
      unfold lower_bound
      rw [List.findIdx_cons]
      simp [double_not_lt_NaN]
    rw [this]
    rfl

/-- C20, the original claim fails for an order parameter that is NaN, with the
edges 0, 10, 20, 30: both comparisons of the guards are false, `std::lower_bound`
returns the first edge, and the routine returns -1 although neither `OP <= e_0` nor
`OP >= e_n` holds. -/
theorem find_OP_bin_index_nan_counterexample :
    find_OP_bin_index
      [[double.value (0 : Int), double.value 10, double.value 20, double.value 30]]
      double.NaN 0 = some (-1) ∧
    ¬ (double.NaN ≤ double.value (0 : Int)) ∧ ¬ (double.NaN ≥ double.value (30 : Int)) := by
  decide

/-- C20, amended: for strictly increasing bin edges `e_0 < ... < e_n` of chain `ci`,
`n ≥ 1`, `find_OP_bin_index(OP, ci)` returns -1 if and only if `OP <= e_0` or
`OP >= e_n` or `OP` is NaN, and otherwise it returns the unique index `i` with
`e_i < OP <= e_(i+1)`, for which `0 ≤ i < n`. -/
theorem find_OP_bin_index_double_spec {α : Type} [LinearOrder α]
    (g_OPBinLimits : List (List (double α))) (OP : double α) (ci n : Nat)
    (e : List (double α)) (e0 en : double α)
    (hci : g_OPBinLimits[ci]? = some e) (hlen : e.length = n + 1) (hn : 1 ≤ n)
    (hsorted : e.Pairwise (· < ·)) (h0 : e[0]? = some e0) (hend : e[n]? = some en) :
    ∃ r : Int, find_OP_bin_index g_OPBinLimits OP ci = some r ∧
      (r = -1 ↔ (OP ≤ e0 ∨ OP ≥ en ∨ OP = double.NaN)) ∧
      (r ≠ -1 → ∃ i : Nat, r = (i : Int) ∧ i < n ∧
        (∃ a b, e[i]? = some a ∧ e[i + 1]? = some b ∧ a < OP ∧ OP ≤ b) ∧
        ∀ (j : Nat) (c d : double α), e[j]? = some c → e[j + 1]? = some d → c < OP →
          OP ≤ d → j = i) := by
  obtain ⟨e', rfl⟩ := double_sorted_values e hsorted (by omega)
  cases OP with
  | NaN =>
    cases he : e'.map double.value with
    | nil =>
      rw [he] at hlen
      simp at hlen
    | cons a t =>
      rw [he] at hci
      exact ⟨-1, find_OP_bin_index_NaN g_OPBinLimits ci a t hci,
        ⟨fun _ => Or.inr (Or.inr rfl), fun _ => rfl⟩, fun h => absurd rfl h⟩
  | value x =>
    rw [List.length_map] at hlen
    have hsorted' : e'.Pairwise (· < ·) := by
      rw [List.pairwise_map] at hsorted
      exact hsorted.imp (fun h => (double_value_lt _ _).mp h)
    have hget : ∀ (j : Nat) (c : double α), (e'.map double.value)[j]? = some c →
        ∃ c', e'[j]? = some c' ∧ c = double.value c' := by
      intro j c hc
      rw [List.getElem?_map] at hc
      cases hj : e'[j]? with
      | none => rw [hj] at hc; cases hc
      | some c' =>
        rw [hj] at hc
        exact ⟨c', rfl, (Option.some.inj hc).symm⟩
    obtain ⟨e0', h0', rfl⟩ := hget 0 e0 h0
    obtain ⟨en', hend', rfl⟩ := hget n en hend
    obtain ⟨r, hr, hiff, hbin⟩ := find_OP_bin_index_ordered [e'] x 0 n e' e0' en' rfl hlen
      hsorted' h0' hend'
    refine ⟨r, by rw [find_OP_bin_index_value g_OPBinLimits ci e' x hci]; exact hr, ?_, ?_⟩
    · rw [hiff]
      constructor
      · rintro (h | h)
        · exact Or.inl ((double_value_le _ _).mpr h)
        · exact Or.inr (Or.inl ((double_value_le _ _).mpr h))
      · rintro (h | h | h)
        · exact Or.inl ((double_value_le _ _).mp h)
        · exact Or.inr ((double_value_le _ _).mp h)
        · cases h
    · intro hne
      obtain ⟨i, hri, hin, ⟨a, b, ha, hb, hlt, hle⟩, huniq⟩ := hbin hne
      refine ⟨i, hri, hin, ⟨double.value a, double.value b, ?_, ?_,
        (double_value_lt _ _).mpr hlt, (double_value_le _ _).mpr hle⟩, ?_⟩
      · rw [List.getElem?_map, ha]
        rfl
      · rw [List.getElem?_map, hb]
        rfl
      · intro j c d hc hd hclt hdle
        obtain ⟨c', hc', rfl⟩ := hget j c hc
        obtain ⟨d', hd', rfl⟩ := hget (j + 1) d hd
        exact huniq j c' d' hc' hd' ((double_value_lt _ _).mp hclt)
          ((double_value_le _ _).mp hdle)

/-- Witness for C20: one chain with the edges 0, 10, 20, 30 and the order
parameter 20, which lies in the bin of index 1. -/
theorem find_OP_bin_index_double_spec_witness :
    ∃ r : Int, find_OP_bin_index
        [[double.value (0 : Int), double.value 10, double.value 20, double.value 30]]
        (double.value 20) 0 = some r ∧
      (r = -1 ↔ (double.value (20 : Int) ≤ double.value 0 ∨
        double.value (20 : Int) ≥ double.value 30 ∨ double.value (20 : Int) = double.NaN)) ∧
      (r ≠ -1 → ∃ i : Nat, r = (i : Int) ∧ i < 3 ∧
        (∃ a b,
          [double.value (0 : Int), double.value 10, double.value 20, double.value 30][i]? =
            some a ∧
          [double.value (0 : Int), double.value 10, double.value 20, double.value 30][i + 1]? =
            some b ∧ a < double.value 20 ∧ double.value 20 ≤ b) ∧
        ∀ (j : Nat) (c d : double Int),
          [double.value (0 : Int), double.value 10, double.value 20, double.value 30][j]? =
            some c →
          [double.value (0 : Int), double.value 10, double.value 20, double.value 30][j + 1]? =
            some d → c < double.value 20 → double.value 20 ≤ d → j = i) :=
  find_OP_bin_index_double_spec
    [[double.value (0 : Int), double.value 10, double.value 20, double.value 30]]
    (double.value 20) 0 3
    [double.value (0 : Int), double.value 10, double.value 20, double.value 30]
    (double.value 0) (double.value 30) rfl rfl (by decide) (by decide) rfl rfl

/-! ### The labels of constant directions -/

theorem direction_prelude_flags (env : field_X_environment) (is_assign is_func_arg : Bool)
    (lfe lfe' : field_ref) (st st' : field_X_state)
    (h : direction_prelude env is_assign is_func_arg lfe st = some (lfe', st')) :
    lfe'.is_direction = true ∧ lfe'.is_constant_direction = lfe.is_constant_direction ∧
      lfe'.parityExpr = lfe.parityExpr := by
  unfold direction_prelude at h
  simp only at h
  split at h
  · cases h
    exact ⟨rfl, rfl, rfl⟩
  · cases h

/-- The reference that `field_X_prepare` returns carries the label that the code
computes, and it is not a constant direction when the direction expression is to
be traversed. -/
theorem field_X_prepare_label_recorded (env : field_X_environment)
    (e nameExpr parityExpr : Expr)
    (is_assign is_also_read is_X is_func_arg : Bool) (st st' : field_X_state)
    (lfe : field_ref) (b : Bool)
    (h : field_X_prepare env e nameExpr parityExpr is_assign is_also_read is_X is_func_arg st =
      some (lfe, st', b)) :
    label_recorded env lfe ∧ (b = true → lfe.is_constant_direction = false) := by
  unfold field_X_prepare at h
  simp only at h
  split at h
  · cases h
  · split at h
    · split at h
      · cases h
      · rename_i lfe1 st4 hpre
        obtain ⟨hdir, hconst, hpar⟩ := direction_prelude_flags env _ _ _ _ _ _ hpre
        have hconst1 : lfe1.is_constant_direction = false := by rw [hconst]; rfl
        have hpar1 : lfe1.parityExpr = parityExpr := by rw [hpar]; rfl
        split at h
        · cases h
          refine ⟨?_, fun hb => by cases hb⟩
          intro hc
          simp only [offset_branch] at hc
          rw [hconst1] at hc
          cases hc
        · split at h
          · cases h
          · rename_i ops value hop
            split at h
            · cases h
            · rename_i label hlab
              cases h
              refine ⟨?_, fun hb => by cases hb⟩
              intro _
              exact ⟨hdir, ops, value, by simpa [hpar1] using hop, hlab⟩
          · cases h
            refine ⟨?_, fun _ => rfl⟩
            intro hc
            cases hc
    · cases h
      refine ⟨?_, ?_⟩
      · intro hc
        cases hc
      · intro hb
        cases hb

/-- Every reference that a call, or a sequence of calls, of `handle_field_X_expr`
records carries the label that the code computes, when those recorded before
do. -/
theorem handle_field_X_expr_labels (env : field_X_environment) (c : field_X_call) :
    ∀ (st : field_X_state) (res : field_X_state × Bool),
      handle_field_X_expr env c st = some res →
      (∀ r ∈ st.field_ref_list, label_recorded env r) →
      ∀ r ∈ res.1.field_ref_list, label_recorded env r := by
  refine field_X_call.rec
    (motive_1 := fun c => ∀ (st : field_X_state) (res : field_X_state × Bool),
      handle_field_X_expr env c st = some res →
      (∀ r ∈ st.field_ref_list, label_recorded env r) →
      ∀ r ∈ res.1.field_ref_list, label_recorded env r)
    (motive_2 := fun cs => ∀ (st st' : field_X_state),
      handle_nested_calls env cs st = some st' →
      (∀ r ∈ st.field_ref_list, label_recorded env r) →
      ∀ r ∈ st'.field_ref_list, label_recorded env r)
    ?_ ?_ ?_ c
  · intro e operands is_assign is_also_read is_X is_func_arg nested ih st res h hst
    unfold handle_field_X_expr at h
    cases operands with
    | none => cases h
    | some np =>
      obtain ⟨nameExpr, parityExpr⟩ := np
      simp only at h
      by_cases hrec : st.field_ref_list.any (fun r => r.fullExpr.id == e.id) = true
      · rw [if_pos hrec] at h
        cases h
        exact hst
      · rw [if_neg hrec] at h
        cases hprep : field_X_prepare env e nameExpr parityExpr
            (is_assign && !env.isConstQualified nameExpr) is_also_read is_X is_func_arg st with
        | none =>
          rw [hprep] at h
          cases h
        | some r =>
          obtain ⟨lfe, st1, b⟩ := r
          obtain ⟨hlist, _⟩ := field_X_prepare_list env _ _ _ _ _ _ _ _ _ _ _ hprep
          obtain ⟨hlab, hb⟩ := field_X_prepare_label_recorded env _ _ _ _ _ _ _ _ _ _ _ hprep
          rw [hprep] at h
          cases b with
          | true =>
            simp only at h
            cases hnest : handle_nested_calls env nested st1 with
            | none =>
              rw [hnest] at h
              cases h
            | some st2 =>
              rw [hnest] at h
              cases h
              have h2 := ih st1 st2 hnest (by rw [hlist]; exact hst)
              intro r hr
              simp only [push_field_ref_list, List.mem_append, List.mem_singleton] at hr
              rcases hr with hr | hr
              · exact h2 r hr
              · subst hr
                intro hc
                have hf := hb rfl
                split at hc
                · simp only [hf] at hc
                  cases hc
                · rw [hf] at hc
                  cases hc
          | false =>
            simp only at h
            cases h
            intro r hr
            simp only [push_field_ref_list, List.mem_append, List.mem_singleton, hlist] at hr
            rcases hr with hr | hr
            · exact hst r hr
            · subst hr
              exact hlab
  · intro st st' h hst
    simp only [handle_nested_calls, Option.some.injEq] at h
    subst h
    exact hst
  · intro c rest ihc ihrest st st' h hst
    unfold handle_nested_calls at h
    cases hc : handle_field_X_expr env c st with
    | none =>
      rw [hc] at h
      cases h
    | some r =>
      obtain ⟨st1, b⟩ := r
      rw [hc] at h
      simp only at h
      exact ihrest st1 st' h (ihc st (st1, b) hc hst)

theorem handle_nested_calls_labels (env : field_X_environment) (cs : List field_X_call) :
    ∀ (st st' : field_X_state), handle_nested_calls env cs st = some st' →
      (∀ r ∈ st.field_ref_list, label_recorded env r) →
      ∀ r ∈ st'.field_ref_list, label_recorded env r := by
  induction cs with
  | nil =>
    intro st st' h hst
    simp only [handle_nested_calls, Option.some.injEq] at h
    subst h
    exact hst
  | cons c rest ih =>
    intro st st' h hst
    unfold handle_nested_calls at h
    cases hc : handle_field_X_expr env c st with
    | none =>
      rw [hc] at h
      cases h
    | some r =>
      obtain ⟨st1, b⟩ := r
      rw [hc] at h
      simp only at h
      exact ih st1 st' h (handle_field_X_expr_labels env c st (st1, b) hc hst)

theorem direction_label_operator (ops : String) (value label : Int)
    (h : direction_label ops value = some label) : ops = "+" ∨ ops = "-" := by
  unfold direction_label at h
  split at h
  · exact Or.inl (by assumption)
  · split at h
    · exact Or.inr (by assumption)
    · cases h

/-- C14: after a sequence of calls of `handle_field_X_expr` that starts from the
cleared `field_ref_list`, take two recorded references of one field of
`check_field_ref_list` that are marked as constant directions, whose direction
expressions have the operators `ops1`, `ops2` and the integer constants `d1`, `d2`,
both from 0 and below 50. The labels `constant_value` that the calls stored are
the value for `+` and the value plus 50 for `-` (`direction_label`); they are equal
exactly when the operators and the values agree; and the two references are in
the `ref_list` of a common entry of the `dir_list` of the field exactly in that
case. -/
theorem constant_direction_labels_distinct (env : field_X_environment)
    (is_duplicate_expr : Expr → Expr → Bool)
    (find_word : String → String → Option Nat) (inspect_field_type : Expr → vectorization_info)
    (li : loop_info_struct) (calls : List field_X_call) (st0 st : field_X_state)
    (l : field_info) (k1 k2 : Nat)
    (p1 p2 : field_ref) (ops1 ops2 : String) (d1 d2 : Int)
    (hclear : st0.field_ref_list = [])
    (hrun : handle_nested_calls env calls st0 = some st)
    (hl : l ∈ (check_field_ref_list is_duplicate_expr find_word inspect_field_type li
      st.field_ref_list).field_info_list)
    (hk1 : k1 ∈ l.ref_list) (hk2 : k2 ∈ l.ref_list)
    (hp1 : st.field_ref_list[k1]? = some p1) (hp2 : st.field_ref_list[k2]? = some p2)
    (hc1 : p1.is_constant_direction = true) (hc2 : p2.is_constant_direction = true)
    (ho1 : env.direction_operator p1.parityExpr = some (ops1, some d1))
    (ho2 : env.direction_operator p2.parityExpr = some (ops2, some d2))
    (hr1 : 0 ≤ d1 ∧ d1 < 50) (hr2 : 0 ≤ d2 ∧ d2 < 50) :
    direction_label ops1 d1 = some p1.constant_value ∧
    direction_label ops2 d2 = some p2.constant_value ∧
    (p1.constant_value = p2.constant_value ↔ ops1 = ops2 ∧ d1 = d2) ∧
    ((∃ (i : Nat) (dp : dir_ptr), l.dir_list[i]? = some dp ∧ k1 ∈ dp.ref_list ∧ k2 ∈ dp.ref_list) ↔
      ops1 = ops2 ∧ d1 = d2) := by
  have hall := handle_nested_calls_labels env calls st0 st hrun
    (by rw [hclear]; intro r hr; cases hr)
  obtain ⟨hd1, o1, v1, hop1, hl1⟩ := hall p1 (List.mem_iff_getElem?.mpr ⟨k1, hp1⟩) hc1
  obtain ⟨hd2, o2, v2, hop2, hl2⟩ := hall p2 (List.mem_iff_getElem?.mpr ⟨k2, hp2⟩) hc2
  rw [ho1] at hop1
  rw [ho2] at hop2
  simp only [Option.some.injEq, Prod.mk.injEq] at hop1 hop2
  obtain ⟨rfl, rfl⟩ := hop1
  obtain ⟨rfl, rfl⟩ := hop2
  obtain ⟨l0, hl0, hrl, hdl⟩ :=
    check_field_ref_list_mem is_duplicate_expr find_word inspect_field_type li
      st.field_ref_list l hl
  have hinv : dir_entries_inv st.field_ref_list l := by
    unfold dir_entries_inv
    rw [hrl, hdl]
    exact collect_fields_dir_entries is_duplicate_expr st.field_ref_list l0 hl0
  have hlabel := direction_label_injective ops1 ops2 d1 d2 _ _
    (direction_label_operator _ _ _ hl1) (direction_label_operator _ _ _ hl2) hr1 hr2 hl1 hl2
  exact ⟨hl1, hl2, hlabel,
    (dir_entries_same_entry_iff st.field_ref_list l hinv k1 k2 p1 p2 hk1 hk2 hp1 hp2 hd1 hd2
      hc1 hc2).trans hlabel⟩

/-- Witness for C14: the calls for `f[X+e_x]` and `f[X-e_x]` store the labels 0 and
50, and the two references are in two direction entries. -/
theorem constant_direction_labels_distinct_witness :
    direction_label "+" 0 = some ex_neighbour_ref.constant_value ∧
    direction_label "-" 0 = some ex_down_ref.constant_value ∧
    (ex_neighbour_ref.constant_value = ex_down_ref.constant_value ↔
      "+" = "-" ∧ (0 : Int) = 0) ∧
    ((∃ (i : Nat) (dp : dir_ptr), ex_field_up_down.dir_list[i]? = some dp ∧ 0 ∈ dp.ref_list ∧
      1 ∈ dp.ref_list) ↔ "+" = "-" ∧ (0 : Int) = 0) :=
  constant_direction_labels_distinct ex_field_X_environment ex_is_duplicate_expr ex_find_word
    ex_inspect_field_type ⟨Parity.all, "ALL", false, "", false⟩
    [ex_call_neighbour, ex_call_down] ex_field_X_start
    { ex_field_X_start with field_ref_list := [ex_neighbour_ref, ex_down_ref] }
    ex_field_up_down 0 1 ex_neighbour_ref ex_down_ref "+" "-" 0 0 rfl (by decide) (by decide)
    (by decide) (by decide) rfl rfl rfl rfl (by decide) (by decide) (by decide) (by decide)

end HILA
